import Mathlib

/-!
# Editor1

A shallow embedding of `main.c`, the single source file of the terminal text
editor, and the properties of its document model, row renderer, syntax
highlighter, file loader, screen refresh and search.

Modelling conventions.

* A byte is a `Nat`; a C string or a `(pointer, size)` pair is the `List Nat`
  of its bytes, without the terminating NUL.  Reading one position past the
  end of such a list yields the NUL byte `0`.
* `Row.size` and `Row.rendered_size` are the lengths of `data` and `rendered`;
  `Row.highlights` is the allocated highlight buffer, one entry per byte of
  the allocation.
* `Editor.row` is the allocated row array (its length is the capacity of the
  allocation) and `Editor.row_count` the number of rows of the document; the
  cells at positions `row_count` and above are memory the C program keeps
  allocated but does not regard as rows.
* A `Row*` argument is the position of the row in `Editor.row`.
* C `int`s are `Int` (or `Nat` where the program keeps them non-negative);
  arithmetic overflow is not modelled.
* A write through a pointer outside the allocated array is dropped, a read
  outside it yields a zeroed cell: C leaves both undefined.
* A file is the list of its bytes, and `getline` the list of the lines it
  returns in turn.  The keys `read_key` returns are a list of key codes; a
  function that reads keys returns `none` when the list ends while it waits
  for a key.
* What `refresh_screen` writes for a row is the list of the messages it
  passes to `buffer_append`, in order; the screen buffer is their
  concatenation.
-/

namespace Editor1

/-! ## Constants -/

def TAB_STOP : Nat := 8
def QUIT_TIMES : Int := 3
def INT_MAX : Int := 2147483647

def HIGHLIGHT_NUMBERS : Nat := 1
def HIGHLIGHT_STRINGS : Nat := 2

def HIGHLIGHT_NORMAL : Nat := 0
def HIGHLIGHT_COMMENT : Nat := 1
def HIGHLIGHT_COMMENTS : Nat := 2
def HIGHLIGHT_KEYWORD1 : Nat := 3
def HIGHLIGHT_KEYWORD2 : Nat := 4
def HIGHLIGHT_STRING : Nat := 5
def HIGHLIGHT_NUMBER : Nat := 6
def HIGHLIGHT_MATCH : Nat := 7

def BACKSPACE : Int := 0x7F
def ARROW_UP : Int := 0xF0
def ARROW_DOWN : Int := 0xF1
def ARROW_RIGHT : Int := 0xF2
def ARROW_LEFT : Int := 0xF3
def PAGE_UP : Int := 0xF4
def PAGE_DOWN : Int := 0xF5
def HOME_KEY : Int := 0xF6
def END_KEY : Int := 0xF7
def DELETE_KEY : Int := 0xF8

/-- The macro `CTRL_KEY(k)`, `k & 0x1F`. -/
def CTRL_KEY (k : Nat) : Int := ((k % 32 : Nat) : Int)

/-- The bytes of a C string literal. -/
def cstr (s : String) : List Nat := s.toList.map Char.toNat

/-! ## `ctype.h` in the "C" locale -/

def isspace (c : Nat) : Bool := c == 32 || (9 ≤ c && c ≤ 13)

def isdigit (c : Nat) : Bool := 48 ≤ c && c ≤ 57

def isprint (c : Int) : Bool := 32 ≤ c && c ≤ 126

def iscntrl (c : Nat) : Bool := c < 32 || c == 127

/-! ## Data model -/

/-- The struct `Syntax`. -/
structure Syntax where
  file_type : List Nat
  file_match : List (List Nat)
  keywords : List (List Nat)
  single_line_comment_start : List Nat
  multi_line_comment_start : List Nat
  multi_line_comment_end : List Nat
  flags : Nat
deriving DecidableEq, Repr

def c_extensions : List (List Nat) := [cstr ".c", cstr ".h", cstr ".cpp"]

def c_keywords : List (List Nat) :=
  [ "switch", "if",      "while",   "for",    "break", "continue",  "return",  "else",
    "struct", "union",   "typedef", "static", "enum",  "class",     "case",    "extern",
    "int|",   "long|",   "double|", "float|", "char|", "unsigned|", "signed|", "void|" ].map cstr

def haskell_extensions : List (List Nat) := [cstr ".hs"]

def haskell_keywords : List (List Nat) :=
  [ "!",        "\'",        "\"",      "-",       "->",        "::",       ";",       "<-",
    ",",        "=",         "=>",      ">",       "?",         "#",        "*",       "@",
    "\\",       "_",         "as|",     "case|",   "of|",       "class|",   "data|",   "family|",
    "default|", "deriving|", "do|",     "forall|", "instance|", "foreign|", "hiding|", "if|",
    "then|",    "else|",     "import|", "infix|",  "infixl|",   "infixr|",  "let|",    "in|",
    "module|",  "newtype|",  "type|",   "where|" ].map cstr

def c_profile : Syntax :=
  { file_type := cstr "c"
    file_match := c_extensions
    keywords := c_keywords
    single_line_comment_start := cstr "//"
    multi_line_comment_start := cstr "/*"
    multi_line_comment_end := cstr "*/"
    flags := HIGHLIGHT_NUMBERS ||| HIGHLIGHT_STRINGS }

def haskell_profile : Syntax :=
  { file_type := cstr "haskell"
    file_match := haskell_extensions
    keywords := haskell_keywords
    single_line_comment_start := cstr "--"
    multi_line_comment_start := cstr "\x7b-"
    multi_line_comment_end := cstr "-\x7d"
    flags := HIGHLIGHT_NUMBERS ||| HIGHLIGHT_STRINGS }

/-- The table `syntaxes`. -/
def syntaxes : List Syntax := [c_profile, haskell_profile]

/-- The struct `Row`; `size` and `rendered_size` are the lengths of `data`
and `rendered`. -/
structure Row where
  index : Int
  data : List Nat
  rendered : List Nat
  highlights : List Nat
  open_comment : Bool
deriving DecidableEq, Repr, Inhabited

def Row.size (row : Row) : Nat := row.data.length

def Row.rendered_size (row : Row) : Nat := row.rendered.length

/-- The struct `Editor`, without the output buffer and the status message. -/
structure Editor where
  file_name : Option (List Nat)
  rows : Int
  columns : Int
  row_offset : Int
  column_offset : Int
  cursor_x : Int
  cursor_y : Int
  rendered_x : Int
  row_count : Nat
  row : List Row
  dirty : Int
  quit_times : Int
  last_match : Int
  direction : Int
  saved_highlight_line : Int
  saved_highlight : Option (List Nat)
  syntax_ : Option Syntax
deriving DecidableEq, Repr

/-- The zero-initialised `Editor editor = {}` of `main`. -/
def empty_editor : Editor :=
  { file_name := none, rows := 0, columns := 0, row_offset := 0, column_offset := 0,
    cursor_x := 0, cursor_y := 0, rendered_x := 0, row_count := 0, row := [],
    dirty := 0, quit_times := 0, last_match := 0, direction := 0,
    saved_highlight_line := 0, saved_highlight := none, syntax_ := none }

/-! ## Memory primitives -/

/-- `memset(&buffer[start], value, n)`. -/
def memset : List Nat → Nat → Nat → Nat → List Nat
  | buffer, _, _, 0 => buffer
  | buffer, start, value, n + 1 => memset (buffer.set start value) (start + 1) value n

/-- Store the elements of a list at consecutive positions from `dst` on. -/
def write_at {α : Type} : List α → Nat → List α → List α
  | cells, _, [] => cells
  | cells, dst, x :: xs => write_at (cells.set dst x) (dst + 1) xs

/-- `memmove(&cells[dst], &cells[src], n * sizeof(cell))`. -/
def memmove {α : Type} (cells : List α) (dst src n : Nat) : List α :=
  write_at cells dst ((cells.drop src).take n)

/-- `strncmp(s, t, n) == 0` on NUL-terminated strings. -/
def strncmp_eq : List Nat → List Nat → Nat → Bool
  | _, _, 0 => true
  | s, t, n + 1 =>
    if s.headD 0 != t.headD 0 then false
    else if s.headD 0 == 0 then true
    else strncmp_eq s.tail t.tail n

/-! ## Highlighter -/

def is_seperator (c : Nat) : Bool :=
  isspace c || c == 0 || (cstr ",.()+-/*=~%<>[];").contains c

/-- The local variables of the scanning loop of `highlight_row`, with the
row's highlight buffer. -/
structure Scan where
  highlights : List Nat
  previous_seperator : Bool
  in_string : Nat
  in_comment : Bool
  index : Nat
deriving DecidableEq, Repr

/-- The keyword loop of `highlight_row` (lines 471-488) at position `index`:
the highlight class and the size of the first keyword that matches there and
is followed by a separator. -/
def keyword_search (rendered : List Nat) (index : Nat) : List (List Nat) → Option (Nat × Nat)
  | [] => none
  | keyword :: keywords =>
    let is_keyword2 := keyword.getLast? == some 124
    let keyword_size := if is_keyword2 then keyword.length - 1 else keyword.length
    if strncmp_eq (rendered.drop index) keyword keyword_size
        && is_seperator (rendered.getD (index + keyword_size) 0) then
      some (if is_keyword2 then HIGHLIGHT_KEYWORD2 else HIGHLIGHT_KEYWORD1, keyword_size)
    else keyword_search rendered index keywords

/-- Line 402 of `highlight_row`:
`index == 0 ? HIGHLIGHT_NORMAL : row->highlights[index - 1]`. -/
def previous_highlight (highlights : List Nat) (index : Nat) : Nat :=
  if index = 0 then HIGHLIGHT_NORMAL else highlights.getD (index - 1) 0

/-- One iteration of the `while` loop of `highlight_row` (lines 401-497), run
when `index < rendered_size`.  The flag is `true` when the iteration leaves
the loop by `break`. -/
def highlight_step (syn : Syntax) (rendered : List Nat) (s : Scan) : Scan × Bool :=
  let c := rendered.getD s.index 0
  let single := syn.single_line_comment_start
  let multi_start := syn.multi_line_comment_start
  let multi_end := syn.multi_line_comment_end
  if decide (single.length > 0) && s.in_string == 0 && !s.in_comment
      && strncmp_eq (rendered.drop s.index) single single.length then
    ({ s with highlights :=
        memset s.highlights s.index HIGHLIGHT_COMMENT (rendered.length - s.index) }, true)
  else if decide (multi_start.length > 0) && decide (multi_end.length > 0)
      && s.in_string == 0 && s.in_comment then
    if strncmp_eq (rendered.drop s.index) multi_end multi_end.length then
      ({ s with
          highlights := memset s.highlights s.index HIGHLIGHT_COMMENTS multi_end.length
          index := s.index + multi_end.length
          in_comment := false
          previous_seperator := true }, false)
    else
      ({ s with index := s.index + 1 }, false)
  else if decide (multi_start.length > 0) && decide (multi_end.length > 0)
      && s.in_string == 0 && strncmp_eq (rendered.drop s.index) multi_start multi_start.length then
    ({ s with
        highlights := memset s.highlights s.index HIGHLIGHT_COMMENTS multi_start.length
        index := s.index + multi_start.length
        in_comment := true }, false)
  else if syn.flags &&& HIGHLIGHT_STRINGS != 0 && s.in_string != 0 then
    if c == 39 && decide (s.index + 1 < rendered.length) then
      ({ s with
          highlights := (s.highlights.set s.index HIGHLIGHT_STRING).set (s.index + 1)
            HIGHLIGHT_STRING
          index := s.index + 2 }, false)
    else
      ({ s with
          highlights := s.highlights.set s.index HIGHLIGHT_STRING
          in_string := if c == s.in_string then 0 else s.in_string
          previous_seperator := false
          index := s.index + 1 }, false)
  else if syn.flags &&& HIGHLIGHT_STRINGS != 0 && (c == 34 || c == 39) then
    ({ s with
        in_string := c
        highlights := s.highlights.set s.index HIGHLIGHT_STRING
        index := s.index + 1 }, false)
  else
    let previous_number := previous_highlight s.highlights s.index == HIGHLIGHT_NUMBER
    let chained := isdigit c && (s.previous_seperator || previous_number)
    if syn.flags &&& HIGHLIGHT_NUMBERS != 0 && (chained || (c == 46 && previous_number)) then
      ({ s with
          highlights := s.highlights.set s.index HIGHLIGHT_NUMBER
          previous_seperator := false
          index := s.index + 1 }, false)
    else
      match (if s.previous_seperator then keyword_search rendered s.index syn.keywords
             else none) with
      | some (highlight, keyword_size) =>
        ({ s with
            highlights := memset s.highlights s.index highlight keyword_size
            index := s.index + keyword_size
            previous_seperator := false }, false)
      | none =>
        ({ s with previous_seperator := is_seperator c, index := s.index + 1 }, false)

/-- The `while (index < row->rendered_size)` loop of `highlight_row`, at most
`fuel` iterations of it. -/
def highlight_loop (syn : Syntax) (rendered : List Nat) : Nat → Scan → Scan
  | 0, s => s
  | fuel + 1, s =>
    if s.index < rendered.length then
      match highlight_step syn rendered s with
      | (s', true) => s'
      | (s', false) => highlight_loop syn rendered fuel s'
    else s

/-- The scan of one row by `highlight_row` (lines 372-498), given the value
`in_comment` is seeded with: the highlight buffer and the final `in_comment`.
The buffer is resized and cleared only when `rendered_size > 0`.  Every
iteration either advances `index` or clears `previous_seperator`, so
`2 * rendered_size + 2` iterations reach the end of the loop. -/
def highlight_scan (syn : Syntax) (rendered highlights : List Nat) (in_comment : Bool) : Scan :=
  highlight_loop syn rendered (2 * rendered.length + 2)
    { highlights := highlights, previous_seperator := true, in_string := 0,
      in_comment := in_comment, index := 0 }

/-- Lines 373-381 of `highlight_row`: the buffer is reallocated to
`rendered_size` entries and cleared, unless the rendered text is empty. -/
def clear_highlights (row : Row) : List Nat :=
  if row.rendered_size > 0 then List.replicate row.rendered_size HIGHLIGHT_NORMAL
  else row.highlights

/-- The value `in_comment` starts with in `highlight_row` (line 398):
`row->index > 0 && editor->row[row->index - 1].open_comment`. -/
def seed_in_comment (cells : List Row) (row : Row) : Bool :=
  decide (row.index > 0) && (cells.getD (row.index - 1).toNat default).open_comment

/-- The row as lines 373-501 of `highlight_row` leave it when a syntax is
selected: the scanned highlights, and `open_comment` set to the final
`in_comment`. -/
def highlighted (syn : Syntax) (row : Row) (in_comment : Bool) : Row :=
  let s := highlight_scan syn row.rendered (clear_highlights row) in_comment
  { row with highlights := s.highlights, open_comment := s.in_comment }

/-- The effect of `highlight_row` on the row array, for the row at position
`at_row`, with at most `fuel` nested calls (the call itself and the calls for
following rows).  Of the editor the function reads `syntax`, `row_count` and
the row array, and it writes the row array only. -/
def highlight_cells (syn : Option Syntax) (row_count : Nat) :
    Nat → List Row → Nat → List Row
  | 0, cells, _ => cells
  | fuel + 1, cells, at_row =>
    match cells[at_row]? with
    | none => cells
    | some row =>
      match syn with
      | none => cells.set at_row { row with highlights := clear_highlights row }
      | some syn' =>
        let row' := highlighted syn' row (seed_in_comment cells row)
        let changed := row.open_comment != row'.open_comment
        if changed && decide (row.index + 1 < row_count) then
          highlight_cells syn row_count fuel (cells.set at_row row') (row.index + 1).toNat
        else cells.set at_row row'

/-- The function `highlight_row`.  While every row's `index` is at least its
position the nested calls visit increasing positions below `row_count`, so
`row_count + 1` calls reach the end of the recursion. -/
def highlight_row (e : Editor) (at_row : Nat) : Editor :=
  { e with row := highlight_cells e.syntax_ e.row_count (e.row_count + 1) e.row at_row }

/-! ## Row renderer -/

/-- The `do ... while (cursor % TAB_STOP != 0)` loop of `render_row`, at most
`fuel` iterations; the write cursor is the length of the text produced. -/
def render_tab : Nat → List Nat → List Nat
  | 0, rendered => rendered
  | fuel + 1, rendered =>
    if (rendered ++ [32]).length % TAB_STOP != 0 then render_tab fuel (rendered ++ [32])
    else rendered ++ [32]

/-- The second `for` loop of `render_row` over the remaining raw bytes. -/
def render_loop : List Nat → List Nat → List Nat
  | [], rendered => rendered
  | c :: data, rendered =>
    if c == 9 then render_loop data (render_tab TAB_STOP rendered)
    else render_loop data (rendered ++ [c])

/-- The rendered text `render_row` computes from the raw text. -/
def render_text (data : List Nat) : List Nat := render_loop data []

/-- The function `render_row`. -/
def render_row (e : Editor) (at_row : Nat) : Editor :=
  match e.row[at_row]? with
  | none => e
  | some row =>
    highlight_row
      { e with row := e.row.set at_row { row with rendered := render_text row.data } } at_row

/-! ## Document operations -/

/-- The row array as `insert_row` leaves it at line 598, before the new row
is rendered: the array reallocated to `row_count + 1` cells, the rows from
`at_` on moved up by one, their `index` incremented, and the cell at `at_`
reset to hold a copy of the text. -/
def insert_row_cells (e : Editor) (text : List Nat) (at_ : Nat) : List Row :=
  let cells := (e.row ++ [default]).take (e.row_count + 1)
  let cells :=
    if at_ != e.row_count then memmove cells (at_ + 1) at_ (e.row_count - at_) else cells
  let cells := cells.mapIdx fun i row =>
    if at_ + 1 ≤ i ∧ i ≤ e.row_count then { row with index := row.index + 1 } else row
  cells.set at_
    { index := at_, data := text, rendered := [], highlights := [], open_comment := false }

/-- The function `insert_row`. -/
def insert_row (e : Editor) (text : List Nat) (at_ : Int) : Editor :=
  if at_ < 0 ∨ at_ > e.row_count then e
  else
    let e := render_row { e with row := insert_row_cells e text at_.toNat } at_.toNat
    { e with row_count := e.row_count + 1 }

/-- The function `append_row`. -/
def append_row (e : Editor) (text : List Nat) : Editor :=
  insert_row e text e.row_count

/-- The function `delete_row`. -/
def delete_row (e : Editor) (at_ : Int) : Editor :=
  if 0 ≤ at_ ∧ at_ < e.row_count then
    let cells := memmove e.row at_.toNat (at_.toNat + 1) (e.row_count - at_.toNat - 1)
    let cells := cells.mapIdx fun i row =>
      if at_.toNat + 1 ≤ i ∧ i ≤ e.row_count then { row with index := row.index - 1 } else row
    { e with row := cells, row_count := e.row_count - 1 }
  else e

/-- The function `row_append_string`. -/
def row_append_string (e : Editor) (at_row : Nat) (text : List Nat) : Editor :=
  match e.row[at_row]? with
  | none => e
  | some row =>
    render_row { e with row := e.row.set at_row { row with data := row.data ++ text } } at_row

/-- The function `insert_char`. -/
def insert_char (e : Editor) (at_row : Nat) (at_ : Int) (c : Nat) : Editor :=
  match e.row[at_row]? with
  | none => e
  | some row =>
    let at_ := if at_ < 0 ∨ at_ > row.size then row.size else at_.toNat
    let row' := { row with data := row.data.take at_ ++ c :: row.data.drop at_ }
    render_row { e with row := e.row.set at_row row' } at_row

/-- The function `delete_char`. -/
def delete_char (e : Editor) (at_row : Nat) (at_ : Int) : Editor :=
  match e.row[at_row]? with
  | none => e
  | some row =>
    if 0 ≤ at_ ∧ at_ < row.size then
      render_row
        { e with row := e.row.set at_row { row with data := row.data.eraseIdx at_.toNat } }
        at_row
    else e

/-! ## Key handling -/

/-- The block of `handle_key` for Backspace, Ctrl-H and Delete (lines
884-904); `recurse` is the nested call `handle_key(editor, ARROW_RIGHT)`. -/
def handle_backspace (recurse : Editor → Editor) (e : Editor) (c : Int) : Editor :=
  let e := if c == DELETE_KEY then recurse e else e
  let in_bounds := decide (e.cursor_y < e.row_count)
  let is_origin := e.cursor_x == 0 && e.cursor_y == 0
  let e :=
    if in_bounds && !is_origin then
      if e.cursor_x > 0 then
        let e := delete_char e e.cursor_y.toNat (e.cursor_x - 1)
        { e with cursor_x := e.cursor_x - 1 }
      else
        let old_row := e.row.getD e.cursor_y.toNat default
        let new_row := e.row.getD (e.cursor_y - 1).toNat default
        let e := { e with cursor_x := new_row.size }
        let e := row_append_string e (e.cursor_y - 1).toNat old_row.data
        let e := delete_row e e.cursor_y
        { e with cursor_y := e.cursor_y - 1 }
    else e
  { e with dirty := 1 }

/-- Lines 913-916 of `handle_key`: the row at `at_row` is cut to its first
`size` raw bytes and rendered again. -/
def truncate_row (e : Editor) (at_row : Nat) (size : Nat) : Editor :=
  match e.row[at_row]? with
  | none => e
  | some row =>
    render_row { e with row := e.row.set at_row { row with data := row.data.take size } } at_row

/-- The block of `handle_key` for Enter (lines 905-920). -/
def handle_enter (e : Editor) : Editor :=
  let e :=
    if e.cursor_x == 0 then insert_row e [] e.cursor_y
    else
      let row := e.row.getD e.cursor_y.toNat default
      let e := insert_row e (row.data.drop e.cursor_x.toNat) (e.cursor_y + 1)
      truncate_row e e.cursor_y.toNat e.cursor_x.toNat
  { e with cursor_y := e.cursor_y + 1, cursor_x := 0 }

/-- The block of `handle_key` for a printable key (lines 921-928). -/
def handle_printable (e : Editor) (c : Int) : Editor :=
  let e := if e.cursor_y == e.row_count then append_row e [] else e
  let e := insert_char e e.cursor_y.toNat e.cursor_x c.toNat
  { e with dirty := 1, cursor_x := e.cursor_x + 1 }

/-- The raw size of the row under the cursor, `0` when the cursor is below
the document (lines 821-824 and 930-933). -/
def cursor_row_size (e : Editor) : Int :=
  if e.cursor_y < e.row_count then ((e.row.getD e.cursor_y.toNat default).size : Int) else 0

/-- Lines 826-838 of `handle_key`: Ctrl-Q that does not exit counts one more
press, any other key resets the count. -/
def handle_quit_times (e : Editor) (c : Int) : Editor :=
  if c == CTRL_KEY 113 then { e with quit_times := e.quit_times + 1 }
  else { e with quit_times := 0 }

/-- Lines 845-850 of `handle_key`: the up and down arrows. -/
def handle_arrow_up_down (e : Editor) (c : Int) : Editor :=
  let e :=
    if c == ARROW_UP && decide (e.cursor_y > 0) then { e with cursor_y := e.cursor_y - 1 }
    else e
  if c == ARROW_DOWN && decide (e.cursor_y ≤ e.rows) then { e with cursor_y := e.cursor_y + 1 }
  else e

/-- Lines 851-866 of `handle_key`: the right and left arrows; `row_size` is
the size computed on entry. -/
def handle_arrow_right_left (row_size : Int) (e : Editor) (c : Int) : Editor :=
  let e :=
    if c == ARROW_RIGHT then
      if e.cursor_x < row_size then { e with cursor_x := e.cursor_x + 1 }
      else { e with cursor_y := e.cursor_y + 1, cursor_x := 0 }
    else e
  if c == ARROW_LEFT then
    if e.cursor_x > 0 then { e with cursor_x := e.cursor_x - 1 }
    else if e.cursor_y > 0 then { e with cursor_y := e.cursor_y - 1, cursor_x := INT_MAX }
    else e
  else e

/-- Lines 867-875 of `handle_key`: Page Up and Page Down. -/
def handle_page (e : Editor) (c : Int) : Editor :=
  let e := if c == PAGE_UP then { e with cursor_y := e.row_offset } else e
  if c == PAGE_DOWN then
    let e := { e with cursor_y := e.row_offset + e.rows - 1 }
    if e.cursor_y > e.rows then { e with cursor_y := e.rows } else e
  else e

/-- Lines 876-883 of `handle_key`: Home and End. -/
def handle_home_end (e : Editor) (c : Int) : Editor :=
  let e := if c == HOME_KEY then { e with cursor_x := 0 } else e
  if c == END_KEY then
    if e.cursor_y < e.row_count then
      { e with cursor_x := (e.row.getD e.cursor_y.toNat default).size }
    else e
  else e

/-- Lines 930-936 of `handle_key`: the cursor column is clamped to the size
of the row under the cursor. -/
def clamp_cursor_x (e : Editor) : Editor :=
  if e.cursor_x > cursor_row_size e then { e with cursor_x := cursor_row_size e } else e

/-- The function `handle_key` when it does not leave the program.  The
search prompt and the save dialogue read keys and write files; they are the
parameters `find_editor` and `save_editor`.  `recurse` is the nested call
`handle_key(editor, ARROW_RIGHT)` of the Delete key. -/
def handle_key_body (recurse find_editor save_editor : Editor → Editor)
    (e : Editor) (c : Int) : Editor :=
  let row_size := cursor_row_size e
  let e := handle_quit_times e c
  let e := if c == CTRL_KEY 102 then find_editor e else e
  let e := if c == CTRL_KEY 115 then save_editor e else e
  let e := handle_arrow_up_down e c
  let e := handle_arrow_right_left row_size e c
  let e := handle_page e c
  let e := handle_home_end e c
  let e :=
    if c == BACKSPACE || c == CTRL_KEY 104 || c == DELETE_KEY then handle_backspace recurse e c
    else e
  let e := if c == 13 then handle_enter e else e
  let e := if isprint c then handle_printable e c else e
  clamp_cursor_x e

/-- The function `handle_key`; `none` when the program exits (Ctrl-Q with
no unsaved changes, or pressed `QUIT_TIMES` times before). -/
def handle_key (find_editor save_editor : Editor → Editor) (e : Editor) (c : Int) :
    Option Editor :=
  if c == CTRL_KEY 113 && (e.dirty == 0 || e.quit_times == QUIT_TIMES) then none
  else
    some (handle_key_body
      (fun e' => handle_key_body id find_editor save_editor e' ARROW_RIGHT)
      find_editor save_editor e c)

/-! ## Serialisation and loading -/

/-- The first loop of `rows_to_string` (lines 651-654): the sizes of the
first `row_count` rows, one more for each. -/
def rows_to_string_size (e : Editor) : Nat :=
  (List.range e.row_count).foldl (fun size i => size + ((e.row.getD i default).size + 1)) 0

/-- One iteration of the second loop of `rows_to_string` (lines 658-661) on
the result buffer and the write cursor. -/
def rows_to_string_step (e : Editor) (state : List Nat × Nat) (i : Nat) : List Nat × Nat :=
  let row := e.row.getD i default
  ((write_at state.1 state.2 row.data).set (state.2 + row.size) 10, state.2 + row.size + 1)

/-- The function `rows_to_string`: the buffer it returns and the size it
stores in `*size_out`.  The buffer is allocated with `size` bytes, zero in
the model until they are written. -/
def rows_to_string (e : Editor) : List Nat × Nat :=
  let size := rows_to_string_size e
  let result := List.replicate size 0
  (((List.range e.row_count).foldl (rows_to_string_step e) (result, 0)).1, size)

/-- `strchr(s, c)` for a byte `c` other than NUL: the part of the string from
the first `c` on, `none` (a null pointer) when the string has no `c`. -/
def strchr (s : List Nat) (c : Nat) : Option (List Nat) :=
  match s.dropWhile (fun b => b != c) with
  | [] => none
  | rest => some rest

/-- The test of `select_syntax` for one entry of `file_match` (lines
518-528): an entry that starts with a dot is compared with the part of the
file name from its first dot on; any other entry matches when `strcmp`
returns non-zero, that is when it differs from the file name. -/
def select_syntax_match (file_name : List Nat) (extension : Option (List Nat))
    (pattern : List Nat) : Bool :=
  if pattern.headD 0 == 46 then extension == some pattern
  else file_name != pattern

/-- Lines 530-532 of `select_syntax`: `highlight_row` on every row. -/
def highlight_all (e : Editor) : Editor :=
  (List.range e.row_count).foldl highlight_row e

/-- The inner loop of `select_syntax` over the `file_match` entries of one
syntax; it stops at the first entry that matches. -/
def select_syntax_entries (file_name : List Nat) (extension : Option (List Nat))
    (syn : Syntax) (e : Editor) : List (List Nat) → Editor
  | [] => e
  | pattern :: patterns =>
    if select_syntax_match file_name extension pattern then
      highlight_all { e with syntax_ := some syn }
    else select_syntax_entries file_name extension syn e patterns

/-- The function `select_syntax`. -/
def select_syntax (e : Editor) : Editor :=
  match e.file_name with
  | none => { e with syntax_ := none }
  | some file_name =>
    syntaxes.foldl
      (fun e' syn =>
        select_syntax_entries file_name (strchr file_name 46) syn e' syn.file_match)
      { e with syntax_ := none }

/-- The lines successive calls of `getline` return for a stream, each with
its newline byte when the stream has one there; `line` holds the bytes of the
current line read so far. -/
def getlines_from (line : List Nat) : List Nat → List (List Nat)
  | [] => if line = [] then [] else [line]
  | c :: stream =>
    if c = 10 then (line ++ [10]) :: getlines_from [] stream
    else getlines_from (line ++ [c]) stream

/-- The lines `getline` returns for the content of a file. -/
def getlines (content : List Nat) : List (List Nat) := getlines_from [] content

/-- Lines 682-688 of `open_editor`: `line_size` is decremented while the
last byte of the line is a newline or a carriage return. -/
def strip_line_end (line : List Nat) : List Nat :=
  (line.reverse.dropWhile fun c => c == 10 || c == 13).reverse

/-- The function `open_editor` on a file that `fopen` opens, given the
content of the file. -/
def open_editor (e : Editor) (content : List Nat) : Editor :=
  (getlines content).foldl (fun e' line => append_row e' (strip_line_end line))
    ( select_syntax e)

/-! ## Screen refresh -/

/-- Lines 949-954 of `refresh_screen`: the rendered column of the raw column
`cursor_x`, computed by walking the raw bytes before it. -/
def rendered_column (data : List Nat) (cursor_x : Nat) : Nat :=
  (List.range cursor_x).foldl
    (fun rendered_x i =>
      (if data.getD i 0 == 9 then rendered_x + ((TAB_STOP - 1) - rendered_x % TAB_STOP)
       else rendered_x) + 1)
    0

/-- Lines 947-968 of `refresh_screen`, the part of the function that changes
the editor: `rendered_x` is computed from the cursor, and the two scroll
offsets are adjusted to it. -/
def refresh_screen_scroll (e : Editor) : Editor :=
  let rendered_x : Int :=
    if e.cursor_y < e.row_count then
      rendered_column (e.row.getD e.cursor_y.toNat default).data e.cursor_x.toNat
    else 0
  let row_offset := if e.cursor_y < e.row_offset then e.cursor_y else e.row_offset
  let row_offset :=
    if e.cursor_y > row_offset + e.rows then e.cursor_y - e.rows + 1 else row_offset
  let column_offset := if rendered_x < e.column_offset then rendered_x else e.column_offset
  let column_offset :=
    if rendered_x > column_offset + e.columns then rendered_x - e.columns + 1
    else column_offset
  { e with rendered_x := rendered_x, row_offset := row_offset, column_offset := column_offset }

/-- The bytes `snprintf` writes for `%d`. -/
def decimal (n : Int) : List Nat :=
  if n < 0 then 45 :: (Nat.toDigits 10 (-n).toNat).map Char.toNat
  else (Nat.toDigits 10 n.toNat).map Char.toNat

/-- The bytes of `snprintf(command, sizeof(command), "\x1b[%dm", color)`. -/
def color_command (color : Int) : List Nat := [27, 91] ++ decimal color ++ [109]

/-- Lines 1004-1022 of `refresh_screen`: the colour of a highlight class. -/
def highlight_color (highlight : Nat) : Int :=
  let color : Int := 39
  let color :=
    if highlight == HIGHLIGHT_COMMENT || highlight == HIGHLIGHT_COMMENTS then 36 else color
  let color := if highlight == HIGHLIGHT_KEYWORD1 then 33 else color
  let color := if highlight == HIGHLIGHT_KEYWORD2 then 32 else color
  let color := if highlight == HIGHLIGHT_STRING then 35 else color
  let color := if highlight == HIGHLIGHT_NUMBER then 31 else color
  if highlight == HIGHLIGHT_MATCH then 34 else color

/-- The byte at index `i` of a buffer, `0` outside it. -/
def byte_at (buffer : List Nat) (i : Int) : Nat :=
  if i < 0 then 0 else buffer.getD i.toNat 0

/-- One iteration of the loop of `refresh_screen` over the bytes of a row
(lines 988-1030).  The state is the list of the messages passed to
`buffer_append` so far, in order, and `current_color`. -/
def draw_byte (row : Row) (state : List (List Nat) × Int) (i : Int) : List (List Nat) × Int :=
  let highlight := byte_at row.highlights i
  let c := byte_at row.rendered i
  if iscntrl c then
    let symbol := if c ≤ 26 then 64 + c else 63
    let messages := state.1 ++ [cstr "\x1b[7m", [symbol], cstr "\x1b[m"]
    if state.2 != -1 then (messages ++ [color_command state.2], state.2)
    else (messages, state.2)
  else if highlight == HIGHLIGHT_NORMAL then
    (state.1 ++ [cstr "\x1b[39m", [c]], -1)
  else
    let color := highlight_color highlight
    if color != state.2 then (state.1 ++ [color_command color, [c]], color)
    else (state.1 ++ [[c]], state.2)

/-- The number of rendered bytes of a row `refresh_screen` means to show
(lines 979-985). -/
def visible_size (e : Editor) (row : Row) : Int :=
  let size : Int := row.rendered_size - e.column_offset
  let size := if size < 0 then 0 else size
  if size > e.columns then e.columns else size

/-- Lines 978-1032 of `refresh_screen`: the messages appended to the screen
buffer for a row of the document, in order.  The loop runs `i` from
`column_offset` while `i < size`. -/
def draw_row (e : Editor) (row : Row) : List (List Nat) :=
  let indices :=
    (List.range (visible_size e row - e.column_offset).toNat).map
      fun k => e.column_offset + (k : Int)
  (indices.foldl (draw_byte row) ([], -1)).1 ++ [cstr "\x1b[39m"]

/-- One turn of the loop of `main`: the screen is refreshed and a key is
handled (`find_editor` and `save_editor` are not entered). -/
def press (e : Editor) (c : Int) : Editor :=
  (handle_key id id (refresh_screen_scroll e) c).getD e

/-! ## Search -/

/-- The function `to_unrendered_index`, its loop over the raw bytes from
`index` on; `render_index` is the rendered column reached. -/
def to_unrendered_index_loop (target : Int) : List Nat → Nat → Nat → Nat
  | [], index, _ => index
  | c :: data, index, render_index =>
    if (render_index : Int) < target then
      to_unrendered_index_loop target data (index + 1)
        ((if c == 9 then render_index + ((TAB_STOP - 1) - render_index % TAB_STOP)
          else render_index) + 1)
    else index

/-- The function `to_unrendered_index`. -/
def to_unrendered_index (row : Row) (target_render_index : Int) : Nat :=
  to_unrendered_index_loop target_render_index row.data 0 0

/-- The string a C function reads in a buffer: the bytes before the first
NUL byte. -/
def c_string (buffer : List Nat) : List Nat := buffer.takeWhile fun c => c != 0

/-- `strlen`. -/
def strlen (s : List Nat) : Nat := (c_string s).length

/-- The search of `strstr` in a haystack without NUL bytes, `offset` bytes
into the string: the offset of the first place where the needle starts. -/
def strstr_from (needle : List Nat) : List Nat → Nat → Option Nat
  | [], offset => if needle.isPrefixOf [] then some offset else none
  | c :: haystack, offset =>
    if needle.isPrefixOf (c :: haystack) then some offset
    else strstr_from needle haystack (offset + 1)

/-- `strstr(haystack, needle)`: the offset of the first occurrence of the
needle in the haystack, `none` for a null pointer. -/
def strstr (haystack needle : List Nat) : Option Nat :=
  strstr_from (c_string needle) (c_string haystack) 0

/-- The first `n` bytes of a buffer, as `memcpy` reads them. -/
def read_bytes (source : List Nat) (n : Nat) : List Nat :=
  (List.range n).map fun i => source.getD i 0

/-- The cell `editor->row[i]` as read through an `int` index. -/
def row_at (cells : List Row) (i : Int) : Row :=
  if i < 0 then default else cells.getD i.toNat default

/-- A store to the cell `editor->row[i]` through an `int` index. -/
def set_row_at (cells : List Row) (i : Int) (row : Row) : List Row :=
  if i < 0 then cells else cells.set i.toNat row

/-- Lines 741-746 of `find_editor_callback`: the highlights saved at the last
match are copied back to their row. -/
def restore_highlight (e : Editor) : Editor :=
  match e.saved_highlight with
  | none => e
  | some saved =>
    let row := row_at e.row e.saved_highlight_line
    let row' :=
      { row with highlights := write_at row.highlights 0 (read_bytes saved row.rendered_size) }
    { e with row := set_row_at e.row e.saved_highlight_line row', saved_highlight := none }

/-- Lines 777-785 of `find_editor_callback`: the cursor moves to the match in
the row at `current`, the highlights of the row are saved and the match is
marked in them. -/
def find_editor_match (e : Editor) (query : List Nat) (current : Int) (offset : Nat) :
    Editor :=
  let row := row_at e.row current
  let row' :=
    { row with highlights := memset row.highlights offset HIGHLIGHT_MATCH (strlen query) }
  { e with
    last_match := current
    cursor_y := current
    cursor_x := to_unrendered_index row offset
    row_offset := e.row_count
    saved_highlight_line := current
    saved_highlight := some (read_bytes row.highlights row.rendered_size)
    row := set_row_at e.row current row' }

/-- Lines 767-772 of `find_editor_callback`: the next row to examine. -/
def next_row (e : Editor) (current : Int) : Int :=
  let current := current + e.direction
  if current == -1 then (e.row_count : Int) - 1
  else if current == (e.row_count : Int) then 0
  else current

/-- The loop of `find_editor_callback` (lines 766-788), with `count`
iterations left. -/
def find_editor_scan (e : Editor) (query : List Nat) : Nat → Int → Editor
  | 0, _ => e
  | count + 1, current =>
    match strstr (row_at e.row (next_row e current)).rendered query with
    | some offset => find_editor_match e query (next_row e current) offset
    | none => find_editor_scan e query count (next_row e current)

/-- Lines 752-763 of `find_editor_callback`: the direction and the last match
the key asks for. -/
def find_editor_direction (e : Editor) (key : Int) : Editor :=
  let e :=
    if key == ARROW_RIGHT || key == ARROW_DOWN then { e with direction := 1 }
    else if key == ARROW_LEFT || key == ARROW_UP then { e with direction := -1 }
    else { e with last_match := -1, direction := 1 }
  if e.last_match == -1 then { e with direction := 1 } else e

/-- The function `find_editor_callback`. -/
def find_editor_callback (e : Editor) (query : List Nat) (key : Int) : Editor :=
  let e := restore_highlight e
  if key == 13 || key == 0x1B then e
  else
    let e := find_editor_direction e key
    find_editor_scan e query e.row_count e.last_match

/-- The function `ask` on the keys `read_key` returns, in order.  The result
is the editor, the text entered (`none` for the null pointer of a cancelled
prompt) and the keys not read; it is `none` when the keys end before Enter or
Escape, where `read_key` waits.  The editor changes by `refresh_screen` and
by the callback; the status message is not part of the model. -/
def ask (callback : Option (Editor → List Nat → Int → Editor)) :
    Editor → List Nat → List Int → Option (Editor × Option (List Nat) × List Int)
  | _, _, [] => none
  | e, buffer, c :: keys =>
    let e := refresh_screen_scroll e
    let call := fun (e' : Editor) (text : List Nat) =>
      match callback with
      | none => e'
      | some f => f e' text c
    if c == DELETE_KEY || c == CTRL_KEY 104 || c == BACKSPACE then
      ask callback (call e buffer.dropLast) buffer.dropLast keys
    else if c == 0x1B then some (call e buffer, none, keys)
    else if c == 13 then some (call e buffer, some buffer, keys)
    else if !iscntrl c.toNat && decide (c < 128) then
      ask callback (call e (buffer ++ [c.toNat])) (buffer ++ [c.toNat]) keys
    else ask callback (call e buffer) buffer keys

/-- The function `find_editor` on the keys `read_key` returns: the editor
and the keys not read, `none` when the keys end inside the prompt. -/
def find_editor (e : Editor) (keys : List Int) : Option (Editor × List Int) :=
  match ask (some find_editor_callback) { e with last_match := -1, direction := 1 } []
      keys with
  | none => none
  | some (e', none, rest) =>
    some ({ e' with cursor_x := e.cursor_x, cursor_y := e.cursor_y,
                    column_offset := e.column_offset, row_offset := e.row_offset }, rest)
  | some (e', some _, rest) => some (e', rest)

/-! ## Screen lines -/

/-- The text of the welcome banner, `"Editor1 -- Version " VERSION`. -/
def welcome : List Nat := cstr "Editor1 -- Version 0"

/-- Lines 1034-1055 of `refresh_screen`: the messages appended for the screen
line `y` when it is past the end of the document. -/
def draw_filler (e : Editor) (y : Int) : List (List Nat) :=
  if y == e.rows.tdiv 3 then
    let welcome_size : Int :=
      if (welcome.length : Int) > e.columns then e.columns else welcome.length
    let padding := (e.columns - welcome_size).tdiv 2
    let tilde := if padding > 0 then [[126]] else []
    let padding := if padding > 0 then padding - 1 else padding
    tilde ++ List.replicate padding.toNat [32] ++ [welcome.take welcome_size.toNat]
  else [[126]]

/-- One iteration of the loop of `refresh_screen` over the screen lines
(lines 975-1059): the messages appended for the screen line `y`. -/
def draw_line (e : Editor) (y : Int) : List (List Nat) :=
  (if y + e.row_offset < e.row_count then draw_row e (row_at e.row (y + e.row_offset))
   else draw_filler e y)
    ++ [cstr "\x1b[K", cstr "\r\n"]

/-- The loop of `refresh_screen` over the screen lines (lines 974-1060), run
after the scroll offsets are adjusted: the messages of each line. -/
def draw_lines (e : Editor) : List (List (List Nat)) :=
  (List.range (refresh_screen_scroll e).rows.toNat).map
    fun y => draw_line (refresh_screen_scroll e) (y : Int)

/-! ## Definitions used to state the properties -/

/-- Tab expansion as the specification words it: scanning the raw text from
the left, every tab is replaced by `8 - (rendered length mod 8)` spaces and
every other byte is copied. -/
def tab_expand_from (rendered : List Nat) : List Nat → List Nat
  | [] => rendered
  | c :: raw =>
    if c = 9 then
      tab_expand_from (rendered ++ List.replicate (TAB_STOP - rendered.length % TAB_STOP) 32) raw
    else tab_expand_from (rendered ++ [c]) raw

/-- Tab expansion of a whole raw text. -/
def tab_expand (raw : List Nat) : List Nat := tab_expand_from [] raw

/-- The part of a row that highlighting leaves alone. -/
def Row.text (row : Row) : Int × List Nat × List Nat := (row.index, row.data, row.rendered)

/-- The raw texts of the rows of the document, in order. -/
def raw_texts (e : Editor) : List (List Nat) := (e.row.take e.row_count).map Row.data

/-- The raw text, rendered text and highlight buffer of a row. -/
def Row.content (row : Row) : List Nat × List Nat × List Nat :=
  (row.data, row.rendered, row.highlights)

/-- The contents of the rows of the document, in order. -/
def row_contents (e : Editor) : List (List Nat × List Nat × List Nat) :=
  (e.row.take e.row_count).map Row.content

/-- The raw text of a row with its rendered text. -/
def Row.raw_rendered (row : Row) : List Nat × List Nat := (row.data, row.rendered)

/-- The raw and rendered texts of the rows of the document, in order. -/
def raw_rendered_texts (e : Editor) : List (List Nat × List Nat) :=
  (e.row.take e.row_count).map Row.raw_rendered

/-- The document that the loop of `open_editor` builds once `select_syntax`
has chosen `syn`: the lines, stripped of their terminators, are appended in
order to the empty document. -/
def load_lines (syn : Option Syntax) (lines : List (List Nat)) : Editor :=
  lines.foldl append_row { empty_editor with syntax_ := syn }

/-- A two-row C document, the cursor at column 3 of row 0. -/
def sample_editor : Editor :=
  { load_lines (some c_profile) [cstr "int x;", cstr "// c"] with cursor_x := 3 }

/-- Row 0 of `sample_editor`. -/
def sample_row : Row :=
  { index := 0, data := cstr "int x;", rendered := cstr "int x;",
    highlights := [4, 4, 4, 0, 0, 0], open_comment := false }

/-- What bounds the number of iterations the scanning loop of `highlight_row`
still makes: twice the number of bytes left, and one more while
`previous_seperator` is set. -/
def scan_measure (rendered_size : Nat) (s : Scan) : Nat :=
  2 * (rendered_size - s.index) + (if s.previous_seperator then 1 else 0)

/-- Highlight and carry-over consistency of a run of rows: each row's
highlights and `open_comment` are what the scan of its rendered text gives
when seeded with the `open_comment` of the row before it (`previous` for
the first row of the run). -/
def rows_consistent (syn : Syntax) : Bool → List Row → Bool
  | _, [] => true
  | previous, row :: rows =>
    (highlighted syn row previous == row) && rows_consistent syn row.open_comment rows

/-- Highlight and carry-over consistency of the document. -/
def highlight_consistent (e : Editor) : Bool :=
  match e.syntax_ with
  | none => true
  | some syn => rows_consistent syn false (e.row.take e.row_count)

/-- The highlight buffers of the rows of the document, in order. -/
def highlight_rows (e : Editor) : List (List Nat) :=
  (e.row.take e.row_count).map Row.highlights

/-- The highlight buffer of a row has one entry per rendered byte, unless the
rendered text is empty. -/
def Row.sized (row : Row) : Prop :=
  row.rendered_size > 0 → row.highlights.length = row.rendered_size

/-- Every cell of a row array is `Row.sized`. -/
def cells_sized (cells : List Row) : Prop := ∀ row ∈ cells, row.sized

/-- The document mutations: the four row and character operations, Enter
with the cursor at column `x` of row `y`, and Backspace with the cursor at
column 0 of row `y`. -/
inductive Op where
  | InsertRow (text : List Nat) (at_ : Int)
  | DeleteRow (at_ : Int)
  | InsertChar (at_row : Nat) (at_ : Int) (c : Nat)
  | DeleteChar (at_row : Nat) (at_ : Int)
  | Split (x y : Int)
  | Merge (y : Int)

/-- The editor after one mutation. -/
def apply_op (e : Editor) : Op → Editor
  | Op.InsertRow text at_ => insert_row e text at_
  | Op.DeleteRow at_ => delete_row e at_
  | Op.InsertChar at_row at_ c => insert_char e at_row at_ c
  | Op.DeleteChar at_row at_ => delete_char e at_row at_
  | Op.Split x y => (handle_key id id { e with cursor_x := x, cursor_y := y } 13).getD e
  | Op.Merge y => (handle_key id id { e with cursor_x := 0, cursor_y := y } BACKSPACE).getD e

/-- The editor after a sequence of mutations. -/
def run_ops (e : Editor) (ops : List Op) : Editor := ops.foldl apply_op e

/-- The index invariant of the data model on a row array: each of the first
`row_count` cells has its position as `index`. -/
def cells_index_ok (row_count : Nat) (cells : List Row) : Prop :=
  ∀ (i : Nat) (row : Row), i < row_count → cells[i]? = some row → row.index = i

/-- The index invariant of the data model: `row[i].index == i` for every row
of the document. -/
def row_index_ok (e : Editor) : Prop := cells_index_ok e.row_count e.row

/-- The row as one call of `highlight_row` leaves it, nested calls apart. -/
def scanned (syn : Option Syntax) (cells : List Row) (row : Row) : Row :=
  match syn with
  | none => { row with highlights := clear_highlights row }
  | some syn' => highlighted syn' row (seed_in_comment cells row)

/-- Every one of the first `row_count` cells has an `index` that is at least
its position: what `insert_row` and `delete_row` keep true of the document
even where `delete_row` leaves an `index` one too large. -/
def cells_forward (row_count : Nat) (cells : List Row) : Prop :=
  ∀ (i : Nat) (row : Row), i < row_count → cells[i]? = some row → (i : Int) ≤ row.index

/-- Two rows of a C document highlighted before the profile was selected:
their highlights and `open_comment` are stale. -/
def stale_editor : Editor :=
  { load_lines none [cstr "/*", cstr "x"] with syntax_ := some c_profile }

/-- The row array holds the `row_count` rows of the document, and each of
them has an `index` that is at least its position. -/
def array_ok (e : Editor) : Prop :=
  e.row_count ≤ e.row.length ∧ cells_forward e.row_count e.row

/-- The `open_comment` of the row before position `i`, clear for the first
row: the carry-over state row `i` has to be highlighted with. -/
def previous_open (cells : List Row) (i : Nat) : Bool :=
  decide (i > 0) && (cells.getD (i - 1) default).open_comment

/-- Row `i` is consistent with the carry-over state of the row before it. -/
def consistent_at (syn : Syntax) (cells : List Row) (i : Nat) : Prop :=
  ∀ row, cells[i]? = some row → highlighted syn row (previous_open cells i) = row

/-- Two rows, the cursor at column 0 of row 1. -/
def merge_editor : Editor :=
  { load_lines (some c_profile) [cstr "int x;", cstr "// c"] with cursor_y := 1 }

/-- The editor of `main` before `open_editor`: zero-initialised, with the
file name of the command line. -/
def named_editor (file_name : String) : Editor :=
  { empty_editor with file_name := some (cstr file_name) }

/-- The bytes of the messages that are not escape sequences: the text a row
shows. -/
def text_bytes (messages : List (List Nat)) : List Nat :=
  (messages.filter fun message => message.head? != some 27).flatten

/-- The messages that select a colour, `ESC [ 3 x m`. -/
def color_messages (messages : List (List Nat)) : List (List Nat) :=
  messages.filter fun message => message.take 3 == [27, 91, 51]

/-- A document of six rows `x` on a screen of three text rows. -/
def tall_editor : Editor :=
  { load_lines none (List.replicate 6 (cstr "x")) with rows := 3, columns := 80 }

/-- A row of eight bytes on a screen four columns wide. -/
def narrow_editor : Editor :=
  { load_lines none [cstr "abcdefgh"] with rows := 10, columns := 4 }

/-- A row of two bytes, without syntax, on a screen eighty columns wide. -/
def plain_editor : Editor :=
  { load_lines none [cstr "ab"] with rows := 10, columns := 80 }

/-- Five rows, the word `needle` on row 2 only, on a screen of ten text rows;
the cursor is at the top left. -/
def search_editor : Editor :=
  { load_lines (some c_profile)
      [cstr "a", cstr "b", cstr "\tint needle", cstr "d", cstr "e"] with
    rows := 10, columns := 80 }

/-- The keys of the characters of a string. -/
def typed (s : String) : List Int := s.toList.map fun c => (c.toNat : Int)

/-- The text `query` occurs in `text` at offset `i`. -/
def occurs_at (text query : List Nat) (i : Nat) : Prop :=
  i + query.length ≤ text.length ∧ query <+: text.drop i

/-- The first occurrence of `query` in `text` is at offset `i`. -/
def first_occurrence (text query : List Nat) (i : Nat) : Prop :=
  occurs_at text query i ∧ ∀ k < i, ¬ occurs_at text query k

/-- The text contains the query as a literal substring. -/
def contains (text query : List Nat) : Prop := ∃ i, occurs_at text query i

/-- The last match and the direction a search continues from, for the key
that was pressed: an arrow key keeps the last match and goes forward (right,
down) or backward (left, up); any other key forgets the last match; without
a last match (`-1`) the search goes forward, from row 0. -/
def search_start (last_match key : Int) : Int × Int :=
  if key = ARROW_RIGHT ∨ key = ARROW_DOWN then (last_match, 1)
  else if key = ARROW_LEFT ∨ key = ARROW_UP then
    (last_match, if last_match = -1 then 1 else -1)
  else (-1, 1)

/-- The row examined at step `j` (from 0) of a search over `n` rows that
starts one step past `last_match` in direction `d`: `last_match + (j + 1) d`
taken modulo `n`. -/
def search_position (n : Nat) (last_match d : Int) (j : Nat) : Nat :=
  ((last_match + d * ((j : Int) + 1)) % (n : Int)).toNat

/-- A document whose row 0 holds a NUL byte before the byte `b`, and whose
row 1 is `b`. -/
def nul_editor : Editor :=
  { load_lines none [[0, 98], cstr "b"] with rows := 10, columns := 80, last_match := -1 }

/-- The byte `refresh_screen` shows for a rendered byte: the byte itself, or
for a control character the letter that stands for it. -/
def shown_byte (c : Nat) : Nat :=
  if iscntrl c then (if c ≤ 26 then 64 + c else 63) else c

/-- The editor of `main` started without a file on a terminal of 24 rows and
80 columns. -/
def fresh_editor : Editor := { empty_editor with rows := 22, columns := 80 }

/-- The welcome banner on a screen `columns` wide: the welcome text, cut to
the width of the screen, after a tilde and blanks that fill half of the
columns left over. -/
def banner (columns : Int) : List Nat :=
  (if (columns.toNat - min 20 columns.toNat) / 2 = 0 then []
   else 126 :: List.replicate ((columns.toNat - min 20 columns.toNat) / 2 - 1) 32)
    ++ welcome.take (min 20 columns.toNat)

/-- The state in which the scanning loop of `highlight_row` is entered
(lines 394-399), for the highlight buffer and the value `in_comment` is seeded
with. -/
def scan_start (highlights : List Nat) (in_comment : Bool) : Scan :=
  { highlights := highlights, previous_seperator := true, in_string := 0,
    in_comment := in_comment, index := 0 }

/-- The states in which the head of the scanning loop of `highlight_row` is
reached, from state `s` on, for at most `fuel` iterations. -/
def scan_trace (syn : Syntax) (rendered : List Nat) : Nat → Scan → List Scan
  | 0, s => [s]
  | fuel + 1, s =>
    s :: (if s.index < rendered.length then
      match highlight_step syn rendered s with
      | (_, true) => []
      | (s', false) => scan_trace syn rendered fuel s'
    else [])

/-- The keyword rule of `highlight_row` (lines 469-494) in state `s`: the
highlight class and the size of the keyword it classifies at `s.index`, when
no earlier rule of the iteration applies, `previous_seperator` is set and the
keyword loop finds a keyword. -/
def keyword_rule (syn : Syntax) (rendered : List Nat) (s : Scan) : Option (Nat × Nat) :=
  let c := rendered.getD s.index 0
  let single := syn.single_line_comment_start
  let multi_start := syn.multi_line_comment_start
  let multi_end := syn.multi_line_comment_end
  let previous_number := previous_highlight s.highlights s.index == HIGHLIGHT_NUMBER
  let chained := isdigit c && (s.previous_seperator || previous_number)
  if decide (single.length > 0) && s.in_string == 0 && !s.in_comment
      && strncmp_eq (rendered.drop s.index) single single.length then none
  else if decide (multi_start.length > 0) && decide (multi_end.length > 0)
      && s.in_string == 0 && s.in_comment then none
  else if decide (multi_start.length > 0) && decide (multi_end.length > 0)
      && s.in_string == 0 && strncmp_eq (rendered.drop s.index) multi_start multi_start.length then
    none
  else if syn.flags &&& HIGHLIGHT_STRINGS != 0 && s.in_string != 0 then none
  else if syn.flags &&& HIGHLIGHT_STRINGS != 0 && (c == 34 || c == 39) then none
  else if syn.flags &&& HIGHLIGHT_NUMBERS != 0 && (chained || (c == 46 && previous_number)) then
    none
  else if s.previous_seperator then keyword_search rendered s.index syn.keywords
  else none

/-- Position `index` of the rendered text is a boundary for the keyword rule:
the start of the row, a position after a separator byte, or the position right
after a block comment end token. -/
def keyword_boundary (syn : Syntax) (rendered : List Nat) (index : Nat) : Prop :=
  index = 0 ∨ is_seperator (rendered.getD (index - 1) 0) = true
    ∨ (syn.multi_line_comment_end.length ≤ index
        ∧ syn.multi_line_comment_end
            <+: rendered.drop (index - syn.multi_line_comment_end.length))

/-- The Haskell row whose keyword follows a block comment. -/
def haskell_row : List Nat := cstr "\x7b- c -\x7dif x"

/-- What the scanning loop of `highlight_row` maintains about
`previous_seperator`: when it is set, the scan is inside a block comment or a
string, or `index` is a boundary for the keyword rule. -/
def scan_invariant (syn : Syntax) (rendered : List Nat) (s : Scan) : Prop :=
  s.previous_seperator = true →
    s.in_comment = true ∨ s.in_string ≠ 0 ∨ keyword_boundary syn rendered s.index

/-- The state in which the scanning loop reaches index 7 of `haskell_row`. -/
def haskell_keyword_state : Scan :=
  { highlights := [2, 2, 0, 0, 0, 2, 2, 0, 0, 0, 0], previous_seperator := true,
    in_string := 0, in_comment := false, index := 7 }

/-- The state in which the scanning loop reaches index 5 of the C row
`a/**/if x`. -/
def c_keyword_state : Scan :=
  { highlights := [0, 2, 2, 2, 2, 0, 0, 0, 0], previous_seperator := true,
    in_string := 0, in_comment := false, index := 5 }

/-- The highlights sequence of a row: the entries `highlights[0..rendered_size)`
of its buffer, one classification per rendered byte.  The C struct gives the
buffer no length of its own and the program reads and writes no entry past
`rendered_size`; `Row.highlights` lists the entries of the allocated block. -/
def Row.highlight_sequence (row : Row) : List Nat := row.highlights.take row.rendered_size

/-- A sequence of all six mutations that leaves a document of two rows, the
first of them emptied by `delete_char`. -/
def sized_ops : List Op :=
  [Op.InsertRow (cstr "a\tb") 0, Op.Split 1 0, Op.DeleteChar 0 0, Op.InsertChar 1 0 47,
   Op.InsertRow (cstr "xy") 2, Op.InsertRow (cstr "z") 3, Op.DeleteRow 2, Op.Merge 2]

/-- The C document with rows `a`, `b` and `/*/` after Backspace at the start
of row 1: the rows are `ab` and `/*/`, and `delete_row` has left the second of
them, at position 1, with `index` 2. -/
def merged_editor : Editor :=
  run_ops { empty_editor with syntax_ := some c_profile }
    [Op.InsertRow (cstr "a") 0, Op.InsertRow (cstr "b") 1, Op.InsertRow (cstr "/*/") 2,
     Op.Merge 1]

/-- The same with the row `/*x` in place of `/*/`. -/
def merged_comment_editor : Editor :=
  run_ops { empty_editor with syntax_ := some c_profile }
    [Op.InsertRow (cstr "a") 0, Op.InsertRow (cstr "b") 1, Op.InsertRow (cstr "/*x") 2,
     Op.Merge 1]

/-- The index, rendered text, highlights and `open_comment` of the rows of
the document, in order. -/
def row_states (e : Editor) : List (Int × List Nat × List Nat × Bool) :=
  (e.row.take e.row_count).map fun row =>
    (row.index, row.rendered, row.highlights, row.open_comment)

/-! # Properties -/

/-! ## Lists and memory primitives -/

theorem getElem?_lt_length {α : Type} {l : List α} {i : Nat} {a : α} (h : l[i]? = some a) :
    i < l.length := by
  rcases Nat.lt_or_ge i l.length with hlt | hge
  · exact hlt
  · rw [List.getElem?_eq_none hge] at h; cases h

theorem set_getElem?_same {α : Type} (l : List α) (i : Nat) (a : α) (h : l[i]? = some a) :
    l.set i a = l := by
  apply List.ext_getElem?
  intro j
  rw [List.getElem?_set]
  split
  · rename_i hij
    subst hij
    split
    · exact h.symm
    · rename_i hlt
      rw [List.getElem?_eq_none (by omega)]
  · rfl

theorem length_memset (n : Nat) : ∀ (buffer : List Nat) (start value : Nat),
    (memset buffer start value n).length = buffer.length := by
  induction n with
  | zero => intro buffer start value; rfl
  | succ n ih => intro buffer start value; simp [memset, ih]

theorem length_write_at {α : Type} (xs : List α) : ∀ (cells : List α) (dst : Nat),
    (write_at cells dst xs).length = cells.length := by
  induction xs with
  | nil => intro cells dst; rfl
  | cons x xs ih => intro cells dst; simp [write_at, ih]

theorem write_at_eq {α : Type} (xs : List α) : ∀ (cells : List α) (dst : Nat),
    dst + xs.length ≤ cells.length →
    write_at cells dst xs = cells.take dst ++ xs ++ cells.drop (dst + xs.length) := by
  induction xs with
  | nil => intro cells dst _; simp [write_at]
  | cons x xs ih =>
    intro cells dst h
    simp only [List.length_cons] at h
    have hlt : dst < cells.length := by omega
    rw [write_at, ih _ _ (by simp; omega)]
    rw [List.drop_set_of_lt _ _ (by omega), List.set_eq_take_append_cons_drop, if_pos hlt]
    rw [List.take_append_eq_append_take]
    simp only [List.length_take, Nat.min_eq_left (Nat.le_of_lt hlt), List.length_cons]
    rw [List.take_of_length_le (by simp)]
    have : dst + 1 - dst = 1 := by omega
    rw [this]
    simp [Nat.add_assoc, Nat.add_comm 1]

theorem memmove_eq {α : Type} (cells : List α) (dst src n : Nat)
    (hs : src + n ≤ cells.length) (hd : dst + n ≤ cells.length) :
    memmove cells dst src n
      = cells.take dst ++ (cells.drop src).take n ++ cells.drop (dst + n) := by
  have hl : ((cells.drop src).take n).length = n := by simp; omega
  unfold memmove
  rw [write_at_eq _ _ _ (by rw [hl]; exact hd), hl]

theorem mem_write_at {α : Type} (xs : List α) : ∀ (cells : List α) (dst : Nat) (a : α),
    a ∈ write_at cells dst xs → a ∈ cells ∨ a ∈ xs := by
  induction xs with
  | nil => intro cells dst a h; exact Or.inl h
  | cons x xs ih =>
    intro cells dst a h
    rw [write_at] at h
    rcases ih _ _ _ h with h1 | h1
    · rcases List.mem_or_eq_of_mem_set h1 with h2 | h2
      · exact Or.inl h2
      · exact Or.inr (by rw [h2]; exact List.mem_cons_self _ _)
    · exact Or.inr (List.mem_cons_of_mem _ h1)

theorem mem_memmove {α : Type} (cells : List α) (dst src n : Nat) (a : α)
    (h : a ∈ memmove cells dst src n) : a ∈ cells := by
  rcases mem_write_at _ _ _ _ h with h1 | h1
  · exact h1
  · exact List.mem_of_mem_drop (List.mem_of_mem_take h1)

/-! ## Row renderer: the loop of `render_row` is the tab expansion of the specification -/

theorem render_tab_eq (fuel : Nat) : ∀ rendered : List Nat,
    TAB_STOP - rendered.length % TAB_STOP ≤ fuel →
    render_tab fuel rendered
      = rendered ++ List.replicate (TAB_STOP - rendered.length % TAB_STOP) 32 := by
  induction fuel with
  | zero =>
    intro rendered h
    have := Nat.mod_lt rendered.length (show TAB_STOP > 0 by decide)
    omega
  | succ fuel ih =>
    intro rendered h
    unfold render_tab
    have hlen : (rendered ++ [32]).length = rendered.length + 1 := by simp
    simp only [TAB_STOP] at *
    by_cases hm : (rendered.length + 1) % 8 = 0
    · have h1 : 8 - rendered.length % 8 = 1 := by omega
      simp [hlen, hm, h1]
    · have h1 : 8 - rendered.length % 8 = (8 - (rendered.length + 1) % 8) + 1 := by omega
      have h2 : 8 - (rendered ++ [32]).length % 8 ≤ fuel := by rw [hlen]; omega
      simp only [hlen, bne_iff_ne, ne_eq, hm, not_false_eq_true, ↓reduceIte]
      rw [ih _ h2, hlen, h1, List.replicate_succ, List.append_assoc]
      simp

theorem render_loop_eq (data : List Nat) : ∀ rendered : List Nat,
    render_loop data rendered = tab_expand_from rendered data := by
  induction data with
  | nil => intro rendered; rfl
  | cons c data ih =>
    intro rendered
    unfold render_loop tab_expand_from
    by_cases hc : c = 9
    · have hfuel : TAB_STOP - rendered.length % TAB_STOP ≤ TAB_STOP := Nat.sub_le _ _
      simp only [hc, beq_self_eq_true, ↓reduceIte]
      rw [render_tab_eq _ _ hfuel, ih]
    · simp only [beq_iff_eq, hc, ↓reduceIte]
      rw [ih]

theorem render_text_eq (data : List Nat) : render_text data = tab_expand data :=
  render_loop_eq data []

theorem tab_expand_from_append (raw raw' : List Nat) : ∀ rendered : List Nat,
    tab_expand_from rendered (raw ++ raw')
      = tab_expand_from (tab_expand_from rendered raw) raw' := by
  induction raw with
  | nil => intro rendered; rfl
  | cons c raw ih =>
    intro rendered
    simp only [List.cons_append, tab_expand_from]
    split <;> exact ih _

theorem tab_expand_tab_stop (raw : List Nat) :
    (tab_expand (raw ++ [9])).length % TAB_STOP = 0 := by
  unfold tab_expand
  rw [tab_expand_from_append]
  simp only [tab_expand_from, if_true, List.length_append, List.length_replicate, TAB_STOP]
  omega

/-! ## The scanning loop of `highlight_row` -/

theorem length_highlight_step (syn : Syntax) (rendered : List Nat) (s : Scan) :
    (highlight_step syn rendered s).1.highlights.length = s.highlights.length := by
  unfold highlight_step
  simp only
  repeat' split
  all_goals simp [length_memset]

theorem length_highlight_loop (syn : Syntax) (rendered : List Nat) (fuel : Nat) :
    ∀ s : Scan, (highlight_loop syn rendered fuel s).highlights.length = s.highlights.length := by
  induction fuel with
  | zero => intro s; rfl
  | succ fuel ih =>
    intro s
    unfold highlight_loop
    split
    · have h := length_highlight_step syn rendered s
      split
      · rename_i s' heq; rw [heq] at h; exact h
      · rename_i s' heq; rw [heq] at h; rw [ih]; exact h
    · rfl

theorem length_highlight_scan (syn : Syntax) (rendered highlights : List Nat)
    (in_comment : Bool) :
    (highlight_scan syn rendered highlights in_comment).highlights.length
      = highlights.length := by
  unfold highlight_scan
  rw [length_highlight_loop]

theorem highlight_step_decreases (syn : Syntax) (rendered : List Nat) (s s' : Scan)
    (hi : s.index < rendered.length) (hc : highlight_step syn rendered s = (s', false)) :
    scan_measure rendered.length s' < scan_measure rendered.length s := by
  unfold highlight_step at hc
  simp only at hc
  unfold scan_measure
  split at hc
  · cases hc
  · split at hc
    · rename_i h
      simp only [Bool.and_eq_true, decide_eq_true_eq] at h
      split at hc
      · cases hc
        simp only [if_true]
        split <;> omega
      · cases hc
        simp only
        split <;> omega
    · split at hc
      · rename_i h
        simp only [Bool.and_eq_true, decide_eq_true_eq] at h
        cases hc
        simp only
        split <;> omega
      · split at hc
        · split at hc
          · cases hc
            simp only
            split <;> omega
          · cases hc
            simp only [Bool.false_eq_true, if_false]
            split <;> omega
        · split at hc
          · cases hc
            simp only
            split <;> omega
          · split at hc
            · cases hc
              simp only [Bool.false_eq_true, if_false]
              split <;> omega
            · split at hc
              · rename_i highlight keyword_size heq
                cases hc
                cases hp : s.previous_seperator
                · rw [hp] at heq; simp at heq
                · simp only [Bool.false_eq_true, if_false, if_true]
                  omega
              · cases hc
                simp only
                split <;> split <;> omega

theorem highlight_loop_succ (syn : Syntax) (rendered : List Nat) (fuel : Nat) :
    ∀ s : Scan, scan_measure rendered.length s < fuel →
      highlight_loop syn rendered (fuel + 1) s = highlight_loop syn rendered fuel s := by
  induction fuel with
  | zero => intro s h; omega
  | succ fuel ih =>
    intro s h
    rw [highlight_loop, highlight_loop.eq_def syn rendered (fuel + 1)]
    simp only
    split
    · rename_i hi
      cases hstep : highlight_step syn rendered s with
      | mk s' b =>
        cases b with
        | true => rfl
        | false =>
          simp only
          have hd := highlight_step_decreases syn rendered s s' hi hstep
          exact ih s' (by omega)
    · rfl

theorem highlight_loop_add (syn : Syntax) (rendered : List Nat) (fuel k : Nat) (s : Scan)
    (h : scan_measure rendered.length s < fuel) :
    highlight_loop syn rendered (fuel + k) s = highlight_loop syn rendered fuel s := by
  induction k with
  | zero => rfl
  | succ k ih =>
    rw [← Nat.add_assoc, highlight_loop_succ syn rendered (fuel + k) s (by omega)]
    exact ih

/-- The fuel `highlight_scan` gives the scanning loop is enough: with any
further iterations allowed the loop returns the same state, so it has left
through its exit condition or its `break`. -/
theorem highlight_scan_fuel (syn : Syntax) (rendered highlights : List Nat)
    (in_comment : Bool) (k : Nat) :
    highlight_loop syn rendered (2 * rendered.length + 2 + k)
        { highlights := highlights, previous_seperator := true, in_string := 0,
          in_comment := in_comment, index := 0 }
      = highlight_scan syn rendered highlights in_comment := by
  unfold highlight_scan
  apply highlight_loop_add
  simp only [scan_measure, if_true]
  omega

theorem highlight_loop_nil (syn : Syntax) (fuel : Nat) (s : Scan) :
    highlight_loop syn [] fuel s = s := by
  cases fuel with
  | zero => rfl
  | succ fuel => simp [highlight_loop]

theorem clear_highlights_highlighted (syn : Syntax) (row : Row) (in_comment : Bool) :
    clear_highlights (highlighted syn row in_comment) = clear_highlights row := by
  unfold clear_highlights
  have hsize : (highlighted syn row in_comment).rendered_size = row.rendered_size := rfl
  rw [hsize]
  split
  · rfl
  · rename_i h
    have hnil : row.rendered = [] := by
      cases hr : row.rendered with
      | nil => rfl
      | cons a l => exfalso; apply h; simp [Row.rendered_size, hr]
    simp only [highlighted, highlight_scan, clear_highlights, if_neg h, hnil, highlight_loop_nil]

theorem highlighted_idem (syn : Syntax) (row : Row) (in_comment : Bool) :
    highlighted syn (highlighted syn row in_comment) in_comment
      = highlighted syn row in_comment := by
  have h := clear_highlights_highlighted syn row in_comment
  unfold highlighted at h ⊢
  simp only at h ⊢
  rw [h]

theorem clear_highlights_cleared (row : Row) :
    clear_highlights { row with highlights := clear_highlights row } = clear_highlights row := by
  unfold clear_highlights
  simp only [Row.rendered_size]
  split <;> rfl

/-! ## What `highlight_row` and `render_row` leave alone -/

theorem set_map_text (cells : List Row) (i : Nat) (row row' : Row)
    (h : cells[i]? = some row) (ht : row'.text = row.text) :
    (cells.set i row').map Row.text = cells.map Row.text := by
  apply List.ext_getElem?
  intro j
  simp only [List.getElem?_map, List.getElem?_set]
  by_cases hij : i = j
  · subst hij
    have hi : i < cells.length := by
      rcases Nat.lt_or_ge i cells.length with hlt | hge
      · exact hlt
      · rw [List.getElem?_eq_none hge] at h; cases h
    simp [hi, h, ht]
  · simp [hij]

theorem highlight_cells_text (syn : Option Syntax) (row_count fuel : Nat) :
    ∀ (cells : List Row) (at_row : Nat),
      (highlight_cells syn row_count fuel cells at_row).map Row.text = cells.map Row.text := by
  induction fuel with
  | zero => intro cells at_row; rfl
  | succ fuel ih =>
    intro cells at_row
    unfold highlight_cells
    cases hrow : cells[at_row]? with
    | none => rfl
    | some row =>
      cases syn with
      | none => exact set_map_text _ _ _ _ hrow rfl
      | some syn =>
        simp only
        split
        · rw [ih]; exact set_map_text _ _ _ _ hrow rfl
        · exact set_map_text _ _ _ _ hrow rfl

theorem render_row_none (e : Editor) (at_row : Nat) (h : e.row[at_row]? = none) :
    render_row e at_row = e := by
  unfold render_row; rw [h]

theorem render_row_fields (e : Editor) (at_row : Nat) :
    render_row e at_row = { e with row := (render_row e at_row).row } := by
  unfold render_row
  cases e.row[at_row]? with
  | none => rfl
  | some row => rfl

theorem render_row_text (e : Editor) (at_row : Nat) (row : Row)
    (h : e.row[at_row]? = some row) :
    (render_row e at_row).row.map Row.text
      = (e.row.map Row.text).set at_row (row.index, row.data, render_text row.data) := by
  unfold render_row
  rw [h]
  simp only [highlight_row]
  rw [highlight_cells_text, List.map_set]
  rfl

theorem render_row_map {β : Type} (f : Row → β)
    (hf : ∀ (row : Row) (r : List Nat), f { row with rendered := r } = f row)
    (hf' : ∀ row row' : Row, row.text = row'.text → f row = f row')
    (e : Editor) (at_row : Nat) :
    (render_row e at_row).row.map f = e.row.map f := by
  unfold render_row
  cases h : e.row[at_row]? with
  | none => rfl
  | some row =>
    simp only [highlight_row]
    have ht := highlight_cells_text e.syntax_ e.row_count (e.row_count + 1)
      (e.row.set at_row { row with rendered := render_text row.data }) at_row
    have hmap : ∀ l l' : List Row, l.map Row.text = l'.map Row.text → l.map f = l'.map f := by
      intro l l' hll
      apply List.ext_getElem?
      intro i
      have hi := congrArg (fun l => l[i]?) hll
      simp only [List.getElem?_map] at hi ⊢
      cases h1 : l[i]? with
      | none => rw [h1] at hi; cases h2 : l'[i]? with
        | none => rfl
        | some b => rw [h2] at hi; cases hi
      | some a => rw [h1] at hi; cases h2 : l'[i]? with
        | none => rw [h2] at hi; cases hi
        | some b =>
          rw [h2] at hi
          simp only [Option.map_some', Option.some.injEq] at hi ⊢
          exact hf' a b hi
    rw [hmap _ _ ht, List.map_set, hf]
    exact set_getElem?_same _ _ _ (by rw [List.getElem?_map, h]; rfl)

theorem render_row_data (e : Editor) (at_row : Nat) :
    (render_row e at_row).row.map Row.data = e.row.map Row.data :=
  render_row_map Row.data (fun _ _ => rfl)
    (fun row row' h => by simp only [Row.text, Prod.mk.injEq] at h; exact h.2.1) e at_row

theorem render_row_row_count (e : Editor) (at_row : Nat) :
    (render_row e at_row).row_count = e.row_count := by
  unfold render_row
  cases e.row[at_row]? <;> rfl

theorem render_row_raw_rendered (e : Editor) (at_row : Nat) (row : Row)
    (h : e.row[at_row]? = some row) :
    (render_row e at_row).row.map Row.raw_rendered
      = (e.row.map Row.raw_rendered).set at_row (row.data, render_text row.data) := by
  have ht := congrArg (List.map fun t : Int × List Nat × List Nat => (t.2.1, t.2.2))
    (render_row_text e at_row row h)
  simp only [List.map_map, List.map_set] at ht
  exact ht

theorem length_render_row (e : Editor) (at_row : Nat) :
    (render_row e at_row).row.length = e.row.length := by
  have h := congrArg List.length (render_row_data e at_row)
  simpa using h

@[simp] theorem render_row_cursor_x (e : Editor) (at_row : Nat) :
    (render_row e at_row).cursor_x = e.cursor_x := by
  rw [render_row_fields]

@[simp] theorem render_row_cursor_y (e : Editor) (at_row : Nat) :
    (render_row e at_row).cursor_y = e.cursor_y := by
  rw [render_row_fields]

/-! ## Tab expansion by `render_row` -/

/-- C4. For every row, `render_row` leaves the raw text alone and makes the
rendered text the tab expansion of the raw text as the specification words it
(every tab replaced by `8 - (rendered length mod 8)` spaces, every other byte
copied), of which `rendered_size` is the length; the expansion of a text that
ends with a tab has a length that is a multiple of `TAB_STOP`; a row holding
one tab renders to 8 spaces and a row holding two tabs to 16 spaces. -/
theorem render_row_tab_expansion (e : Editor) (at_row : Nat) (row : Row)
    (h : e.row[at_row]? = some row) :
    ∃ row', (render_row e at_row).row[at_row]? = some row'
      ∧ row'.data = row.data
      ∧ row'.rendered = tab_expand row.data
      ∧ row'.rendered_size = (tab_expand row.data).length
      ∧ (∀ raw : List Nat, (tab_expand (raw ++ [9])).length % TAB_STOP = 0)
      ∧ (row.data = cstr "\t" → row'.rendered = List.replicate 8 32)
      ∧ (row.data = cstr "\t\t" → row'.rendered = List.replicate 16 32) := by
  have hlt : at_row < e.row.length := by
    rcases Nat.lt_or_ge at_row e.row.length with hlt | hge
    · exact hlt
    · rw [List.getElem?_eq_none hge] at h; cases h
  have ht := congrArg (fun l => l[at_row]?) (render_row_text e at_row row h)
  simp only [List.getElem?_map, List.getElem?_set, List.length_map, hlt, if_true] at ht
  cases hr : (render_row e at_row).row[at_row]? with
  | none => rw [hr] at ht; simp at ht
  | some row' =>
    rw [hr] at ht
    simp only [Option.map_some', Option.some.injEq, Row.text, Prod.mk.injEq] at ht
    obtain ⟨-, hd, hrd⟩ := ht
    rw [render_text_eq] at hrd
    refine ⟨row', rfl, hd, hrd, by rw [Row.rendered_size, hrd], tab_expand_tab_stop, ?_, ?_⟩
    · intro h1; rw [hrd, h1]; decide
    · intro h1; rw [hrd, h1]; decide

/-- C4 at row 0 of `sample_editor`. -/
theorem render_row_tab_expansion_witness :
    sample_editor.row[0]? = some sample_row
    ∧ ∃ row', (render_row sample_editor 0).row[0]? = some row'
      ∧ row'.data = sample_row.data
      ∧ row'.rendered = tab_expand sample_row.data
      ∧ row'.rendered_size = (tab_expand sample_row.data).length
      ∧ (∀ raw : List Nat, (tab_expand (raw ++ [9])).length % TAB_STOP = 0)
      ∧ (sample_row.data = cstr "\t" → row'.rendered = List.replicate 8 32)
      ∧ (sample_row.data = cstr "\t\t" → row'.rendered = List.replicate 16 32) :=
  ⟨by decide, render_row_tab_expansion sample_editor 0 sample_row (by decide)⟩

/-! ## `insert_row` and `delete_row` -/

theorem realloc_cells (cells : List Row) (n : Nat) (h : n ≤ cells.length) :
    ∃ x, (cells ++ [default]).take (n + 1) = cells.take n ++ [x] := by
  rcases Nat.lt_or_ge n cells.length with hlt | hge
  · refine ⟨cells[n], ?_⟩
    rw [List.take_append_of_le_length (by omega), List.take_succ,
      List.getElem?_eq_getElem hlt]
    rfl
  · have hn : n = cells.length := by omega
    refine ⟨default, ?_⟩
    subst hn
    simp

theorem map_mapIdx_index {β : Type} (f : Row → β)
    (hf : ∀ (row : Row) (i : Int), f { row with index := i } = f row)
    (p : Nat → Prop) [DecidablePred p] (d : Int) (cells : List Row) :
    (cells.mapIdx fun i row => if p i then { row with index := row.index + d } else row).map f
      = cells.map f := by
  apply List.ext_getElem?
  intro i
  simp only [List.getElem?_map, List.getElem?_mapIdx]
  cases cells[i]? with
  | none => rfl
  | some row =>
    simp only [Option.map_some']
    split
    · rw [hf]
    · rfl

theorem insert_row_cells_map {β : Type} (f : Row → β)
    (hf : ∀ (row : Row) (i : Int), f { row with index := i } = f row)
    (e : Editor) (text : List Nat) (at_ : Nat)
    (hcap : e.row_count ≤ e.row.length) (hat : at_ ≤ e.row_count) :
    (insert_row_cells e text at_).map f
      = ((e.row.take e.row_count).map f).take at_
        ++ f { index := at_, data := text, rendered := [], highlights := [],
               open_comment := false }
        :: ((e.row.take e.row_count).map f).drop at_ := by
  obtain ⟨x, hx⟩ := realloc_cells e.row e.row_count hcap
  have hlen : (e.row.take e.row_count).length = e.row_count := by simp [hcap]
  generalize hR : e.row.take e.row_count = R at hx hlen ⊢
  unfold insert_row_cells
  simp only [hx]
  rw [List.map_set]
  have key := map_mapIdx_index f hf (fun i => at_ + 1 ≤ i ∧ i ≤ e.row_count) 1
  simp only [Int.sub_eq_add_neg] at key ⊢
  rw [key]
  rcases Nat.lt_or_ge at_ e.row_count with hlt | hge
  · have hne : (at_ != e.row_count) = true := by simp; omega
    rw [if_pos hne, memmove_eq _ _ _ _ (by simp; omega) (by simp; omega)]
    have h1 : List.take (e.row_count - at_) (List.drop at_ (R ++ [x])) = R.drop at_ := by
      rw [List.drop_append_of_le_length (by omega), List.take_append_of_le_length (by simp; omega)]
      rw [List.take_of_length_le (by simp; omega)]
    have h2 : List.drop (at_ + 1 + (e.row_count - at_)) (R ++ [x]) = [] := by
      apply List.drop_of_length_le; simp; omega
    have h3 : List.take (at_ + 1) (R ++ [x]) = R.take (at_ + 1) := by
      rw [List.take_append_of_le_length (by omega)]
    rw [h1, h2, h3, List.append_nil, List.map_append, List.set_append]
    have h4 : at_ < (List.map f (List.take (at_ + 1) R)).length := by simp; omega
    rw [if_pos h4, List.map_take, List.map_drop, List.take_succ]
    have h5 : at_ < (List.map f R).length := by simp; omega
    rw [List.getElem?_eq_getElem h5]
    simp only [Option.toList_some]
    rw [List.set_append]
    have h6 : ¬ at_ < (List.take at_ (List.map f R)).length := by simp
    rw [if_neg h6]
    have h7 : min at_ R.length = at_ := by rw [hlen]; exact Nat.min_eq_left hat
    simp [h7]
  · have hat' : at_ = e.row_count := by omega
    subst hat'
    simp only [bne_self_eq_false, Bool.false_eq_true, if_false]
    rw [List.map_append, List.set_append]
    have h6 : ¬ e.row_count < (List.map f R).length := by simp [hlen]
    rw [if_neg h6, List.take_of_length_le (by simp [hlen]),
      List.drop_of_length_le (by simp [hlen])]
    simp [hlen]

/-- C8. `insert_row` on a document of `row_count` rows held in the row
array: with `at_ < 0` or `at_ > row_count` the editor is unchanged; otherwise
`row_count` grows by one and the raw texts of the rows are the old ones with
the text inserted at position `at_`, the order of the others kept. -/
theorem insert_row_spec (e : Editor) (text : List Nat) (at_ : Int)
    (hcap : e.row_count ≤ e.row.length) :
    ((at_ < 0 ∨ at_ > e.row_count) → insert_row e text at_ = e)
    ∧ ((0 ≤ at_ ∧ at_ ≤ e.row_count) →
        (insert_row e text at_).row_count = e.row_count + 1
        ∧ raw_texts (insert_row e text at_)
            = (raw_texts e).take at_.toNat ++ text :: (raw_texts e).drop at_.toNat) := by
  constructor
  · intro h
    unfold insert_row
    rw [if_pos h]
  · rintro ⟨h0, h1⟩
    have hn : ¬ (at_ < 0 ∨ at_ > e.row_count) := by omega
    have hat : at_.toNat ≤ e.row_count := by omega
    unfold insert_row
    rw [if_neg hn]
    simp only [render_row_row_count, true_and]
    unfold raw_texts
    simp only [render_row_row_count]
    rw [List.map_take, render_row_data]
    simp only
    rw [insert_row_cells_map Row.data (fun _ _ => rfl) e text _ hcap hat]
    apply List.take_of_length_le
    simp
    omega

/-- C8 at `sample_editor`, inserting `y` at position 1. -/
theorem insert_row_spec_witness :
    sample_editor.row_count ≤ sample_editor.row.length
    ∧ (((1 : Int) < 0 ∨ (1 : Int) > sample_editor.row_count →
          insert_row sample_editor (cstr "y") 1 = sample_editor)
      ∧ ((0 ≤ (1 : Int) ∧ (1 : Int) ≤ sample_editor.row_count) →
          (insert_row sample_editor (cstr "y") 1).row_count = sample_editor.row_count + 1
          ∧ raw_texts (insert_row sample_editor (cstr "y") 1)
              = (raw_texts sample_editor).take (1 : Int).toNat
                ++ cstr "y" :: (raw_texts sample_editor).drop (1 : Int).toNat)) :=
  ⟨by decide, insert_row_spec sample_editor (cstr "y") 1 (by decide)⟩

/-- C9. `delete_row` on a document of `row_count` rows held in the row
array: with `at_ < 0` or `at_ >= row_count` the editor is unchanged; otherwise
`row_count` drops by one and the rows are the old ones without the row at
position `at_`, in the same order, each with its raw text, rendered text and
highlight buffer as before. -/
theorem delete_row_spec (e : Editor) (at_ : Int) (hcap : e.row_count ≤ e.row.length) :
    ((at_ < 0 ∨ at_ ≥ e.row_count) → delete_row e at_ = e)
    ∧ ((0 ≤ at_ ∧ at_ < e.row_count) →
        (delete_row e at_).row_count = e.row_count - 1
        ∧ row_contents (delete_row e at_)
            = (row_contents e).take at_.toNat ++ (row_contents e).drop (at_.toNat + 1)) := by
  constructor
  · intro h
    unfold delete_row
    rw [if_neg (by omega)]
  · rintro ⟨h0, h1⟩
    have hat : at_.toNat < e.row_count := by omega
    unfold delete_row
    rw [if_pos ⟨h0, h1⟩]
    refine ⟨rfl, ?_⟩
    unfold row_contents
    simp only
    have key := map_mapIdx_index Row.content (fun _ _ => rfl)
      (fun i => at_.toNat + 1 ≤ i ∧ i ≤ e.row_count) (-1)
    simp only [← Int.sub_eq_add_neg] at key
    rw [List.map_take, key,
      memmove_eq _ _ _ _ (by omega) (by omega), ← List.map_take]
    rw [← List.map_take, ← List.map_drop, ← List.map_append]
    congr 1
    generalize at_.toNat = k at hat
    have hl : (List.take k e.row ++ List.take (e.row_count - k - 1) (List.drop (k + 1) e.row)).length
        = e.row_count - 1 := by
      simp only [List.length_append, List.length_take, List.length_drop]
      omega
    rw [List.take_append_of_le_length (by omega), List.take_of_length_le (by omega),
      List.take_take, List.drop_take, Nat.min_eq_left (by omega)]
    rfl

/-- C9 at `sample_editor`, deleting row 0. -/
theorem delete_row_spec_witness :
    sample_editor.row_count ≤ sample_editor.row.length
    ∧ (((0 : Int) < 0 ∨ (0 : Int) ≥ sample_editor.row_count →
          delete_row sample_editor 0 = sample_editor)
      ∧ ((0 ≤ (0 : Int) ∧ (0 : Int) < sample_editor.row_count) →
          (delete_row sample_editor 0).row_count = sample_editor.row_count - 1
          ∧ row_contents (delete_row sample_editor 0)
              = (row_contents sample_editor).take (0 : Int).toNat
                ++ (row_contents sample_editor).drop ((0 : Int).toNat + 1))) :=
  ⟨by decide, delete_row_spec sample_editor 0 (by decide)⟩

/-- C1 (code defect). Starting from the empty document, `insert_row` of "a"
at 0, `insert_row` of "b" at 1 and `delete_row` at 0 leave a one-row document
whose only row, at position 0, has `index` 1: the loop of `delete_row` at
lines 614-616 starts at `at + 1` and so skips the row moved to position
`at`. -/
theorem delete_row_index_off_by_one :
    (delete_row (insert_row (insert_row empty_editor (cstr "a") 0) (cstr "b") 1) 0).row_count = 1
    ∧ ((delete_row (insert_row (insert_row empty_editor (cstr "a") 0) (cstr "b") 1) 0).row.take 1).map
        Row.index = [1]
    ∧ ((delete_row (insert_row (insert_row empty_editor (cstr "a") 0) (cstr "b") 1) 0).row.take 1).map
        Row.data = [cstr "b"] := by
  decide

theorem length_insert_row_cells (e : Editor) (text : List Nat) (at_ : Nat)
    (hcap : e.row_count ≤ e.row.length) :
    (insert_row_cells e text at_).length = e.row_count + 1 := by
  unfold insert_row_cells
  simp only [List.length_set, List.length_mapIdx]
  split
  · simp only [memmove, length_write_at, List.length_take, List.length_append,
      List.length_singleton]
    omega
  · simp only [List.length_take, List.length_append, List.length_singleton]
    omega

theorem insert_row_cells_at (e : Editor) (text : List Nat) (at_ : Nat)
    (hcap : e.row_count ≤ e.row.length) (hat : at_ ≤ e.row_count) :
    (insert_row_cells e text at_)[at_]?
      = some { index := at_, data := text, rendered := [], highlights := [],
               open_comment := false } := by
  have hl := length_insert_row_cells e text at_ hcap
  unfold insert_row_cells at hl ⊢
  rw [List.length_set] at hl
  rw [List.getElem?_set_self (by omega)]

theorem insert_row_raw_rendered (e : Editor) (text : List Nat) (at_ : Int)
    (hcap : e.row_count ≤ e.row.length) (h0 : 0 ≤ at_) (h1 : at_ ≤ e.row_count) :
    (insert_row e text at_).row_count = e.row_count + 1
    ∧ (insert_row e text at_).row.length = e.row_count + 1
    ∧ (insert_row e text at_).row.map Row.raw_rendered
        = (raw_rendered_texts e).take at_.toNat
          ++ (text, render_text text) :: (raw_rendered_texts e).drop at_.toNat := by
  have hn : ¬ (at_ < 0 ∨ at_ > e.row_count) := by omega
  have hat : at_.toNat ≤ e.row_count := by omega
  unfold insert_row
  rw [if_neg hn]
  simp only [render_row_row_count, length_render_row, length_insert_row_cells e text _ hcap,
    true_and]
  rw [render_row_raw_rendered _ _ _ (insert_row_cells_at e text _ hcap hat)]
  simp only
  rw [insert_row_cells_map Row.raw_rendered (fun _ _ => rfl) e text _ hcap hat]
  unfold raw_rendered_texts
  have hlen : (List.take at_.toNat (List.map Row.raw_rendered (List.take e.row_count e.row))).length
      = at_.toNat := by
    simp only [List.length_take, List.length_map]; omega
  rw [List.set_append, if_neg (by omega), hlen, Nat.sub_self]
  rfl

theorem insert_row_fields (e : Editor) (text : List Nat) (at_ : Int) :
    insert_row e text at_
      = { e with row := (insert_row e text at_).row,
                 row_count := (insert_row e text at_).row_count } := by
  unfold insert_row
  split
  · rfl
  · simp only
    rw [render_row_fields]

@[simp] theorem insert_row_cursor_x (e : Editor) (text : List Nat) (at_ : Int) :
    (insert_row e text at_).cursor_x = e.cursor_x := by
  rw [insert_row_fields]

@[simp] theorem insert_row_cursor_y (e : Editor) (text : List Nat) (at_ : Int) :
    (insert_row e text at_).cursor_y = e.cursor_y := by
  rw [insert_row_fields]

/-! ## Enter splits a row -/

theorem handle_key_enter (find_editor save_editor : Editor → Editor) (e : Editor) :
    handle_key find_editor save_editor e 13
      = some (clamp_cursor_x (handle_enter { e with quit_times := 0 })) := by
  rfl

theorem cursor_row_size_nonneg (e : Editor) : 0 ≤ cursor_row_size e := by
  unfold cursor_row_size
  split
  · exact Int.ofNat_nonneg _
  · exact Int.le_refl 0

theorem raw_rendered_texts_get (e : Editor) (y : Nat) (row : Row)
    (hy : y < e.row_count) (hrow : e.row[y]? = some row) :
    (raw_rendered_texts e)[y]? = some (row.data, row.rendered) := by
  unfold raw_rendered_texts
  rw [List.getElem?_map, List.getElem?_take, if_pos hy, hrow]
  rfl

theorem truncate_row_spec (e : Editor) (at_row size : Nat) (row : Row)
    (h : e.row[at_row]? = some row) :
    (truncate_row e at_row size).row_count = e.row_count
    ∧ (truncate_row e at_row size).row.length = e.row.length
    ∧ (truncate_row e at_row size).cursor_x = e.cursor_x
    ∧ (truncate_row e at_row size).cursor_y = e.cursor_y
    ∧ (truncate_row e at_row size).row.map Row.raw_rendered
        = (e.row.map Row.raw_rendered).set at_row
            (row.data.take size, render_text (row.data.take size)) := by
  unfold truncate_row
  rw [h]
  simp only [render_row_row_count, length_render_row, List.length_set, render_row_cursor_x,
    render_row_cursor_y, true_and]
  rw [render_row_raw_rendered _ _ _ (List.getElem?_set_self (getElem?_lt_length h))]
  simp only [List.map_set, List.set_set]

theorem handle_enter_rows (e : Editor) (x y : Nat) (row : Row)
    (hcap : e.row_count ≤ e.row.length) (hy : y < e.row_count)
    (hrow : e.row[y]? = some row)
    (hcx : e.cursor_x = x) (hcy : e.cursor_y = y) :
    (handle_enter e).row_count = e.row_count + 1
    ∧ (handle_enter e).row.length = e.row_count + 1
    ∧ (handle_enter e).row.map Row.raw_rendered
        = (raw_rendered_texts e).take y
          ++ (row.data.take x, render_text (row.data.take x))
          :: (row.data.drop x, if x = 0 then row.rendered else render_text (row.data.drop x))
          :: (raw_rendered_texts e).drop (y + 1)
    ∧ (handle_enter e).cursor_x = 0 ∧ (handle_enter e).cursor_y = y + 1 := by
  have hP := raw_rendered_texts_get e y row hy hrow
  have hPlt : y < (raw_rendered_texts e).length := getElem?_lt_length hP
  have hdrop : (raw_rendered_texts e).drop y
      = (row.data, row.rendered) :: (raw_rendered_texts e).drop (y + 1) := by
    rw [List.drop_eq_getElem_cons hPlt]
    congr 1
    rw [List.getElem?_eq_getElem hPlt] at hP
    exact Option.some.inj hP
  by_cases hx0 : x = 0
  · subst hx0
    have hE : handle_enter e
        = { insert_row e [] (y : Int) with cursor_y := (y : Int) + 1, cursor_x := 0 } := by
      unfold handle_enter
      have hc : (e.cursor_x == 0) = true := by rw [hcx]; rfl
      simp only [hc, if_true, hcy, insert_row_cursor_y]
    obtain ⟨h1, h2, h3⟩ := insert_row_raw_rendered e [] (y : Int) hcap (by omega) (by omega)
    rw [hE]
    refine ⟨h1, h2, ?_, rfl, rfl⟩
    simp only
    rw [h3]
    simp only [Int.toNat_ofNat, List.take_zero, List.drop_zero, if_true]
    rw [hdrop]
  · have hg : e.row.getD y default = row := by
      rw [List.getD_eq_getElem?_getD, hrow]; rfl
    have hE : handle_enter e
        = { truncate_row (insert_row e (row.data.drop x) ((y : Int) + 1)) y x with
              cursor_y := (truncate_row (insert_row e (row.data.drop x) ((y : Int) + 1)) y x).cursor_y
                + 1,
              cursor_x := 0 } := by
      unfold handle_enter
      have hc : (((x : Nat) : Int) == 0) = false := by
        simp only [beq_eq_false_iff_ne, ne_eq]; omega
      simp only [hcx, hc, Bool.false_eq_true, if_false, hcy, Int.toNat_ofNat,
        insert_row_cursor_y, insert_row_cursor_x, hg]
    obtain ⟨h1, h2, h3⟩ := insert_row_raw_rendered e (row.data.drop x) ((y : Int) + 1) hcap
      (by omega) (by omega)
    have hty : ((y : Int) + 1).toNat = y + 1 := by omega
    rw [hty] at h3
    have htake : (raw_rendered_texts e).take (y + 1)
        = (raw_rendered_texts e).take y ++ [(row.data, row.rendered)] := by
      rw [List.take_succ, hP]; rfl
    have hlt : (List.take y (raw_rendered_texts e)).length = y := by
      rw [List.length_take]; omega
    have hy1 : (insert_row e (List.drop x row.data) (↑y + 1)).cursor_y = y := by
      rw [insert_row_cursor_y, hcy]
    generalize insert_row e (List.drop x row.data) (↑y + 1) = e1 at h1 h2 h3 hE hy1
    have hcy1 : (e1.row.map Row.raw_rendered)[y]? = some (row.data, row.rendered) := by
      rw [h3, htake, List.append_assoc, List.getElem?_append_right (by omega), hlt, Nat.sub_self]
      rfl
    rw [List.getElem?_map] at hcy1
    cases hr1 : e1.row[y]? with
    | none => rw [hr1] at hcy1; cases hcy1
    | some row1 =>
      rw [hr1] at hcy1
      simp only [Option.map_some', Option.some.injEq, Row.raw_rendered, Prod.mk.injEq] at hcy1
      obtain ⟨t1, t2, t3, t4, t5⟩ := truncate_row_spec e1 y x row1 hr1
      rw [hE]
      refine ⟨by simp only [t1, h1], by simp only [t2, h2], ?_, rfl, ?_⟩
      · simp only
        rw [t5, hcy1.1, h3, htake, List.append_assoc, List.set_append, if_neg (by omega), hlt,
          Nat.sub_self]
        simp only [if_neg hx0]
        rfl
      · simp only [t4, hy1]

theorem raw_texts_eq_map_fst (e : Editor) :
    raw_texts e = (raw_rendered_texts e).map Prod.fst := by
  unfold raw_texts raw_rendered_texts
  rw [List.map_map]
  rfl

/-- C10. Pressing Enter with the cursor at column `x` of row `y` (a row of
the document, `x` at most its raw size) does not leave the program; the
document gains one row; row `y` holds the first `x` raw bytes of the old row
and row `y + 1` the remaining ones, the other rows keep their raw and
rendered texts and their order; the rendered text of row `y` is computed from
its new raw text, and so is that of row `y + 1` when `x > 0`, while for
`x = 0` row `y + 1` is the old row with the rendered text it had (the
rendering of its raw text when the old row was rendered); the cursor is at
column `0` of row `y + 1`. -/
theorem enter_splits_row (find_editor save_editor : Editor → Editor) (e : Editor)
    (x y : Nat) (row : Row)
    (hcap : e.row_count ≤ e.row.length) (hy : y < e.row_count)
    (hrow : e.row[y]? = some row) (hx : x ≤ row.size)
    (hcx : e.cursor_x = x) (hcy : e.cursor_y = y) :
    ∃ e', handle_key find_editor save_editor e 13 = some e'
      ∧ e'.row_count = e.row_count + 1
      ∧ raw_texts e'
          = (raw_texts e).take y ++ row.data.take x :: row.data.drop x
            :: (raw_texts e).drop (y + 1)
      ∧ row.data.take x ++ row.data.drop x = row.data
      ∧ raw_rendered_texts e'
          = (raw_rendered_texts e).take y
            ++ (row.data.take x, render_text (row.data.take x))
            :: (row.data.drop x,
                if x = 0 then row.rendered else render_text (row.data.drop x))
            :: (raw_rendered_texts e).drop (y + 1)
      ∧ (row.rendered = render_text row.data →
          raw_rendered_texts e'
            = (raw_rendered_texts e).take y
              ++ (row.data.take x, render_text (row.data.take x))
              :: (row.data.drop x, render_text (row.data.drop x))
              :: (raw_rendered_texts e).drop (y + 1))
      ∧ e'.cursor_x = 0 ∧ e'.cursor_y = y + 1 := by
  have _ := hx
  have key : ∀ e0 : Editor, e0.row = e.row → e0.row_count = e.row_count →
      e0.cursor_x = x → e0.cursor_y = y →
      (clamp_cursor_x (handle_enter e0)).row_count = e.row_count + 1
      ∧ raw_rendered_texts (clamp_cursor_x (handle_enter e0))
        = (raw_rendered_texts e).take y
          ++ (row.data.take x, render_text (row.data.take x))
          :: (row.data.drop x, if x = 0 then row.rendered else render_text (row.data.drop x))
          :: (raw_rendered_texts e).drop (y + 1)
      ∧ (clamp_cursor_x (handle_enter e0)).cursor_x = 0
      ∧ (clamp_cursor_x (handle_enter e0)).cursor_y = y + 1 := by
    intro e0 hr0 hc0 hx0 hy0
    have hrr0 : raw_rendered_texts e0 = raw_rendered_texts e := by
      unfold raw_rendered_texts; rw [hr0, hc0]
    obtain ⟨h1, h2, h3, h4, h5⟩ :=
      handle_enter_rows e0 x y row (by rw [hr0, hc0]; exact hcap) (by rw [hc0]; exact hy)
        (by rw [hr0]; exact hrow) hx0 hy0
    have hclamp : clamp_cursor_x (handle_enter e0) = handle_enter e0 := by
      unfold clamp_cursor_x
      rw [if_neg]
      rw [h4]
      have := cursor_row_size_nonneg (handle_enter e0)
      omega
    rw [hclamp, hrr0] at *
    rw [hc0] at h1 h2
    refine ⟨h1, ?_, h4, h5⟩
    rw [← h3]
    unfold raw_rendered_texts
    rw [h1, List.take_of_length_le (by omega)]
  obtain ⟨h1, hrr, h4, h5⟩ := key { e with quit_times := 0 } rfl rfl hcx hcy
  refine ⟨_, handle_key_enter find_editor save_editor e, ?_⟩
  refine ⟨h1, ?_, List.take_append_drop x row.data, hrr, ?_, h4, h5⟩
  · rw [raw_texts_eq_map_fst, hrr, raw_texts_eq_map_fst]
    simp only [List.map_append, List.map_cons, List.map_take, List.map_drop]
  · intro hr
    rw [hrr]
    by_cases hx0 : x = 0
    · subst hx0
      simp only [if_true, List.drop_zero, hr]
    · simp only [if_neg hx0]

/-- C10 at `sample_editor`: Enter at column 3 of row 0 splits `int x;` into
`int` and ` x;`. -/
theorem enter_splits_row_witness :
    (sample_editor.row_count ≤ sample_editor.row.length ∧ 0 < sample_editor.row_count
      ∧ sample_editor.row[0]? = some sample_row ∧ 3 ≤ sample_row.size
      ∧ sample_editor.cursor_x = (3 : Nat) ∧ sample_editor.cursor_y = (0 : Nat))
    ∧ ∃ e', handle_key id id sample_editor 13 = some e'
      ∧ e'.row_count = sample_editor.row_count + 1
      ∧ raw_texts e'
          = (raw_texts sample_editor).take 0 ++ sample_row.data.take 3 :: sample_row.data.drop 3
            :: (raw_texts sample_editor).drop (0 + 1)
      ∧ sample_row.data.take 3 ++ sample_row.data.drop 3 = sample_row.data
      ∧ raw_rendered_texts e'
          = (raw_rendered_texts sample_editor).take 0
            ++ (sample_row.data.take 3, render_text (sample_row.data.take 3))
            :: (sample_row.data.drop 3,
                if 3 = 0 then sample_row.rendered else render_text (sample_row.data.drop 3))
            :: (raw_rendered_texts sample_editor).drop (0 + 1)
      ∧ (sample_row.rendered = render_text sample_row.data →
          raw_rendered_texts e'
            = (raw_rendered_texts sample_editor).take 0
              ++ (sample_row.data.take 3, render_text (sample_row.data.take 3))
              :: (sample_row.data.drop 3, render_text (sample_row.data.drop 3))
              :: (raw_rendered_texts sample_editor).drop (0 + 1))
      ∧ e'.cursor_x = 0 ∧ e'.cursor_y = (0 : Nat) + 1 :=
  ⟨by decide,
    enter_splits_row id id sample_editor 3 0 sample_row (by decide) (by decide) (by decide)
      (by decide) (by decide) (by decide)⟩

/-! ## Highlighting of concrete documents -/

/-- C2 (code defect). In the consistent C document with rows `/*` and `x`,
`insert_row` of `*/` at 1 leaves the row `x`, now at position 2, with
`open_comment` set although the row before it has it clear, and `delete_row`
at 0 leaves the row `x`, now first, with `open_comment` set: neither result is
consistent. -/
theorem insert_row_delete_row_break_consistency :
    highlight_consistent (load_lines (some c_profile) [cstr "/*", cstr "x"]) = true
    ∧ highlight_consistent
        (insert_row (load_lines (some c_profile) [cstr "/*", cstr "x"]) (cstr "*/") 1) = false
    ∧ ((insert_row (load_lines (some c_profile) [cstr "/*", cstr "x"]) (cstr "*/") 1).row.map
        fun row => (row.data, row.open_comment))
        = [(cstr "/*", true), (cstr "*/", false), (cstr "x", true)]
    ∧ highlight_consistent
        (delete_row (load_lines (some c_profile) [cstr "/*", cstr "x"]) 0) = false
    ∧ (((delete_row (load_lines (some c_profile) [cstr "/*", cstr "x"]) 0).row.take 1).map
        fun row => (row.data, row.open_comment)) = [(cstr "x", true)] := by
  decide

/-- C3 (code defect). With the C profile, in the document with rows
`a /* b`, `c d`, `e */ f` and `g` only the two comment tokens are classified
`HIGHLIGHT_COMMENTS`; the bytes ` b` of row 0, all of row 1 and the bytes `e `
of row 2, which lie inside the block comment, stay `HIGHLIGHT_NORMAL`. -/
theorem block_comment_interior_stays_normal :
    highlight_rows
        (load_lines (some c_profile) [cstr "a /* b", cstr "c d", cstr "e */ f", cstr "g"])
      = [[0, 0, 2, 2, 0, 0], [0, 0, 0], [0, 0, 2, 2, 0, 0], [0]]
    ∧ HIGHLIGHT_NORMAL = 0 ∧ HIGHLIGHT_COMMENTS = 2 := by
  decide

/-- C7 (as stated, refuted). With the C profile and the rows `int x;` and
`// c`, the bytes of `int` are not classified `HIGHLIGHT_KEYWORD1`. -/
theorem int_is_not_keyword1 :
    ¬ (((highlight_rows (load_lines (some c_profile) [cstr "int x;", cstr "// c"])).getD 0 []).take 3
        = [HIGHLIGHT_KEYWORD1, HIGHLIGHT_KEYWORD1, HIGHLIGHT_KEYWORD1]) := by
  decide

/-- C7 (amended). With the C profile and the rows `int x;` and `// c`, the
three bytes of `int` are classified `HIGHLIGHT_KEYWORD2` (the table entry is
`int|`), the bytes ` x;` are `HIGHLIGHT_NORMAL`, and every rendered byte of
row 1 is `HIGHLIGHT_COMMENT`, the line comment class. -/
theorem int_x_line_comment_highlights :
    highlight_rows (load_lines (some c_profile) [cstr "int x;", cstr "// c"])
      = [[HIGHLIGHT_KEYWORD2, HIGHLIGHT_KEYWORD2, HIGHLIGHT_KEYWORD2,
          HIGHLIGHT_NORMAL, HIGHLIGHT_NORMAL, HIGHLIGHT_NORMAL],
         List.replicate 4 HIGHLIGHT_COMMENT]
    ∧ (load_lines (some c_profile) [cstr "int x;", cstr "// c"]).row_count = 2
    ∧ raw_rendered_texts (load_lines (some c_profile) [cstr "int x;", cstr "// c"])
      = [(cstr "int x;", cstr "int x;"), (cstr "// c", cstr "// c")] := by
  decide

/-! ## The size of the highlight buffer -/

theorem highlighted_sized (syn : Syntax) (row : Row) (in_comment : Bool) :
    (highlighted syn row in_comment).sized := by
  intro h
  have h' : row.rendered_size > 0 := h
  simp only [highlighted, length_highlight_scan, clear_highlights, if_pos h',
    List.length_replicate]
  rfl

theorem cleared_sized (row : Row) :
    Row.sized { row with highlights := clear_highlights row } := by
  intro h
  have h' : row.rendered_size > 0 := h
  simp only [clear_highlights, if_pos h', List.length_replicate]
  rfl

theorem cells_sized_set (cells : List Row) (i : Nat) (row : Row)
    (h : cells_sized cells) (hr : row.sized) : cells_sized (cells.set i row) := by
  intro r hmem
  rcases List.mem_or_eq_of_mem_set hmem with h1 | h1
  · exact h r h1
  · rw [h1]; exact hr

theorem cells_sized_highlight_cells (syn : Option Syntax) (row_count fuel : Nat) :
    ∀ (cells : List Row) (at_row : Nat), cells_sized cells →
      cells_sized (highlight_cells syn row_count fuel cells at_row) := by
  induction fuel with
  | zero => intro cells at_row h; exact h
  | succ fuel ih =>
    intro cells at_row h
    unfold highlight_cells
    cases cells[at_row]? with
    | none => exact h
    | some row =>
      cases syn with
      | none => exact cells_sized_set _ _ _ h (cleared_sized row)
      | some syn =>
        simp only
        split
        · exact ih _ _ (cells_sized_set _ _ _ h (highlighted_sized _ _ _))
        · exact cells_sized_set _ _ _ h (highlighted_sized _ _ _)

theorem cells_sized_set_of_others (cells : List Row) (i : Nat) (row : Row)
    (h : ∀ (j : Nat) (r : Row), cells[j]? = some r → j ≠ i → r.sized) (hr : row.sized) :
    cells_sized (cells.set i row) := by
  intro r hmem
  obtain ⟨j, hj⟩ := List.getElem?_of_mem hmem
  rw [List.getElem?_set] at hj
  split at hj
  · split at hj
    · cases hj; exact hr
    · cases hj
  · rename_i hne
    exact h j r hj (fun hji => hne hji.symm)

theorem cells_sized_highlight_cells_at (syn : Option Syntax) (row_count fuel : Nat)
    (cells : List Row) (at_row : Nat)
    (h : ∀ (j : Nat) (r : Row), cells[j]? = some r → j ≠ at_row → r.sized) :
    cells_sized (highlight_cells syn row_count (fuel + 1) cells at_row) := by
  unfold highlight_cells
  cases hrow : cells[at_row]? with
  | none =>
    intro r hmem
    obtain ⟨j, hj⟩ := List.getElem?_of_mem hmem
    refine h j r hj ?_
    intro hji
    rw [hji, hrow] at hj
    cases hj
  | some row =>
    cases syn with
    | none => exact cells_sized_set_of_others _ _ _ h (cleared_sized row)
    | some syn =>
      simp only
      split
      · exact cells_sized_highlight_cells _ _ _ _ _
          (cells_sized_set_of_others _ _ _ h (highlighted_sized _ _ _))
      · exact cells_sized_set_of_others _ _ _ h (highlighted_sized _ _ _)

theorem cells_sized_set_render_row (e : Editor) (at_row : Nat) (row : Row)
    (h : cells_sized e.row) :
    cells_sized (render_row { e with row := e.row.set at_row row } at_row).row := by
  unfold render_row
  cases hrow : (e.row.set at_row row)[at_row]? with
  | none =>
    simp only
    intro r hmem
    have hlen : e.row.length ≤ at_row := by
      rcases Nat.lt_or_ge at_row e.row.length with hlt | hge
      · rw [List.getElem?_set_self hlt] at hrow; cases hrow
      · exact hge
    rw [List.set_eq_of_length_le hlen] at hmem
    exact h r hmem
  | some row' =>
    simp only [highlight_row]
    apply cells_sized_highlight_cells_at
    intro j r hj hne
    rw [List.getElem?_set_ne (fun hji => hne hji.symm)] at hj
    rw [List.getElem?_set_ne (fun hji => hne hji.symm)] at hj
    exact h r (List.getElem?_mem hj)

theorem cells_sized_render_row (e : Editor) (at_row : Nat) (h : cells_sized e.row) :
    cells_sized (render_row e at_row).row := by
  cases hrow : e.row[at_row]? with
  | none => rw [render_row_none e at_row hrow]; exact h
  | some row =>
    have := cells_sized_set_render_row e at_row row h
    rw [set_getElem?_same e.row at_row row hrow] at this
    exact this

theorem cells_sized_mapIdx_index (p : Nat → Prop) [DecidablePred p] (d : Int)
    (cells : List Row) (h : cells_sized cells) :
    cells_sized
      (cells.mapIdx fun i row => if p i then { row with index := row.index + d } else row) := by
  intro r hmem
  rw [List.mem_mapIdx] at hmem
  obtain ⟨i, hi, hr⟩ := hmem
  have hs := h cells[i] (List.getElem_mem hi)
  rw [← hr]
  split
  · exact hs
  · exact hs

theorem cells_sized_insert_row (e : Editor) (text : List Nat) (at_ : Int)
    (h : cells_sized e.row) : cells_sized (insert_row e text at_).row := by
  unfold insert_row
  split
  · exact h
  · simp only
    unfold insert_row_cells
    apply cells_sized_set_render_row
      { e with row := List.mapIdx _ _ }
    simp only
    apply cells_sized_mapIdx_index _ 1
    have h1 : cells_sized ((e.row ++ [default]).take (e.row_count + 1)) := by
      intro r hmem
      rcases List.mem_append.mp (List.mem_of_mem_take hmem) with h2 | h2
      · exact h r h2
      · rw [List.mem_singleton.mp h2]
        intro h3
        exact absurd h3 (by decide)
    split
    · intro r hmem
      exact h1 r (mem_memmove _ _ _ _ _ hmem)
    · exact h1

theorem cells_sized_delete_row (e : Editor) (at_ : Int)
    (h : cells_sized e.row) : cells_sized (delete_row e at_).row := by
  unfold delete_row
  split
  · simp only
    have key := cells_sized_mapIdx_index (fun i => at_.toNat + 1 ≤ i ∧ i ≤ e.row_count) (-1)
    simp only [← Int.sub_eq_add_neg] at key
    apply key
    intro r hmem
    exact h r (mem_memmove _ _ _ _ _ hmem)
  · exact h

theorem cells_sized_insert_char (e : Editor) (at_row : Nat) (at_ : Int) (c : Nat)
    (h : cells_sized e.row) : cells_sized (insert_char e at_row at_ c).row := by
  unfold insert_char
  cases e.row[at_row]? with
  | none => exact h
  | some row => exact cells_sized_set_render_row e at_row _ h

theorem cells_sized_delete_char (e : Editor) (at_row : Nat) (at_ : Int)
    (h : cells_sized e.row) : cells_sized (delete_char e at_row at_).row := by
  unfold delete_char
  cases e.row[at_row]? with
  | none => exact h
  | some row =>
    simp only
    split
    · exact cells_sized_set_render_row e at_row _ h
    · exact h

theorem cells_sized_row_append_string (e : Editor) (at_row : Nat) (text : List Nat)
    (h : cells_sized e.row) : cells_sized (row_append_string e at_row text).row := by
  unfold row_append_string
  cases e.row[at_row]? with
  | none => exact h
  | some row => exact cells_sized_set_render_row e at_row _ h

theorem cells_sized_truncate_row (e : Editor) (at_row size : Nat)
    (h : cells_sized e.row) : cells_sized (truncate_row e at_row size).row := by
  unfold truncate_row
  cases e.row[at_row]? with
  | none => exact h
  | some row => exact cells_sized_set_render_row e at_row _ h

theorem cells_sized_handle_enter (e : Editor) (h : cells_sized e.row) :
    cells_sized (handle_enter e).row := by
  unfold handle_enter
  simp only
  split
  · exact cells_sized_insert_row _ _ _ h
  · exact cells_sized_truncate_row _ _ _ (cells_sized_insert_row _ _ _ h)

theorem clamp_cursor_x_row (e : Editor) : (clamp_cursor_x e).row = e.row := by
  unfold clamp_cursor_x
  split <;> rfl

theorem cells_sized_handle_backspace (recurse : Editor → Editor) (e : Editor) (c : Int)
    (hc : c ≠ DELETE_KEY) (h : cells_sized e.row) :
    cells_sized (handle_backspace recurse e c).row := by
  unfold handle_backspace
  have hc' : (c == DELETE_KEY) = false := by simpa using hc
  simp only [hc', Bool.false_eq_true, if_false]
  split
  · split
    · exact cells_sized_delete_char _ _ _ h
    · exact cells_sized_delete_row _ _ (cells_sized_row_append_string _ _ _ h)
  · exact h

theorem handle_key_backspace (find_editor save_editor : Editor → Editor) (e : Editor) :
    handle_key find_editor save_editor e BACKSPACE
      = some (clamp_cursor_x
          (handle_backspace
            (fun e' => handle_key_body id find_editor save_editor e' ARROW_RIGHT)
            { e with quit_times := 0 } BACKSPACE)) := by
  rfl

theorem cells_sized_apply_op (e : Editor) (op : Op) (h : cells_sized e.row) :
    cells_sized (apply_op e op).row := by
  cases op with
  | InsertRow text at_ => exact cells_sized_insert_row e text at_ h
  | DeleteRow at_ => exact cells_sized_delete_row e at_ h
  | InsertChar at_row at_ c => exact cells_sized_insert_char e at_row at_ c h
  | DeleteChar at_row at_ => exact cells_sized_delete_char e at_row at_ h
  | Split x y =>
    simp only [apply_op, handle_key_enter, Option.getD_some, clamp_cursor_x_row]
    exact cells_sized_handle_enter _ h
  | Merge y =>
    simp only [apply_op, handle_key_backspace, Option.getD_some, clamp_cursor_x_row]
    exact cells_sized_handle_backspace _ _ _ (by decide) h

theorem cells_sized_run_ops (ops : List Op) : ∀ e : Editor, cells_sized e.row →
    cells_sized (run_ops e ops).row := by
  induction ops with
  | nil => intro e h; exact h
  | cons op ops ih =>
    intro e h
    exact ih (apply_op e op) (cells_sized_apply_op e op h)

/-- C5. Starting from an editor whose rows with a non-empty rendered text have
one highlight entry per rendered byte (the empty document is one), for every
sequence of `insert_row`, `delete_row`, `insert_char`, `delete_char`, split
(Enter) and merge (Backspace at column 0) operations, after each operation of
the sequence every row of the document has a highlights sequence of exactly
`rendered_size` entries, rows whose rendered text has become empty included;
and the allocated block of a row with a non-empty rendered text has exactly
`rendered_size` entries. -/
theorem highlight_sequence_sized_after_ops (e : Editor) (ops : List Op)
    (h : cells_sized e.row) (n : Nat) :
    ∀ row ∈ (run_ops e (ops.take n)).row.take (run_ops e (ops.take n)).row_count,
      row.highlight_sequence.length = row.rendered_size
      ∧ (row.rendered_size > 0 → row.highlights.length = row.rendered_size) := by
  intro row hmem
  have hs : row.sized := cells_sized_run_ops (ops.take n) e h row (List.mem_of_mem_take hmem)
  refine ⟨?_, hs⟩
  unfold Row.highlight_sequence
  rw [List.length_take]
  by_cases h0 : row.rendered_size > 0
  · rw [hs h0]; exact Nat.min_self _
  · have : row.rendered_size = 0 := by omega
    rw [this]; exact Nat.zero_min _

/-- C5 at the eight operations of `sized_ops` from the empty document, which
leave two rows: the emptied row 0, whose highlights sequence is empty (its
block keeps the one entry it had), and row 1, a slash, a tab and `bz`, with
ten rendered bytes and ten highlights. -/
theorem highlight_sequence_sized_after_ops_witness :
    cells_sized empty_editor.row
    ∧ ((run_ops empty_editor (sized_ops.take 8)).row.take
          (run_ops empty_editor (sized_ops.take 8)).row_count).map
        (fun row => (row.data, row.rendered_size, row.highlight_sequence, row.highlights.length))
      = [([], 0, [], 1), (cstr "/\tbz", 10, List.replicate 10 0, 10)]
    ∧ ∀ row ∈ (run_ops empty_editor (sized_ops.take 8)).row.take
          (run_ops empty_editor (sized_ops.take 8)).row_count,
        row.highlight_sequence.length = row.rendered_size
        ∧ (row.rendered_size > 0 → row.highlights.length = row.rendered_size) :=
  ⟨(fun _ h => nomatch h), by decide,
    highlight_sequence_sized_after_ops empty_editor sized_ops (fun _ h => nomatch h) 8⟩

/-! ## Idempotence of `highlight_row` and the depth of its recursion -/

theorem cells_forward_of_index_ok (row_count : Nat) (cells : List Row)
    (h : cells_index_ok row_count cells) : cells_forward row_count cells := by
  intro i row hi hrow
  rw [h i row hi hrow]

theorem cells_forward_set (row_count : Nat) (cells : List Row) (i : Nat) (row row' : Row)
    (h : cells_forward row_count cells) (hrow : cells[i]? = some row)
    (hidx : row'.index = row.index) : cells_forward row_count (cells.set i row') := by
  intro j r hj hr
  rw [List.getElem?_set] at hr
  split at hr
  · rename_i hij
    split at hr
    · cases hr
      rw [hidx]
      exact h j row hj (by rw [← hij]; exact hrow)
    · cases hr
  · exact h j r hj hr

theorem scanned_index (syn : Option Syntax) (cells : List Row) (row : Row) :
    (scanned syn cells row).index = row.index := by
  cases syn <;> rfl

/-- While every row's `index` is at least its position, a call of
`highlight_row` on a row of the document leaves the rows before it alone: the
nested calls only touch later rows. -/
theorem highlight_cells_below (syn : Option Syntax) (row_count fuel : Nat) :
    ∀ (cells : List Row) (at_row : Nat), at_row < row_count →
      cells_forward row_count cells →
      ∀ j, j < at_row → (highlight_cells syn row_count fuel cells at_row)[j]? = cells[j]? := by
  induction fuel with
  | zero => intro cells at_row _ _ j _; rfl
  | succ fuel ih =>
    intro cells at_row hlt hfw j hj
    unfold highlight_cells
    cases hrow : cells[at_row]? with
    | none => rfl
    | some row =>
      have hidx : (at_row : Int) ≤ row.index := hfw at_row row hlt hrow
      cases syn with
      | none => exact List.getElem?_set_ne (by omega)
      | some syn =>
        simp only
        split
        · rename_i hcond
          simp only [Bool.and_eq_true, decide_eq_true_eq] at hcond
          have hfw' := cells_forward_set row_count cells at_row row
            (highlighted syn row (seed_in_comment cells row)) hfw hrow rfl
          rw [ih _ (row.index + 1).toNat (by omega) hfw' j (by omega)]
          exact List.getElem?_set_ne (by omega)
        · exact List.getElem?_set_ne (by omega)

/-- While every row's `index` is at least its position, a call of
`highlight_row` on a row of the document leaves that row as its own scan made
it. -/
theorem highlight_cells_at (syn : Option Syntax) (row_count fuel : Nat)
    (cells : List Row) (at_row : Nat) (row : Row) (hlt : at_row < row_count)
    (hfw : cells_forward row_count cells) (hrow : cells[at_row]? = some row) :
    (highlight_cells syn row_count (fuel + 1) cells at_row)[at_row]?
      = some (scanned syn cells row) := by
  have hlen := getElem?_lt_length hrow
  have hidx : (at_row : Int) ≤ row.index := hfw at_row row hlt hrow
  unfold highlight_cells
  rw [hrow]
  cases syn with
  | none => exact List.getElem?_set_self hlen
  | some syn =>
    simp only [scanned]
    split
    · rename_i hcond
      simp only [Bool.and_eq_true, decide_eq_true_eq] at hcond
      have hfw' := cells_forward_set row_count cells at_row row
        (highlighted syn row (seed_in_comment cells row)) hfw hrow rfl
      rw [highlight_cells_below syn row_count fuel _ (row.index + 1).toNat (by omega) hfw'
        at_row (by omega)]
      exact List.getElem?_set_self hlen
    · exact List.getElem?_set_self hlen

theorem seed_in_comment_congr (cells cells' : List Row) (row row' : Row)
    (hidx : row'.index = row.index)
    (h : ∀ j : Nat, (j : Int) < row.index → cells'[j]? = cells[j]?) :
    seed_in_comment cells' row' = seed_in_comment cells row := by
  unfold seed_in_comment
  rw [hidx]
  by_cases hpos : row.index > 0
  · have hj := h (row.index - 1).toNat (by omega)
    rw [List.getD_eq_getElem?_getD, List.getD_eq_getElem?_getD, hj]
  · simp [hpos]

theorem highlight_cells_fixed (syn : Option Syntax) (row_count fuel : Nat)
    (cells cells' : List Row) (at_row : Nat) (row : Row)
    (hrow : cells'[at_row]? = some (scanned syn cells row))
    (hseed : seed_in_comment cells' (scanned syn cells row) = seed_in_comment cells row) :
    highlight_cells syn row_count (fuel + 1) cells' at_row = cells' := by
  unfold highlight_cells
  rw [hrow]
  cases syn with
  | none =>
    simp only [scanned]
    rw [clear_highlights_cleared]
    exact set_getElem?_same _ _ _ hrow
  | some syn =>
    simp only [scanned] at hrow hseed ⊢
    rw [hseed, highlighted_idem]
    simp only [bne_self_eq_false, Bool.false_and, Bool.false_eq_true, if_false]
    exact set_getElem?_same _ _ _ hrow

/-- Idempotence of `highlight_row` under the index invariant.  In every
editor state whose rows have an `index` at least their
position (every state the document operations reach), for every syntax
profile or none and every row of the document: when the first run of
`highlight_row` on the row leaves unchanged the carry-over state the code
reads for it, `row[index - 1].open_comment`, a second run returns exactly the
editor the first run returned, with the same highlights and `open_comment`
in every row.  Under the index invariant of the data model the first run
never changes that state, and the second run always returns the same
editor. -/
theorem highlight_row_idempotent (e : Editor) (at_row : Nat)
    (hfw : cells_forward e.row_count e.row) (hlt : at_row < e.row_count) :
    ((∀ row, e.row[at_row]? = some row →
        seed_in_comment (highlight_row e at_row).row row = seed_in_comment e.row row) →
      highlight_row (highlight_row e at_row) at_row = highlight_row e at_row)
    ∧ (row_index_ok e →
      highlight_row (highlight_row e at_row) at_row = highlight_row e at_row) := by
  have main : (∀ row, e.row[at_row]? = some row →
        seed_in_comment (highlight_row e at_row).row row = seed_in_comment e.row row) →
      highlight_row (highlight_row e at_row) at_row = highlight_row e at_row := by
    intro hseed
    unfold highlight_row at hseed ⊢
    simp only at hseed ⊢
    congr 1
    cases hrow : e.row[at_row]? with
    | none =>
      have h1 : highlight_cells e.syntax_ e.row_count (e.row_count + 1) e.row at_row
          = e.row := by
        unfold highlight_cells; rw [hrow]
      rw [h1, h1]
    | some row =>
      have hat := highlight_cells_at e.syntax_ e.row_count e.row_count e.row at_row row hlt
        hfw hrow
      apply highlight_cells_fixed e.syntax_ e.row_count e.row_count e.row _ at_row row hat
      rw [← hseed row hrow]
      exact seed_in_comment_congr _ _ _ _ (scanned_index _ _ _) (fun _ _ => rfl)
  refine ⟨main, ?_⟩
  intro hok
  apply main
  intro row hrow
  have hidx : row.index = at_row := hok at_row row hlt hrow
  apply seed_in_comment_congr _ _ _ _ rfl
  intro j hj
  exact highlight_cells_below e.syntax_ e.row_count _ e.row at_row hlt hfw j (by omega)

theorem stale_editor_index_ok : row_index_ok stale_editor := by
  intro i row hi hrow
  have hi2 : i < 2 := hi
  have h0 : stale_editor.row[0]?.map Row.index = some 0 := by decide
  have h1 : stale_editor.row[1]?.map Row.index = some 1 := by decide
  interval_cases i
  · rw [hrow] at h0; simpa using h0
  · rw [hrow] at h1; simpa using h1

/-- The idempotence of `highlight_row` at row 0 of `stale_editor`, where the
first run opens a block comment and re-highlights row 1. -/
theorem highlight_row_idempotent_witness :
    (cells_forward stale_editor.row_count stale_editor.row ∧ 0 < stale_editor.row_count)
    ∧ ((∀ row, stale_editor.row[0]? = some row →
          seed_in_comment (highlight_row stale_editor 0).row row
            = seed_in_comment stale_editor.row row) →
        highlight_row (highlight_row stale_editor 0) 0 = highlight_row stale_editor 0)
    ∧ (row_index_ok stale_editor →
        highlight_row (highlight_row stale_editor 0) 0 = highlight_row stale_editor 0) :=
  ⟨⟨cells_forward_of_index_ok _ _ stale_editor_index_ok, by decide⟩,
    highlight_row_idempotent stale_editor 0
      (cells_forward_of_index_ok _ _ stale_editor_index_ok) (by decide)⟩

/-- C6 (code defect). In `merged_editor`, the C document `ab`, `/*/` left by
a merge, `highlight_row` is run twice on row 1.  The rendered texts and the
whole of row 0, the previous row, are the same before and after each run, yet
the first run leaves row 1 with highlights `[0, 2, 2]` and `open_comment`
clear, and the second with `[2, 2, 0]` and `open_comment` set: `delete_row`
has left the row with `index` 2 (lines 614-616), so that line 398 seeds
`in_comment` from `row[1]`, the row itself, which each run changes.  In the
same way, in `merged_comment_editor` a run on row 1, `/*x`, replaces the
highlights `[2, 2, 0]` that the run inside `insert_row` wrote by
`[0, 0, 0]`. -/
theorem merge_breaks_highlight_idempotence :
    merged_editor.row_count = 2
    ∧ row_states merged_editor
        = [(0, cstr "ab", [0, 0], false), (2, cstr "/*/", [2, 2, 0], true)]
    ∧ row_states (highlight_row merged_editor 1)
        = [(0, cstr "ab", [0, 0], false), (2, cstr "/*/", [0, 2, 2], false)]
    ∧ row_states (highlight_row (highlight_row merged_editor 1) 1)
        = [(0, cstr "ab", [0, 0], false), (2, cstr "/*/", [2, 2, 0], true)]
    ∧ highlight_row (highlight_row merged_editor 1) 1 ≠ highlight_row merged_editor 1
    ∧ row_states merged_comment_editor
        = [(0, cstr "ab", [0, 0], false), (2, cstr "/*x", [2, 2, 0], true)]
    ∧ row_states (highlight_row merged_comment_editor 1)
        = [(0, cstr "ab", [0, 0], false), (2, cstr "/*x", [0, 0, 0], true)] := by
  refine ⟨by decide, by decide, by decide, by decide, ?_, by decide, by decide⟩
  intro h
  have h1 : row_states (highlight_row (highlight_row merged_editor 1) 1)
      ≠ row_states (highlight_row merged_editor 1) := by decide
  exact h1 (congrArg row_states h)

theorem highlight_cells_succ (syn : Option Syntax) (row_count fuel : Nat) :
    ∀ (cells : List Row) (at_row : Nat), at_row < row_count →
      cells_forward row_count cells → row_count - at_row ≤ fuel →
      highlight_cells syn row_count (fuel + 1) cells at_row
        = highlight_cells syn row_count fuel cells at_row := by
  induction fuel with
  | zero => intro cells at_row hlt _ hf; omega
  | succ fuel ih =>
    intro cells at_row hlt hfw hf
    rw [highlight_cells, highlight_cells.eq_def syn row_count (fuel + 1)]
    simp only
    cases hrow : cells[at_row]? with
    | none => rfl
    | some row =>
      have hidx : (at_row : Int) ≤ row.index := hfw at_row row hlt hrow
      cases syn with
      | none => rfl
      | some syn =>
        simp only
        split
        · rename_i hcond
          simp only [Bool.and_eq_true, decide_eq_true_eq] at hcond
          have hfw' := cells_forward_set row_count cells at_row row
            (highlighted syn row (seed_in_comment cells row)) hfw hrow rfl
          exact ih _ _ (by omega) hfw' (by omega)
        · rfl

/-- The fuel `highlight_row` gives the nested calls is enough for a row of
the document whenever every row's `index` is at least its position: with any
further calls allowed the result is the same, so the recursion has ended by
itself. -/
theorem highlight_row_fuel (e : Editor) (at_row : Nat) (k : Nat)
    (hfw : cells_forward e.row_count e.row) (hlt : at_row < e.row_count) :
    { e with row := highlight_cells e.syntax_ e.row_count (e.row_count + 1 + k) e.row at_row }
      = highlight_row e at_row := by
  unfold highlight_row
  congr 1
  induction k with
  | zero => rfl
  | succ k ih =>
    rw [← Nat.add_assoc, highlight_cells_succ _ _ _ _ _ hlt hfw (by omega)]
    exact ih

/-! ## The row array in every reachable editor -/

theorem insert_row_cells_eq (e : Editor) (text : List Nat) (at_ : Nat)
    (hcap : e.row_count ≤ e.row.length) (hat : at_ ≤ e.row_count) :
    insert_row_cells e text at_
      = (e.row.take e.row_count).take at_
        ++ { index := at_, data := text, rendered := [], highlights := [],
             open_comment := false }
        :: ((e.row.take e.row_count).drop at_).map
            fun row => { row with index := row.index + 1 } := by
  obtain ⟨x, hx⟩ := realloc_cells e.row e.row_count hcap
  have hlen : (e.row.take e.row_count).length = e.row_count := by simp [hcap]
  generalize hR : e.row.take e.row_count = R at hx hlen ⊢
  unfold insert_row_cells
  simp only [hx]
  apply List.ext_getElem?
  intro i
  rw [List.getElem?_set, List.length_mapIdx, List.getElem?_mapIdx]
  have hcells2 : (if (at_ != e.row_count) = true
        then memmove (R ++ [x]) (at_ + 1) at_ (e.row_count - at_) else R ++ [x])
      = if at_ < e.row_count then R.take (at_ + 1) ++ R.drop at_ else R ++ [x] := by
    rcases Nat.lt_or_ge at_ e.row_count with hlt | hge
    · have hne : (at_ != e.row_count) = true := by simp; omega
      rw [if_pos hne, if_pos hlt, memmove_eq _ _ _ _ (by simp; omega) (by simp; omega)]
      have h1 : List.take (e.row_count - at_) (List.drop at_ (R ++ [x])) = R.drop at_ := by
        rw [List.drop_append_of_le_length (by omega),
          List.take_append_of_le_length (by simp; omega)]
        rw [List.take_of_length_le (by simp; omega)]
      have h2 : List.drop (at_ + 1 + (e.row_count - at_)) (R ++ [x]) = [] := by
        apply List.drop_of_length_le; simp; omega
      have h3 : List.take (at_ + 1) (R ++ [x]) = R.take (at_ + 1) := by
        rw [List.take_append_of_le_length (by omega)]
      rw [h1, h2, h3, List.append_nil]
    · have hat' : at_ = e.row_count := by omega
      subst hat'
      simp
  rw [hcells2]
  have hl2 : (if at_ < e.row_count then R.take (at_ + 1) ++ R.drop at_ else R ++ [x]).length
      = e.row_count + 1 := by
    split
    · simp only [List.length_append, List.length_take, List.length_drop]; omega
    · simp only [List.length_append, List.length_singleton]; omega
  rw [hl2]
  have hlt_take : (List.take at_ R).length = at_ := by rw [List.length_take]; omega
  by_cases hi : at_ = i
  · subst hi
    rw [if_pos rfl, if_pos (by omega), List.getElem?_append_right (by omega), hlt_take,
      Nat.sub_self, List.getElem?_cons_zero]
  · rw [if_neg hi]
    rcases Nat.lt_or_ge i at_ with hlt | hge
    · rw [List.getElem?_append_left (by omega), List.getElem?_take, if_pos hlt]
      have hg : ¬ (at_ + 1 ≤ i ∧ i ≤ e.row_count) := by omega
      simp only [hg, if_false]
      split
      · rw [List.getElem?_append_left (by simp; omega), List.getElem?_take, if_pos (by omega)]
        cases R[i]? <;> rfl
      · rw [List.getElem?_append_left (by omega)]
        cases R[i]? <;> rfl
    · have hgt : at_ < i := by omega
      have hrhs : (List.take at_ R
            ++ ({ index := at_, data := text, rendered := [], highlights := [],
                  open_comment := false } : Row)
            :: (R.drop at_).map fun row => { row with index := row.index + 1 })[i]?
          = (R[i - 1]?).map fun row => { row with index := row.index + 1 } := by
        obtain ⟨k, hk⟩ : ∃ k, i = at_ + 1 + k := ⟨i - at_ - 1, by omega⟩
        subst hk
        have h1 : at_ + 1 + k - at_ = k + 1 := by omega
        have h2 : at_ + 1 + k - 1 = at_ + k := by omega
        rw [List.getElem?_append_right (by omega), hlt_take, h1, List.getElem?_cons_succ,
          List.getElem?_map, List.getElem?_drop, h2]
      rw [hrhs]
      rcases Nat.lt_or_ge e.row_count i with hbig | hsmall
      · rw [List.getElem?_eq_none (by rw [hl2]; omega), List.getElem?_eq_none (by omega)]
        rfl
      · have hlt' : at_ < e.row_count := by omega
        have hg : at_ + 1 ≤ i ∧ i ≤ e.row_count := ⟨by omega, hsmall⟩
        have hlhs : (List.take (at_ + 1) R ++ List.drop at_ R)[i]? = R[i - 1]? := by
          obtain ⟨k, hk⟩ : ∃ k, i = at_ + 1 + k := ⟨i - at_ - 1, by omega⟩
          subst hk
          have h1 : (List.take (at_ + 1) R).length = at_ + 1 := by
            rw [List.length_take]; omega
          have h2 : at_ + 1 + k - 1 = at_ + k := by omega
          have h3 : at_ + 1 + k - (at_ + 1) = k := by omega
          rw [List.getElem?_append_right (by omega), h1, h3, List.getElem?_drop, h2]
        rw [if_pos hlt', hlhs]
        cases R[i - 1]? with
        | none => rfl
        | some row => simp only [Option.map_some', hg, and_self, if_true]

theorem cells_forward_congr (row_count : Nat) (cells cells' : List Row)
    (h : cells'.map Row.index = cells.map Row.index) (hf : cells_forward row_count cells) :
    cells_forward row_count cells' := by
  intro i row hi hrow
  have hi' := congrArg (fun l => l[i]?) h
  simp only [List.getElem?_map, hrow, Option.map_some'] at hi'
  cases hr : cells[i]? with
  | none => rw [hr] at hi'; cases hi'
  | some r =>
    rw [hr] at hi'
    simp only [Option.map_some', Option.some.injEq] at hi'
    rw [hi']
    exact hf i r hi hr

theorem render_row_index (e : Editor) (at_row : Nat) :
    (render_row e at_row).row.map Row.index = e.row.map Row.index :=
  render_row_map Row.index (fun _ _ => rfl)
    (fun row row' h => by simp only [Row.text, Prod.mk.injEq] at h; exact h.1) e at_row

theorem set_render_row_index (e : Editor) (at_row : Nat) (row row' : Row)
    (hrow : e.row[at_row]? = some row) (hidx : row'.index = row.index) :
    (render_row { e with row := e.row.set at_row row' } at_row).row.map Row.index
      = e.row.map Row.index := by
  rw [render_row_index]
  simp only [List.map_set, hidx]
  exact set_getElem?_same _ _ _ (by rw [List.getElem?_map, hrow]; rfl)

theorem cells_forward_insert_row (e : Editor) (text : List Nat) (at_ : Int)
    (hcap : e.row_count ≤ e.row.length) (hf : cells_forward e.row_count e.row) :
    cells_forward (insert_row e text at_).row_count (insert_row e text at_).row := by
  unfold insert_row
  split
  · exact hf
  · rename_i hn
    have hat : at_.toNat ≤ e.row_count := by omega
    have h0 : (at_.toNat : Int) = at_ := by omega
    simp only [render_row_row_count]
    apply cells_forward_congr _ _ _ (render_row_index _ _)
    simp only
    rw [insert_row_cells_eq e text _ hcap hat]
    intro i row hi hrow
    have hlt_take : (List.take at_.toNat (List.take e.row_count e.row)).length = at_.toNat := by
      simp only [List.length_take]; omega
    rcases Nat.lt_trichotomy i at_.toNat with hlt | heq | hgt
    · rw [List.getElem?_append_left (by omega), List.getElem?_take, if_pos hlt,
        List.getElem?_take, if_pos (by omega)] at hrow
      exact hf i row (by omega) hrow
    · subst heq
      rw [List.getElem?_append_right (by omega), hlt_take, Nat.sub_self,
        List.getElem?_cons_zero] at hrow
      cases hrow
      exact Int.le_refl _
    · obtain ⟨k, hk⟩ : ∃ k, i = at_.toNat + 1 + k := ⟨i - at_.toNat - 1, by omega⟩
      subst hk
      have h1 : at_.toNat + 1 + k - at_.toNat = k + 1 := by omega
      rw [List.getElem?_append_right (by omega), hlt_take, h1, List.getElem?_cons_succ,
        List.getElem?_map, List.getElem?_drop, List.getElem?_take, if_pos (by omega)] at hrow
      cases hr : e.row[at_.toNat + k]? with
      | none => rw [hr] at hrow; cases hrow
      | some r =>
        rw [hr] at hrow
        simp only [Option.map_some', Option.some.injEq] at hrow
        have := hf (at_.toNat + k) r (by omega) hr
        rw [← hrow]
        simp only
        omega

theorem capacity_insert_row (e : Editor) (text : List Nat) (at_ : Int)
    (hcap : e.row_count ≤ e.row.length) :
    (insert_row e text at_).row_count ≤ (insert_row e text at_).row.length := by
  by_cases hn : at_ < 0 ∨ at_ > e.row_count
  · unfold insert_row; rw [if_pos hn]; exact hcap
  · obtain ⟨h1, h2, -⟩ := insert_row_raw_rendered e text at_ hcap (by omega) (by omega)
    omega

theorem cells_index_ok_congr (row_count : Nat) (cells cells' : List Row)
    (h : cells'.map Row.index = cells.map Row.index) (hf : cells_index_ok row_count cells) :
    cells_index_ok row_count cells' := by
  intro i row hi hrow
  have hi' := congrArg (fun l => l[i]?) h
  simp only [List.getElem?_map, hrow, Option.map_some'] at hi'
  cases hr : cells[i]? with
  | none => rw [hr] at hi'; cases hi'
  | some r =>
    rw [hr] at hi'
    simp only [Option.map_some', Option.some.injEq] at hi'
    rw [hi']
    exact hf i r hi hr

/-- `insert_row` keeps the index invariant: the defect of `delete_row` has
no counterpart in it. -/
theorem row_index_ok_insert_row (e : Editor) (text : List Nat) (at_ : Int)
    (hcap : e.row_count ≤ e.row.length) (hok : row_index_ok e) :
    row_index_ok (insert_row e text at_) := by
  unfold row_index_ok insert_row
  split
  · exact hok
  · rename_i hn
    have hat : at_.toNat ≤ e.row_count := by omega
    simp only [render_row_row_count]
    apply cells_index_ok_congr _ _ _ (render_row_index _ _)
    simp only
    rw [insert_row_cells_eq e text _ hcap hat]
    intro i row hi hrow
    have hlt_take : (List.take at_.toNat (List.take e.row_count e.row)).length = at_.toNat := by
      simp only [List.length_take]; omega
    rcases Nat.lt_trichotomy i at_.toNat with hlt | heq | hgt
    · rw [List.getElem?_append_left (by omega), List.getElem?_take, if_pos hlt,
        List.getElem?_take, if_pos (by omega)] at hrow
      exact hok i row (by omega) hrow
    · subst heq
      rw [List.getElem?_append_right (by omega), hlt_take, Nat.sub_self,
        List.getElem?_cons_zero] at hrow
      cases hrow
      rfl
    · obtain ⟨k, hk⟩ : ∃ k, i = at_.toNat + 1 + k := ⟨i - at_.toNat - 1, by omega⟩
      subst hk
      have h1 : at_.toNat + 1 + k - at_.toNat = k + 1 := by omega
      rw [List.getElem?_append_right (by omega), hlt_take, h1, List.getElem?_cons_succ,
        List.getElem?_map, List.getElem?_drop, List.getElem?_take, if_pos (by omega)] at hrow
      cases hr : e.row[at_.toNat + k]? with
      | none => rw [hr] at hrow; cases hrow
      | some r =>
        rw [hr] at hrow
        simp only [Option.map_some', Option.some.injEq] at hrow
        have := hok (at_.toNat + k) r (by omega) hr
        rw [← hrow]
        simp only
        omega

theorem length_delete_row (e : Editor) (at_ : Int) :
    (delete_row e at_).row.length = e.row.length := by
  unfold delete_row
  split
  · simp only [List.length_mapIdx, memmove, length_write_at]
  · rfl

theorem capacity_delete_row (e : Editor) (at_ : Int) (hcap : e.row_count ≤ e.row.length) :
    (delete_row e at_).row_count ≤ (delete_row e at_).row.length := by
  rw [length_delete_row]
  unfold delete_row
  split
  · simp only; omega
  · exact hcap

theorem cells_forward_delete_row (e : Editor) (at_ : Int)
    (hcap : e.row_count ≤ e.row.length) (hf : cells_forward e.row_count e.row) :
    cells_forward (delete_row e at_).row_count (delete_row e at_).row := by
  unfold delete_row
  split
  · rename_i hv
    simp only
    generalize hk : at_.toNat = k
    have hkl : k < e.row_count := by omega
    rw [memmove_eq _ _ _ _ (by omega) (by omega)]
    intro i row hi hrow
    rw [List.getElem?_mapIdx] at hrow
    have hl1 : (List.take k e.row).length = k := by rw [List.length_take]; omega
    rcases Nat.lt_or_ge i k with hlt | hge
    · rw [List.append_assoc, List.getElem?_append_left (by omega), List.getElem?_take,
        if_pos hlt] at hrow
      cases hr : e.row[i]? with
      | none => rw [hr] at hrow; cases hrow
      | some r =>
        rw [hr] at hrow
        have hg : ¬ (k + 1 ≤ i ∧ i ≤ e.row_count) := by omega
        simp only [Option.map_some', hg, if_false, Option.some.injEq] at hrow
        rw [← hrow]
        exact hf i r (by omega) hr
    · have h2 : i - k < e.row_count - k - 1 := by omega
      rw [List.append_assoc, List.getElem?_append_right (by omega), hl1,
        List.getElem?_append_left (by simp only [List.length_take, List.length_drop]; omega),
        List.getElem?_take, if_pos h2, List.getElem?_drop] at hrow
      cases hr : e.row[k + 1 + (i - k)]? with
      | none => rw [hr] at hrow; cases hrow
      | some r =>
        rw [hr] at hrow
        have := hf (k + 1 + (i - k)) r (by omega) hr
        simp only [Option.map_some', Option.some.injEq] at hrow
        rw [← hrow]
        split
        · simp only; omega
        · omega
  · exact hf

theorem array_ok_insert_row (e : Editor) (text : List Nat) (at_ : Int) (h : array_ok e) :
    array_ok (insert_row e text at_) :=
  ⟨capacity_insert_row e text at_ h.1, cells_forward_insert_row e text at_ h.1 h.2⟩

theorem array_ok_delete_row (e : Editor) (at_ : Int) (h : array_ok e) :
    array_ok (delete_row e at_) :=
  ⟨capacity_delete_row e at_ h.1, cells_forward_delete_row e at_ h.1 h.2⟩

theorem array_ok_set_render_row (e : Editor) (at_row : Nat) (row row' : Row)
    (hrow : e.row[at_row]? = some row) (hidx : row'.index = row.index) (h : array_ok e) :
    array_ok (render_row { e with row := e.row.set at_row row' } at_row) := by
  constructor
  · rw [render_row_row_count, length_render_row, List.length_set]
    exact h.1
  · rw [render_row_row_count]
    exact cells_forward_congr _ _ _ (set_render_row_index e at_row row row' hrow hidx) h.2

theorem array_ok_insert_char (e : Editor) (at_row : Nat) (at_ : Int) (c : Nat)
    (h : array_ok e) : array_ok (insert_char e at_row at_ c) := by
  unfold insert_char
  cases hrow : e.row[at_row]? with
  | none => exact h
  | some row => exact array_ok_set_render_row e at_row row _ hrow rfl h

theorem array_ok_delete_char (e : Editor) (at_row : Nat) (at_ : Int)
    (h : array_ok e) : array_ok (delete_char e at_row at_) := by
  unfold delete_char
  cases hrow : e.row[at_row]? with
  | none => exact h
  | some row =>
    simp only
    split
    · exact array_ok_set_render_row e at_row row _ hrow rfl h
    · exact h

theorem array_ok_row_append_string (e : Editor) (at_row : Nat) (text : List Nat)
    (h : array_ok e) : array_ok (row_append_string e at_row text) := by
  unfold row_append_string
  cases hrow : e.row[at_row]? with
  | none => exact h
  | some row => exact array_ok_set_render_row e at_row row _ hrow rfl h

theorem array_ok_truncate_row (e : Editor) (at_row size : Nat)
    (h : array_ok e) : array_ok (truncate_row e at_row size) := by
  unfold truncate_row
  cases hrow : e.row[at_row]? with
  | none => exact h
  | some row => exact array_ok_set_render_row e at_row row _ hrow rfl h

theorem array_ok_handle_enter (e : Editor) (h : array_ok e) : array_ok (handle_enter e) := by
  unfold handle_enter
  simp only
  split
  · exact array_ok_insert_row _ _ _ h
  · exact array_ok_truncate_row _ _ _ (array_ok_insert_row _ _ _ h)

theorem array_ok_clamp_cursor_x (e : Editor) (h : array_ok e) :
    array_ok (clamp_cursor_x e) := by
  unfold clamp_cursor_x
  split
  · exact h
  · exact h

theorem array_ok_handle_backspace (recurse : Editor → Editor) (e : Editor) (c : Int)
    (hc : c ≠ DELETE_KEY) (h : array_ok e) : array_ok (handle_backspace recurse e c) := by
  unfold handle_backspace
  have hc' : (c == DELETE_KEY) = false := by simpa using hc
  simp only [hc', Bool.false_eq_true, if_false]
  split
  · split
    · exact array_ok_delete_char _ _ _ h
    · exact array_ok_delete_row _ _ (array_ok_row_append_string _ _ _ h)
  · exact h

theorem array_ok_apply_op (e : Editor) (op : Op) (h : array_ok e) :
    array_ok (apply_op e op) := by
  cases op with
  | InsertRow text at_ => exact array_ok_insert_row e text at_ h
  | DeleteRow at_ => exact array_ok_delete_row e at_ h
  | InsertChar at_row at_ c => exact array_ok_insert_char e at_row at_ c h
  | DeleteChar at_row at_ => exact array_ok_delete_char e at_row at_ h
  | Split x y =>
    simp only [apply_op, handle_key_enter, Option.getD_some]
    exact array_ok_clamp_cursor_x _ (array_ok_handle_enter _ h)
  | Merge y =>
    simp only [apply_op, handle_key_backspace, Option.getD_some]
    exact array_ok_clamp_cursor_x _ (array_ok_handle_backspace _ _ _ (by decide) h)

/-- Every editor reached from the empty document by the document mutations
holds its rows in the row array, each with an `index` at least its position:
the states in which the nested calls of `highlight_row` end by themselves
and in which `insert_row`, `delete_row` and Enter are specified above. -/
theorem array_ok_run_ops (ops : List Op) : ∀ e : Editor, array_ok e →
    array_ok (run_ops e ops) := by
  induction ops with
  | nil => intro e h; exact h
  | cons op ops ih =>
    intro e h
    exact ih (apply_op e op) (array_ok_apply_op e op h)

theorem array_ok_empty_editor (syn : Option Syntax) :
    array_ok { empty_editor with syntax_ := syn } :=
  ⟨Nat.le_refl 0, fun _ _ hi _ => absurd hi (Nat.not_lt_zero _)⟩

/-! ## Consistency of highlights with the carry-over state -/

theorem rows_consistent_iff (syn : Syntax) (rows : List Row) : ∀ previous : Bool,
    rows_consistent syn previous rows = true
      ↔ ∀ (i : Nat) (row : Row), rows[i]? = some row →
          highlighted syn row
            (if i = 0 then previous else (rows.getD (i - 1) default).open_comment) = row := by
  induction rows with
  | nil =>
    intro previous
    simp [rows_consistent]
  | cons r rows ih =>
    intro previous
    simp only [rows_consistent, Bool.and_eq_true, beq_iff_eq, ih]
    constructor
    · rintro ⟨h0, hrest⟩ i row hrow
      cases i with
      | zero =>
        simp only [List.getElem?_cons_zero, Option.some.injEq] at hrow
        subst hrow
        simpa using h0
      | succ i =>
        simp only [List.getElem?_cons_succ] at hrow
        have := hrest i row hrow
        simp only [Nat.add_sub_cancel, Nat.add_one_ne_zero, if_false]
        cases i with
        | zero => simpa using this
        | succ i =>
          simp only [Nat.add_one_ne_zero, if_false, Nat.add_sub_cancel] at this
          simpa [List.getD_cons_succ] using this
    · intro h
      constructor
      · simpa using h 0 r (by simp)
      · intro i row hrow
        have := h (i + 1) row (by simpa using hrow)
        simp only [Nat.add_sub_cancel, Nat.add_one_ne_zero, if_false] at this
        cases i with
        | zero => simpa using this
        | succ i =>
          simp only [Nat.add_one_ne_zero, if_false, Nat.add_sub_cancel]
          simpa [List.getD_cons_succ] using this

theorem highlight_consistent_iff (e : Editor) (syn : Syntax) (hsyn : e.syntax_ = some syn) :
    highlight_consistent e = true ↔ ∀ i, i < e.row_count → consistent_at syn e.row i := by
  unfold highlight_consistent
  rw [hsyn]
  simp only [rows_consistent_iff]
  constructor
  · intro h i hi row hrow
    have := h i row (by rw [List.getElem?_take, if_pos hi]; exact hrow)
    unfold previous_open
    cases i with
    | zero => simpa using this
    | succ i =>
      simp only [Nat.add_one_ne_zero, if_false, Nat.add_sub_cancel] at this
      rw [List.getD_eq_getElem?_getD, List.getElem?_take, if_pos (by omega)] at this
      simpa [List.getD_eq_getElem?_getD] using this
  · intro h i row hrow
    rw [List.getElem?_take] at hrow
    split at hrow
    · rename_i hi
      have := h i hi row hrow
      unfold previous_open at this
      cases i with
      | zero => simpa using this
      | succ i =>
        simp only [Nat.add_one_ne_zero, if_false, Nat.add_sub_cancel]
        rw [List.getD_eq_getElem?_getD, List.getElem?_take, if_pos (by omega)]
        simpa [List.getD_eq_getElem?_getD] using this
    · cases hrow

theorem cells_index_ok_set (row_count : Nat) (cells : List Row) (i : Nat) (row row' : Row)
    (h : cells_index_ok row_count cells) (hrow : cells[i]? = some row)
    (hidx : row'.index = row.index) : cells_index_ok row_count (cells.set i row') := by
  intro j r hj hr
  rw [List.getElem?_set] at hr
  split at hr
  · rename_i hij
    split at hr
    · cases hr
      rw [hidx]
      exact h j row hj (by rw [← hij]; exact hrow)
    · cases hr
  · exact h j r hj hr

theorem previous_open_set (cells : List Row) (q i : Nat) (row : Row) (h : i ≠ q + 1) :
    previous_open (cells.set q row) i = previous_open cells i := by
  unfold previous_open
  by_cases hi : i > 0
  · rw [List.getD_eq_getElem?_getD, List.getD_eq_getElem?_getD,
      List.getElem?_set_ne (by omega)]
  · simp [hi]

theorem previous_open_set_succ (cells : List Row) (q : Nat) (row : Row)
    (hq : q < cells.length) :
    previous_open (cells.set q row) (q + 1) = row.open_comment := by
  unfold previous_open
  rw [List.getD_eq_getElem?_getD, Nat.add_sub_cancel, List.getElem?_set_self hq]
  simp

theorem seed_in_comment_eq_previous_open (cells : List Row) (row : Row) (q : Nat)
    (h : row.index = q) : seed_in_comment cells row = previous_open cells q := by
  unfold seed_in_comment previous_open
  rw [h]
  have h1 : ((q : Int) - 1).toNat = q - 1 := by omega
  rw [h1]
  congr 1
  simp

theorem consistent_at_of_eq (syn : Syntax) (cells cells' : List Row) (i : Nat)
    (hrow : cells'[i]? = cells[i]?) (hprev : previous_open cells' i = previous_open cells i)
    (h : consistent_at syn cells i) : consistent_at syn cells' i := by
  intro row hr
  rw [hprev]
  exact h row (by rw [← hrow]; exact hr)

/-- Under the index invariant the nested calls of `highlight_row` restore
consistency: when every row of the document but the one at `at_row` is
consistent with the stored `open_comment` of the row before it, after the
call every row is. -/
theorem highlight_cells_consistent (syn : Syntax) (row_count fuel : Nat) :
    ∀ (cells : List Row) (at_row : Nat), at_row < row_count →
      cells_index_ok row_count cells → row_count - at_row ≤ fuel →
      (∀ i, i < row_count → i ≠ at_row → consistent_at syn cells i) →
      ∀ i, i < row_count →
        consistent_at syn (highlight_cells (some syn) row_count fuel cells at_row) i := by
  induction fuel with
  | zero => intro cells at_row hlt _ hf; omega
  | succ fuel ih =>
    intro cells at_row hlt hok hf hc
    unfold highlight_cells
    cases hrow : cells[at_row]? with
    | none =>
      intro i hi
      by_cases hia : i = at_row
      · intro row hr; rw [hia, hrow] at hr; cases hr
      · exact hc i hi hia
    | some row =>
      have hlen := getElem?_lt_length hrow
      have hidx : row.index = at_row := hok at_row row hlt hrow
      have hseed := seed_in_comment_eq_previous_open cells row at_row hidx
      simp only
      have hA : ∀ i, i < row_count → i ≠ at_row → i ≠ at_row + 1 →
          consistent_at syn
            (cells.set at_row (highlighted syn row (seed_in_comment cells row))) i := by
        intro i hi h1 h2
        exact consistent_at_of_eq syn cells _ i (List.getElem?_set_ne (by omega))
          (previous_open_set cells at_row i _ h2) (hc i hi h1)
      have hB : consistent_at syn
          (cells.set at_row (highlighted syn row (seed_in_comment cells row))) at_row := by
        intro r hr
        rw [List.getElem?_set_self hlen] at hr
        cases hr
        rw [previous_open_set cells at_row at_row _ (by omega), ← hseed]
        exact highlighted_idem syn row _
      split
      · rename_i hcond
        simp only [Bool.and_eq_true, decide_eq_true_eq] at hcond
        have hq : (row.index + 1).toNat = at_row + 1 := by omega
        rw [hq]
        apply ih (cells.set at_row (highlighted syn row (seed_in_comment cells row)))
          (at_row + 1) (by omega)
          (cells_index_ok_set row_count cells at_row row
            (highlighted syn row (seed_in_comment cells row)) hok hrow rfl) (by omega)
        intro i hi hne
        by_cases hia : i = at_row
        · rw [hia]; exact hB
        · exact hA i hi hia hne
      · rename_i hcond
        intro i hi
        by_cases hia : i = at_row
        · rw [hia]; exact hB
        · by_cases hia1 : i = at_row + 1
          · have hsame : (highlighted syn row (seed_in_comment cells row)).open_comment
                = row.open_comment := by
              simp only [Bool.and_eq_true, decide_eq_true_eq, not_and, bne_iff_ne, ne_eq] at hcond
              by_contra hne
              exact hcond (fun h => hne h.symm) (by omega)
            subst hia1
            refine consistent_at_of_eq syn cells _ _ (List.getElem?_set_ne (by omega)) ?_
              (hc _ hi hia)
            rw [previous_open_set_succ cells at_row _ hlen, hsame]
            unfold previous_open
            rw [List.getD_eq_getElem?_getD, Nat.add_sub_cancel, hrow]
            simp
          · exact hA i hi hia hia1

theorem render_row_profile (e : Editor) (at_row : Nat) :
    (render_row e at_row).syntax_ = e.syntax_ := by
  rw [render_row_fields]

theorem set_render_row_consistent (e : Editor) (at_row : Nat) (row row' : Row)
    (hok : row_index_ok e) (hlt : at_row < e.row_count) (hrow : e.row[at_row]? = some row)
    (hidx : row'.index = row.index) (hopen : row'.open_comment = row.open_comment)
    (hc : highlight_consistent e = true) :
    highlight_consistent (render_row { e with row := e.row.set at_row row' } at_row) = true := by
  have hlen := getElem?_lt_length hrow
  cases hsyn : e.syntax_ with
  | none =>
    unfold highlight_consistent
    rw [render_row_profile]
  | some syn =>
    rw [highlight_consistent_iff _ syn (by rw [render_row_profile])]
    rw [highlight_consistent_iff e syn hsyn] at hc
    rw [render_row_row_count]
    unfold render_row
    simp only [List.getElem?_set_self hlen, highlight_row, List.set_set, hsyn]
    apply highlight_cells_consistent syn e.row_count (e.row_count + 1) _ at_row hlt
      (cells_index_ok_set e.row_count e.row at_row row
        { row' with rendered := render_text row'.data } hok hrow hidx) (by omega)
    intro i hi hne
    by_cases hi1 : i = at_row + 1
    · subst hi1
      refine consistent_at_of_eq syn e.row _ _ (List.getElem?_set_ne (by omega)) ?_ (hc _ hi)
      rw [previous_open_set_succ e.row at_row _ hlen]
      simp only [hopen]
      unfold previous_open
      rw [List.getD_eq_getElem?_getD, Nat.add_sub_cancel, hrow]
      simp
    · exact consistent_at_of_eq syn e.row _ i (List.getElem?_set_ne (by omega))
        (previous_open_set e.row at_row i _ hi1) (hc i hi)

/-- `insert_char` on a row of a consistent document that satisfies the index
invariant leaves the document consistent: the row is highlighted again and
the change of its carry-over state is passed down the following rows. -/
theorem insert_char_consistent (e : Editor) (at_row : Nat) (at_ : Int) (c : Nat)
    (hok : row_index_ok e) (hlt : at_row < e.row_count)
    (hc : highlight_consistent e = true) :
    highlight_consistent (insert_char e at_row at_ c) = true := by
  unfold insert_char
  cases hrow : e.row[at_row]? with
  | none => exact hc
  | some row => exact set_render_row_consistent e at_row row _ hok hlt hrow rfl rfl hc

/-- `delete_char` on a row of a consistent document that satisfies the index
invariant leaves the document consistent. -/
theorem delete_char_consistent (e : Editor) (at_row : Nat) (at_ : Int)
    (hok : row_index_ok e) (hlt : at_row < e.row_count)
    (hc : highlight_consistent e = true) :
    highlight_consistent (delete_char e at_row at_) = true := by
  unfold delete_char
  cases hrow : e.row[at_row]? with
  | none => exact hc
  | some row =>
    simp only
    split
    · exact set_render_row_consistent e at_row row _ hok hlt hrow rfl rfl hc
    · exact hc

/-! ## Backspace merges two rows -/

theorem delete_row_map {β : Type} (f : Row → β)
    (hf : ∀ (row : Row) (i : Int), f { row with index := i } = f row)
    (e : Editor) (at_ : Int) (hcap : e.row_count ≤ e.row.length)
    (h0 : 0 ≤ at_) (h1 : at_ < e.row_count) :
    (delete_row e at_).row_count = e.row_count - 1
    ∧ ((delete_row e at_).row.take (e.row_count - 1)).map f
        = ((e.row.take e.row_count).map f).take at_.toNat
          ++ ((e.row.take e.row_count).map f).drop (at_.toNat + 1) := by
  have hat : at_.toNat < e.row_count := by omega
  unfold delete_row
  rw [if_pos ⟨h0, h1⟩]
  refine ⟨rfl, ?_⟩
  simp only
  have key := map_mapIdx_index f hf (fun i => at_.toNat + 1 ≤ i ∧ i ≤ e.row_count) (-1)
  simp only [← Int.sub_eq_add_neg] at key
  rw [List.map_take, key, memmove_eq _ _ _ _ (by omega) (by omega), ← List.map_take]
  rw [← List.map_take, ← List.map_drop, ← List.map_append]
  congr 1
  generalize at_.toNat = k at hat
  have hl : (List.take k e.row ++ List.take (e.row_count - k - 1) (List.drop (k + 1) e.row)).length
      = e.row_count - 1 := by
    simp only [List.length_append, List.length_take, List.length_drop]
    omega
  rw [List.take_append_of_le_length (by omega), List.take_of_length_le (by omega),
    List.take_take, List.drop_take, Nat.min_eq_left (by omega)]
  rfl

theorem delete_row_fields (e : Editor) (at_ : Int) :
    delete_row e at_
      = { e with row := (delete_row e at_).row, row_count := (delete_row e at_).row_count } := by
  unfold delete_row
  split <;> rfl

theorem row_append_string_spec (e : Editor) (at_row : Nat) (text : List Nat) (row : Row)
    (h : e.row[at_row]? = some row) :
    (row_append_string e at_row text).row_count = e.row_count
    ∧ (row_append_string e at_row text).row.length = e.row.length
    ∧ (row_append_string e at_row text).cursor_x = e.cursor_x
    ∧ (row_append_string e at_row text).cursor_y = e.cursor_y
    ∧ (row_append_string e at_row text).row.map Row.raw_rendered
        = (e.row.map Row.raw_rendered).set at_row
            (row.data ++ text, render_text (row.data ++ text)) := by
  unfold row_append_string
  rw [h]
  simp only [render_row_row_count, length_render_row, List.length_set, render_row_cursor_x,
    render_row_cursor_y, true_and]
  rw [render_row_raw_rendered _ _ _ (List.getElem?_set_self (getElem?_lt_length h))]
  simp only [List.map_set, List.set_set]

theorem row_append_string_fields (e : Editor) (at_row : Nat) (text : List Nat) :
    row_append_string e at_row text = { e with row := (row_append_string e at_row text).row } := by
  unfold row_append_string
  cases e.row[at_row]? with
  | none => rfl
  | some row => simp only; rw [render_row_fields]

@[simp] theorem row_append_string_cursor_y (e : Editor) (at_row : Nat) (text : List Nat) :
    (row_append_string e at_row text).cursor_y = e.cursor_y := by
  rw [row_append_string_fields]

@[simp] theorem row_append_string_cursor_x (e : Editor) (at_row : Nat) (text : List Nat) :
    (row_append_string e at_row text).cursor_x = e.cursor_x := by
  rw [row_append_string_fields]

@[simp] theorem delete_row_cursor_y (e : Editor) (at_ : Int) :
    (delete_row e at_).cursor_y = e.cursor_y := by
  rw [delete_row_fields]

@[simp] theorem delete_row_cursor_x (e : Editor) (at_ : Int) :
    (delete_row e at_).cursor_x = e.cursor_x := by
  rw [delete_row_fields]

theorem handle_backspace_merge (recurse : Editor → Editor) (e : Editor) (y : Nat)
    (previous row : Row)
    (hcap : e.row_count ≤ e.row.length) (hy0 : 0 < y) (hy : y < e.row_count)
    (hprev : e.row[y - 1]? = some previous) (hrow : e.row[y]? = some row)
    (hcx : e.cursor_x = 0) (hcy : e.cursor_y = y) :
    (handle_backspace recurse e BACKSPACE).row_count = e.row_count - 1
    ∧ raw_rendered_texts (handle_backspace recurse e BACKSPACE)
        = (raw_rendered_texts e).take (y - 1)
          ++ (previous.data ++ row.data, render_text (previous.data ++ row.data))
          :: (raw_rendered_texts e).drop (y + 1)
    ∧ (handle_backspace recurse e BACKSPACE).cursor_x = previous.size
    ∧ (handle_backspace recurse e BACKSPACE).cursor_y = y - 1
    ∧ (handle_backspace recurse e BACKSPACE).dirty = 1 := by
  have hgo : e.row.getD y default = row := by
    rw [List.getD_eq_getElem?_getD, hrow]; rfl
  have hy1 : ((y : Int) - 1).toNat = y - 1 := by omega
  have hgn : e.row.getD (y - 1) default = previous := by
    rw [List.getD_eq_getElem?_getD, hprev]; rfl
  have hc : (BACKSPACE == DELETE_KEY) = false := by decide
  have hb : decide ((y : Int) < (e.row_count : Int)) = true := by
    simp only [decide_eq_true_eq]; omega
  have ho : (((y : Nat) : Int) == 0) = false := by
    simp only [beq_eq_false_iff_ne, ne_eq]; omega
  have hx : ¬ e.cursor_x > 0 := by omega
  obtain ⟨r1, r2, r3, r4, r5⟩ := row_append_string_spec
    { e with cursor_x := previous.size, cursor_y := (y : Int) } (y - 1) row.data previous hprev
  simp only at r1 r2 r3 r4 r5
  generalize hA : row_append_string
    { e with cursor_x := previous.size, cursor_y := (y : Int) } (y - 1) row.data = eA
    at r1 r2 r3 r4 r5
  have hE : handle_backspace recurse e BACKSPACE
      = { delete_row eA y with cursor_y := (y : Int) - 1, dirty := 1 } := by
    unfold handle_backspace
    simp only [hc, Bool.false_eq_true, if_false, hcy, hb, ho, Bool.and_false, Bool.not_false,
      Bool.and_self, if_true,
      if_neg hx, hcy, Int.toNat_ofNat, hgo, hy1, hgn, row_append_string_cursor_y,
      delete_row_cursor_y, hA]
    rw [r4]
  obtain ⟨d1, d2⟩ := delete_row_map Row.raw_rendered (fun _ _ => rfl) eA y (by omega)
    (by omega) (by omega)
  rw [hE]
  refine ⟨by simp only [d1, r1], ?_, ?_, rfl, rfl⟩
  · rw [r1, Int.toNat_ofNat, List.map_take _ eA.row, r5, List.set_take, ← List.map_take] at d2
    unfold raw_rendered_texts
    simp only [d1, r1]
    rw [d2]
    have hL : (List.map Row.raw_rendered (List.take e.row_count e.row)).length = e.row_count := by
      simp [hcap]
    generalize List.map Row.raw_rendered (List.take e.row_count e.row) = L at hL
    obtain ⟨k, rfl⟩ : ∃ k, y = k + 1 := ⟨y - 1, by omega⟩
    simp only [Nat.add_sub_cancel]
    have hk : k < L.length := by rw [hL]; omega
    rw [List.drop_set_of_lt _ _ (by omega), List.set_take, List.take_succ,
      List.getElem?_eq_getElem hk, List.set_append, if_neg (by simp)]
    simp [Nat.min_eq_left (Nat.le_of_lt hk)]
  · simp only [delete_row_cursor_x, r3]

theorem raw_rendered_texts_getD (e : Editor) (i : Nat) (t : List Nat × List Nat)
    (h : (raw_rendered_texts e)[i]? = some t) : (e.row.getD i default).data = t.1 := by
  unfold raw_rendered_texts at h
  rw [List.getElem?_map, List.getElem?_take] at h
  split at h
  · cases hr : e.row[i]? with
    | none => rw [hr] at h; cases h
    | some row =>
      rw [hr] at h
      simp only [Option.map_some', Option.some.injEq] at h
      rw [List.getD_eq_getElem?_getD, hr, ← h]
      rfl
  · cases h

/-- C11. Pressing Backspace with the cursor at column 0 of row `y`, a row of
the document other than the first, does not leave the program; the document
loses one row; row `y - 1` holds the old raw text of row `y - 1` followed by
the old raw text of row `y`, and its rendered text is computed from that raw
text; the other rows keep their raw text (and rendered text) and their order;
the cursor is on row `y - 1` at the column equal to the raw size of the old
row `y - 1`. -/
theorem backspace_merges_rows (find_editor save_editor : Editor → Editor) (e : Editor)
    (y : Nat) (previous row : Row)
    (hcap : e.row_count ≤ e.row.length) (hy0 : 0 < y) (hy : y < e.row_count)
    (hprev : e.row[y - 1]? = some previous) (hrow : e.row[y]? = some row)
    (hcx : e.cursor_x = 0) (hcy : e.cursor_y = y) :
    ∃ e', handle_key find_editor save_editor e BACKSPACE = some e'
      ∧ e'.row_count = e.row_count - 1
      ∧ raw_texts e'
          = (raw_texts e).take (y - 1) ++ (previous.data ++ row.data)
            :: (raw_texts e).drop (y + 1)
      ∧ raw_rendered_texts e'
          = (raw_rendered_texts e).take (y - 1)
            ++ (previous.data ++ row.data, tab_expand (previous.data ++ row.data))
            :: (raw_rendered_texts e).drop (y + 1)
      ∧ e'.cursor_y = y - 1 ∧ e'.cursor_x = previous.size := by
  have key : ∀ e0 : Editor, e0.row = e.row → e0.row_count = e.row_count →
      e0.cursor_x = 0 → e0.cursor_y = y → ∀ recurse : Editor → Editor,
      (clamp_cursor_x (handle_backspace recurse e0 BACKSPACE)).row_count = e.row_count - 1
      ∧ raw_rendered_texts (clamp_cursor_x (handle_backspace recurse e0 BACKSPACE))
        = (raw_rendered_texts e).take (y - 1)
          ++ (previous.data ++ row.data, render_text (previous.data ++ row.data))
          :: (raw_rendered_texts e).drop (y + 1)
      ∧ (clamp_cursor_x (handle_backspace recurse e0 BACKSPACE)).cursor_y = y - 1
      ∧ (clamp_cursor_x (handle_backspace recurse e0 BACKSPACE)).cursor_x = previous.size := by
    intro e0 hr0 hc0 hx0 hy0' recurse
    have hrr0 : raw_rendered_texts e0 = raw_rendered_texts e := by
      unfold raw_rendered_texts; rw [hr0, hc0]
    obtain ⟨h1, h2, h3, h4, _⟩ :=
      handle_backspace_merge recurse e0 y previous row (by rw [hr0, hc0]; exact hcap) hy0
        (by rw [hc0]; exact hy) (by rw [hr0]; exact hprev) (by rw [hr0]; exact hrow) hx0 hy0'
    rw [hrr0] at h2
    rw [hc0] at h1
    have hlt : (List.take (y - 1) (raw_rendered_texts e)).length = y - 1 := by
      unfold raw_rendered_texts
      simp only [List.length_take, List.length_map]
      omega
    have hget : (raw_rendered_texts (handle_backspace recurse e0 BACKSPACE))[y - 1]?
        = some (previous.data ++ row.data, render_text (previous.data ++ row.data)) := by
      rw [h2, List.getElem?_append_right (by omega), hlt, Nat.sub_self]
      simp
    have hsize := raw_rendered_texts_getD _ _ _ hget
    have hclamp : clamp_cursor_x (handle_backspace recurse e0 BACKSPACE)
        = handle_backspace recurse e0 BACKSPACE := by
      unfold clamp_cursor_x
      rw [if_neg]
      unfold cursor_row_size
      have hy1 : ((y : Int) - 1).toNat = y - 1 := by omega
      rw [h4, h1, if_pos (by omega), h3, hy1]
      unfold Row.size
      rw [hsize]
      simp only [List.length_append, Nat.cast_add]
      omega
    rw [hclamp]
    exact ⟨h1, h2, h4, h3⟩
  obtain ⟨h1, hrr, h4, h5⟩ := key { e with quit_times := 0 } rfl rfl hcx hcy
    (fun e' => handle_key_body id find_editor save_editor e' ARROW_RIGHT)
  refine ⟨_, handle_key_backspace find_editor save_editor e, h1, ?_, ?_, h4, h5⟩
  · rw [raw_texts_eq_map_fst, hrr, raw_texts_eq_map_fst]
    simp only [List.map_append, List.map_cons, List.map_take, List.map_drop]
  · rw [hrr, render_text_eq]

/-- C11 at `merge_editor`: Backspace joins `// c` to `int x;`. -/
theorem backspace_merges_rows_witness :
    (merge_editor.row_count ≤ merge_editor.row.length ∧ 0 < 1 ∧ 1 < merge_editor.row_count
      ∧ merge_editor.row[1 - 1]? = some sample_row
      ∧ merge_editor.row[1]? = some (merge_editor.row.getD 1 default)
      ∧ merge_editor.cursor_x = 0 ∧ merge_editor.cursor_y = (1 : Nat))
    ∧ ∃ e', handle_key id id merge_editor BACKSPACE = some e'
      ∧ e'.row_count = merge_editor.row_count - 1
      ∧ raw_texts e'
          = (raw_texts merge_editor).take (1 - 1)
            ++ (sample_row.data ++ (merge_editor.row.getD 1 default).data)
            :: (raw_texts merge_editor).drop (1 + 1)
      ∧ raw_rendered_texts e'
          = (raw_rendered_texts merge_editor).take (1 - 1)
            ++ (sample_row.data ++ (merge_editor.row.getD 1 default).data,
                tab_expand (sample_row.data ++ (merge_editor.row.getD 1 default).data))
            :: (raw_rendered_texts merge_editor).drop (1 + 1)
      ∧ e'.cursor_y = (1 : Nat) - 1 ∧ e'.cursor_x = sample_row.size :=
  ⟨by decide,
    backspace_merges_rows id id merge_editor 1 sample_row (merge_editor.row.getD 1 default)
      (by decide) (by decide) (by decide) (by decide) (by decide) (by decide) (by decide)⟩

/-! ## `insert_char` -/

theorem insert_char_row (e : Editor) (at_row : Nat) (row : Row) (at_ : Int) (c : Nat)
    (h : e.row[at_row]? = some row) :
    (insert_char e at_row at_ c).row.map Row.raw_rendered
      = (e.row.map Row.raw_rendered).set at_row
          (row.data.take (if at_ < 0 ∨ at_ > row.size then row.size else at_.toNat)
              ++ c :: row.data.drop (if at_ < 0 ∨ at_ > row.size then row.size else at_.toNat),
            render_text
              (row.data.take (if at_ < 0 ∨ at_ > row.size then row.size else at_.toNat)
                ++ c :: row.data.drop (if at_ < 0 ∨ at_ > row.size then row.size else at_.toNat))) := by
  unfold insert_char
  rw [h]
  simp only
  rw [render_row_raw_rendered _ _ _ (List.getElem?_set_self (getElem?_lt_length h))]
  simp only [List.map_set, List.set_set]

/-- C12 (as stated, refuted). `insert_char` at column `-1` of the row `int x;`
puts the byte at the end of the row, not at position 0. -/
theorem insert_char_negative_column_appends :
    (insert_char sample_editor 0 (-1) 97).row.map Row.data = [cstr "int x;a", cstr "// c"]
    ∧ (insert_char sample_editor 0 (-1) 97).row.map Row.data
        ≠ [(cstr "int x;").take 0 ++ 97 :: (cstr "int x;").drop 0, cstr "// c"] := by
  decide

/-- C12 (amended). `insert_char` with byte offset `column` on a row of raw
size `n`: the raw text becomes the old one with the byte inserted at position
`column` when `0 <= column <= n`, and at position `n`, the end of the row,
when `column < 0` as well as when `column > n`; the raw size becomes `n + 1`
and the rendered text is the tab expansion of the new raw text. -/
theorem insert_char_spec (e : Editor) (at_row : Nat) (row : Row) (column : Int) (b : Nat)
    (h : e.row[at_row]? = some row) :
    ∃ row', (insert_char e at_row column b).row[at_row]? = some row'
      ∧ ((0 ≤ column ∧ column ≤ row.size) →
          row'.data = row.data.take column.toNat ++ b :: row.data.drop column.toNat)
      ∧ ((column < 0 ∨ column > row.size) → row'.data = row.data ++ [b])
      ∧ row'.size = row.size + 1
      ∧ row'.rendered = tab_expand row'.data
      ∧ row'.rendered_size = (tab_expand row'.data).length := by
  have hm := insert_char_row e at_row row column b h
  have hlt := getElem?_lt_length h
  have hg := congrArg (fun l => l[at_row]?) hm
  simp only [List.getElem?_map] at hg
  rw [List.getElem?_set_self (by simpa using hlt)] at hg
  cases hr : (insert_char e at_row column b).row[at_row]? with
  | none => rw [hr] at hg; cases hg
  | some row' =>
    rw [hr] at hg
    simp only [Option.map_some', Option.some.injEq, Row.raw_rendered, Prod.mk.injEq] at hg
    obtain ⟨hd, hrd⟩ := hg
    refine ⟨row', rfl, ?_, ?_, ?_, ?_, ?_⟩
    · intro hin
      rw [hd, if_neg (by omega)]
    · intro hout
      rw [hd, if_pos hout]
      unfold Row.size
      rw [List.take_length, List.drop_length]
    · unfold Row.size
      rw [hd]
      simp only [List.length_append, List.length_take, List.length_cons, List.length_drop]
      unfold Row.size
      split <;> omega
    · rw [hrd, ← hd, render_text_eq]
    · unfold Row.rendered_size
      rw [hrd, ← hd, render_text_eq]

/-- C12 (amended) at row 0 of `sample_editor`, column `-1`. -/
theorem insert_char_spec_witness :
    sample_editor.row[0]? = some sample_row
    ∧ ∃ row', (insert_char sample_editor 0 (-1) 97).row[0]? = some row'
      ∧ ((0 ≤ (-1 : Int) ∧ (-1 : Int) ≤ sample_row.size) →
          row'.data = sample_row.data.take (-1 : Int).toNat
            ++ 97 :: sample_row.data.drop (-1 : Int).toNat)
      ∧ (((-1 : Int) < 0 ∨ (-1 : Int) > sample_row.size) → row'.data = sample_row.data ++ [97])
      ∧ row'.size = sample_row.size + 1
      ∧ row'.rendered = tab_expand row'.data
      ∧ row'.rendered_size = (tab_expand row'.data).length :=
  ⟨by decide, insert_char_spec sample_editor 0 sample_row (-1) 97 (by decide)⟩

/-! ## `rows_to_string` -/

theorem rows_to_string_size_eq (e : Editor) (n : Nat) :
    (List.range n).foldl (fun size i => size + ((e.row.getD i default).size + 1)) 0
      = (((List.range n).map fun i => (e.row.getD i default).data ++ [10]).flatten).length := by
  induction n with
  | zero => rfl
  | succ n ih =>
    rw [List.range_succ, List.foldl_append, List.map_append, List.flatten_append,
      List.length_append, ← ih]
    simp [Row.size]

theorem write_line (P d : List Nat) (total : Nat) (h : P.length + (d.length + 1) ≤ total) :
    (write_at (P ++ List.replicate (total - P.length) 0) P.length d).set (P.length + d.length) 10
      = P ++ (d ++ [10]) ++ List.replicate (total - (P.length + (d.length + 1))) 0 := by
  have hk : total - P.length = d.length + (1 + (total - (P.length + (d.length + 1)))) := by omega
  rw [write_at_eq _ _ _ (by simp; omega), List.take_left, hk, ← List.append_replicate_replicate,
    ← List.append_replicate_replicate, ← List.append_assoc, ← List.append_assoc,
    List.drop_append_of_le_length (by simp), List.drop_append_of_le_length (by simp)]
  have hd0 : List.drop (P.length + d.length) (P ++ List.replicate d.length 0) = [] := by
    apply List.drop_of_length_le; simp
  rw [hd0, List.nil_append, List.set_append, if_neg (by simp)]
  simp

theorem rows_to_string_loop (e : Editor) (total : Nat) (n : Nat) :
    (((List.range n).map fun i => (e.row.getD i default).data ++ [10]).flatten).length ≤ total →
    (List.range n).foldl (rows_to_string_step e) (List.replicate total 0, 0)
      = (((List.range n).map fun i => (e.row.getD i default).data ++ [10]).flatten
          ++ List.replicate
              (total - (((List.range n).map fun i => (e.row.getD i default).data ++ [10]).flatten).length)
              0,
         (((List.range n).map fun i => (e.row.getD i default).data ++ [10]).flatten).length) := by
  induction n with
  | zero => intro _; simp
  | succ n ih =>
    intro hle
    rw [List.range_succ, List.map_append, List.flatten_append, List.length_append] at hle
    rw [List.range_succ, List.foldl_append, ih (by omega), List.map_append, List.flatten_append]
    generalize ((List.range n).map fun i => (e.row.getD i default).data ++ [10]).flatten = P
      at hle ⊢
    simp only [List.map_cons, List.map_nil, List.flatten_cons, List.flatten_nil,
      List.append_nil, List.length_append, List.length_singleton, List.foldl_cons,
      List.foldl_nil] at hle ⊢
    unfold rows_to_string_step
    simp only [Row.size]
    rw [write_line P _ total hle]
    simp [Nat.add_assoc]

theorem range_getD_eq_take {α : Type} [Inhabited α] (l : List α) (n : Nat) (h : n ≤ l.length) :
    (List.range n).map (fun i => l.getD i default) = l.take n := by
  apply List.ext_getElem?
  intro i
  rw [List.getElem?_map, List.getElem?_take]
  by_cases hi : i < n
  · rw [if_pos hi, List.getElem?_range hi]
    simp only [Option.map_some', List.getD_eq_getElem?_getD]
    rw [List.getElem?_eq_getElem (by omega)]
    rfl
  · rw [if_neg hi, List.getElem?_eq_none (by simpa using hi)]
    rfl

theorem rows_to_string_result (e : Editor) (hcap : e.row_count ≤ e.row.length) :
    (rows_to_string e).1 = ((raw_texts e).map fun text => text ++ [10]).flatten
    ∧ (rows_to_string e).2 = (rows_to_string e).1.length := by
  have hmap : ((List.range e.row_count).map fun i => (e.row.getD i default).data ++ [10])
      = (raw_texts e).map fun text => text ++ [10] := by
    unfold raw_texts
    rw [← range_getD_eq_take e.row e.row_count hcap]
    simp only [List.map_map]
    rfl
  have hsize : rows_to_string_size e
      = (((raw_texts e).map fun text => text ++ [10]).flatten).length := by
    unfold rows_to_string_size
    rw [rows_to_string_size_eq, hmap]
  have h1 : (rows_to_string e).1 = ((raw_texts e).map fun text => text ++ [10]).flatten := by
    unfold rows_to_string
    simp only
    rw [rows_to_string_loop e _ _ (by rw [hmap, hsize]), hmap, hsize]
    simp
  refine ⟨h1, ?_⟩
  rw [h1]
  exact hsize

/-- C13. For every document held in the row array, `rows_to_string` returns
the concatenation, in row order, of each row's raw bytes followed by one
newline byte (byte 10), and the size it reports is the sum over the rows of
the raw size plus one, which is the length of the result; the empty document
gives the empty byte string and size 0. -/
theorem rows_to_string_spec (e : Editor) (hcap : e.row_count ≤ e.row.length) :
    (rows_to_string e).1 = ((raw_texts e).map fun text => text ++ [10]).flatten
    ∧ (rows_to_string e).2 = ((raw_texts e).map fun text => text.length + 1).sum
    ∧ (rows_to_string e).2 = (rows_to_string e).1.length
    ∧ (e.row_count = 0 → rows_to_string e = ([], 0)) := by
  obtain ⟨h1, h2⟩ := rows_to_string_result e hcap
  refine ⟨h1, ?_, h2, ?_⟩
  · rw [h2, h1, List.length_flatten, List.map_map]
    congr 1
    apply List.map_congr_left
    intro text _
    simp
  · intro h0
    have hr : raw_texts e = [] := by
      unfold raw_texts; rw [h0]; rfl
    apply Prod.ext
    · rw [h1, hr]; rfl
    · rw [h2, h1, hr]; rfl

/-- C13 at `sample_editor`. -/
theorem rows_to_string_spec_witness :
    sample_editor.row_count ≤ sample_editor.row.length
    ∧ ((rows_to_string sample_editor).1
          = ((raw_texts sample_editor).map fun text => text ++ [10]).flatten
      ∧ (rows_to_string sample_editor).2
          = ((raw_texts sample_editor).map fun text => text.length + 1).sum
      ∧ (rows_to_string sample_editor).2 = (rows_to_string sample_editor).1.length
      ∧ (sample_editor.row_count = 0 → rows_to_string sample_editor = ([], 0))) :=
  ⟨by decide, rows_to_string_spec sample_editor (by decide)⟩

/-! ## Loading a file and writing it back -/

theorem highlight_row_data (e : Editor) (at_row : Nat) :
    (highlight_row e at_row).row_count = e.row_count
    ∧ (highlight_row e at_row).row.map Row.data = e.row.map Row.data := by
  refine ⟨rfl, ?_⟩
  have h := congrArg (List.map fun t : Int × List Nat × List Nat => t.2.1)
    (highlight_cells_text e.syntax_ e.row_count (e.row_count + 1) e.row at_row)
  simp only [List.map_map] at h
  exact h

theorem foldl_highlight_row_data (l : List Nat) : ∀ e : Editor,
    (l.foldl highlight_row e).row_count = e.row_count
    ∧ (l.foldl highlight_row e).row.map Row.data = e.row.map Row.data := by
  induction l with
  | nil => intro e; exact ⟨rfl, rfl⟩
  | cons i l ih =>
    intro e
    obtain ⟨h1, h2⟩ := ih (highlight_row e i)
    obtain ⟨h3, h4⟩ := highlight_row_data e i
    rw [List.foldl_cons]
    exact ⟨h1.trans h3, h2.trans h4⟩

theorem select_syntax_entries_data (file_name : List Nat) (extension : Option (List Nat))
    (syn : Syntax) (patterns : List (List Nat)) (e : Editor) :
    (select_syntax_entries file_name extension syn e patterns).row_count = e.row_count
    ∧ (select_syntax_entries file_name extension syn e patterns).row.map Row.data
        = e.row.map Row.data := by
  induction patterns with
  | nil => exact ⟨rfl, rfl⟩
  | cons pattern patterns ih =>
    unfold select_syntax_entries
    split
    · exact foldl_highlight_row_data _ _
    · exact ih

theorem select_syntax_data (e : Editor) :
    ( select_syntax e).row_count = e.row_count
    ∧ ( select_syntax e).row.map Row.data = e.row.map Row.data := by
  unfold select_syntax
  cases e.file_name with
  | none => exact ⟨rfl, rfl⟩
  | some file_name =>
    simp only
    have key : ∀ (l : List Syntax) (e0 : Editor),
        (l.foldl (fun e' syn => select_syntax_entries file_name (strchr file_name 46) syn e'
            syn.file_match) e0).row_count = e0.row_count
        ∧ (l.foldl (fun e' syn => select_syntax_entries file_name (strchr file_name 46) syn e'
            syn.file_match) e0).row.map Row.data = e0.row.map Row.data := by
      intro l
      induction l with
      | nil => intro e0; exact ⟨rfl, rfl⟩
      | cons syn l ih =>
        intro e0
        rw [List.foldl_cons]
        obtain ⟨h1, h2⟩ := ih (select_syntax_entries file_name (strchr file_name 46) syn e0
          syn.file_match)
        obtain ⟨h3, h4⟩ := select_syntax_entries_data file_name (strchr file_name 46) syn
          syn.file_match e0
        exact ⟨h1.trans h3, h2.trans h4⟩
    exact key syntaxes _

theorem append_row_raw_texts (e : Editor) (text : List Nat)
    (hcap : e.row_count ≤ e.row.length) :
    (append_row e text).row_count ≤ (append_row e text).row.length
    ∧ raw_texts (append_row e text) = raw_texts e ++ [text] := by
  obtain ⟨h1, h2, h3⟩ := insert_row_raw_rendered e text e.row_count hcap (by omega) (by omega)
  have hl : (raw_rendered_texts e).length = e.row_count := by
    unfold raw_rendered_texts; simp [hcap]
  rw [Int.toNat_ofNat, List.take_of_length_le (by omega), List.drop_of_length_le (by omega)] at h3
  unfold append_row
  refine ⟨by omega, ?_⟩
  rw [raw_texts_eq_map_fst e]
  generalize raw_rendered_texts e = L at h3
  rw [raw_texts_eq_map_fst]
  unfold raw_rendered_texts
  rw [h1, List.take_of_length_le (by omega), h3]
  simp

theorem foldl_append_row_raw_texts (f : List Nat → List Nat) (lines : List (List Nat)) :
    ∀ e : Editor, e.row_count ≤ e.row.length →
    raw_texts (lines.foldl (fun e' line => append_row e' (f line)) e)
      = raw_texts e ++ lines.map f
    ∧ (lines.foldl (fun e' line => append_row e' (f line)) e).row_count
      ≤ (lines.foldl (fun e' line => append_row e' (f line)) e).row.length := by
  induction lines with
  | nil => intro e hcap; exact ⟨by simp, hcap⟩
  | cons line lines ih =>
    intro e hcap
    obtain ⟨h1, h2⟩ := append_row_raw_texts e (f line) hcap
    obtain ⟨h3, h4⟩ := ih (append_row e (f line)) h1
    rw [List.foldl_cons]
    refine ⟨?_, h4⟩
    rw [h3, h2]
    simp

theorem getlines_from_line (text : List Nat) (h : 10 ∉ text) : ∀ (line stream : List Nat),
    getlines_from line (text ++ 10 :: stream)
      = (line ++ text ++ [10]) :: getlines_from [] stream := by
  induction text with
  | nil => intro line stream; simp [getlines_from]
  | cons c text ih =>
    intro line stream
    have hc : c ≠ 10 := fun hc => h (by simp [hc])
    have ht : 10 ∉ text := fun ht => h (by simp [ht])
    rw [List.cons_append, getlines_from, if_neg hc, ih ht]
    simp

theorem getlines_lines (lines : List (List Nat)) (h : ∀ text ∈ lines, 10 ∉ text) :
    getlines ((lines.map fun text => text ++ [10]).flatten) = lines.map fun text => text ++ [10] := by
  unfold getlines
  induction lines with
  | nil => rfl
  | cons text lines ih =>
    simp only [List.map_cons, List.flatten_cons, List.append_assoc, List.singleton_append]
    rw [getlines_from_line text (h text (by simp)), ih (fun t ht => h t (by simp [ht]))]
    simp

theorem strip_line_end_line (text : List Nat) (h10 : 10 ∉ text)
    (h13 : text.getLast? ≠ some 13) : strip_line_end (text ++ [10]) = text := by
  unfold strip_line_end
  rw [List.reverse_append]
  simp only [List.reverse_cons, List.reverse_nil, List.nil_append, List.singleton_append]
  rw [List.dropWhile_cons_of_pos (by decide)]
  cases hr : text.reverse with
  | nil =>
    have : text = [] := by simpa using hr
    rw [this]; rfl
  | cons c rest =>
    have hlast : text.getLast? = some c := by
      rw [List.getLast?_eq_head?_reverse, hr]; rfl
    have hmem : c ∈ text := by
      rw [← List.mem_reverse, hr]; simp
    have hc10 : c ≠ 10 := fun hc => h10 (hc ▸ hmem)
    have hc13 : c ≠ 13 := fun hc => h13 (by rw [hlast, hc])
    rw [List.dropWhile_cons_of_neg (by simp [hc10, hc13]), ← hr, List.reverse_reverse]

theorem open_editor_raw_texts (e : Editor) (content : List Nat) (h : e.row_count = 0) :
    raw_texts (open_editor e content) = (getlines content).map strip_line_end
    ∧ (open_editor e content).row_count ≤ (open_editor e content).row.length := by
  obtain ⟨h1, h2⟩ := select_syntax_data e
  have hcap : ( select_syntax e).row_count ≤ ( select_syntax e).row.length := by omega
  have hraw : raw_texts ( select_syntax e) = [] := by
    unfold raw_texts; rw [h1, h]; rfl
  obtain ⟨h3, h4⟩ := foldl_append_row_raw_texts strip_line_end (getlines content)
    ( select_syntax e) hcap
  unfold open_editor
  refine ⟨?_, h4⟩
  rw [h3, hraw, List.nil_append]

/-- C14 (as stated, refuted). The file content `a\r\n` is one line that
ends with a single newline byte, yet loading it and serialising the document
gives `a\n`: `open_editor` strips the carriage return with the newline. -/
theorem carriage_return_lost_on_round_trip :
    cstr "a\r\n" = ([cstr "a\r"].map fun text => text ++ [10]).flatten
    ∧ (∀ text ∈ [cstr "a\r"], 10 ∉ text)
    ∧ (rows_to_string (open_editor (named_editor "a.txt") (cstr "a\r\n"))).1 = cstr "a\n"
    ∧ (rows_to_string (open_editor (named_editor "a.txt") (cstr "a\r\n"))).1 ≠ cstr "a\r\n" := by
  decide

/-- C14 (amended). For a file content made of lines that each end with a
single newline byte (the lines are `lines`, none of which holds a newline
byte) and none of which has a carriage return as the last byte before its
newline, `open_editor` on an editor without rows builds one row per line,
holding the line without its newline, and `rows_to_string` on that document
returns the file content, with its length as size. -/
theorem open_editor_round_trip (e : Editor) (lines : List (List Nat))
    (hempty : e.row_count = 0)
    (hlines : ∀ text ∈ lines, 10 ∉ text ∧ text.getLast? ≠ some 13) :
    raw_texts (open_editor e ((lines.map fun text => text ++ [10]).flatten)) = lines
    ∧ (rows_to_string (open_editor e ((lines.map fun text => text ++ [10]).flatten))).1
        = (lines.map fun text => text ++ [10]).flatten
    ∧ (rows_to_string (open_editor e ((lines.map fun text => text ++ [10]).flatten))).2
        = ((lines.map fun text => text ++ [10]).flatten).length := by
  obtain ⟨h1, h2⟩ := open_editor_raw_texts e ((lines.map fun text => text ++ [10]).flatten) hempty
  obtain ⟨h3, h4⟩ := rows_to_string_result _ h2
  have hraw : raw_texts (open_editor e ((lines.map fun text => text ++ [10]).flatten)) = lines := by
    rw [h1, getlines_lines lines (fun text ht => (hlines text ht).1), List.map_map]
    conv => rhs; rw [← List.map_id lines]
    apply List.map_congr_left
    intro text ht
    exact strip_line_end_line text (hlines text ht).1 (hlines text ht).2
  refine ⟨hraw, ?_, ?_⟩
  · rw [h3, hraw]
  · rw [h4, h3, hraw]

/-- C14 (amended) at the file `int x;\n// c\n`. -/
theorem open_editor_round_trip_witness :
    ((named_editor "a.c").row_count = 0
      ∧ ∀ text ∈ [cstr "int x;", cstr "// c"], 10 ∉ text ∧ text.getLast? ≠ some 13)
    ∧ raw_texts (open_editor (named_editor "a.c")
          (([cstr "int x;", cstr "// c"].map fun text => text ++ [10]).flatten))
        = [cstr "int x;", cstr "// c"]
    ∧ (rows_to_string (open_editor (named_editor "a.c")
          (([cstr "int x;", cstr "// c"].map fun text => text ++ [10]).flatten))).1
        = ([cstr "int x;", cstr "// c"].map fun text => text ++ [10]).flatten
    ∧ (rows_to_string (open_editor (named_editor "a.c")
          (([cstr "int x;", cstr "// c"].map fun text => text ++ [10]).flatten))).2
        = (([cstr "int x;", cstr "// c"].map fun text => text ++ [10]).flatten).length :=
  ⟨by decide, open_editor_round_trip (named_editor "a.c") [cstr "int x;", cstr "// c"]
    (by decide) (by decide)⟩

theorem open_editor_c_file :
    open_editor (named_editor "a.c") (cstr "int x;\n// c\n")
      = { load_lines (some c_profile) [cstr "int x;", cstr "// c"] with
          file_name := some (cstr "a.c") } := by
  decide

/-! ## Typing a printable key -/

theorem handle_key_printable (find_editor save_editor : Editor → Editor) (e : Editor) (c : Int)
    (h0 : 32 ≤ c) (h1 : c ≤ 126) :
    handle_key find_editor save_editor e c
      = some (clamp_cursor_x (handle_printable { e with quit_times := 0 } c)) := by
  have ne_of : ∀ k : Int, (k < 32 ∨ 126 < k) → (c == k) = false := by
    intro k hk
    simp only [beq_eq_false_iff_ne, ne_eq]
    omega
  have hq := ne_of (CTRL_KEY 113) (by decide)
  have hf := ne_of (CTRL_KEY 102) (by decide)
  have hs := ne_of (CTRL_KEY 115) (by decide)
  have hh := ne_of (CTRL_KEY 104) (by decide)
  have hu := ne_of ARROW_UP (by decide)
  have hd := ne_of ARROW_DOWN (by decide)
  have hr := ne_of ARROW_RIGHT (by decide)
  have hl := ne_of ARROW_LEFT (by decide)
  have hpu := ne_of PAGE_UP (by decide)
  have hpd := ne_of PAGE_DOWN (by decide)
  have hho := ne_of HOME_KEY (by decide)
  have hen := ne_of END_KEY (by decide)
  have hb := ne_of BACKSPACE (by decide)
  have hde := ne_of DELETE_KEY (by decide)
  have hcr := ne_of 13 (by decide)
  have hp : isprint c = true := by
    unfold isprint
    simp only [Bool.and_eq_true, decide_eq_true_eq]
    exact ⟨h0, h1⟩
  unfold handle_key handle_key_body handle_quit_times handle_arrow_up_down
    handle_arrow_right_left handle_page handle_home_end
  simp only [hq, hf, hs, hh, hu, hd, hr, hl, hpu, hpd, hho, hen, hb, hde, hcr, hp,
    Bool.false_and, Bool.false_eq_true, if_false, Bool.or_self, if_true]

theorem insert_char_fields (e : Editor) (at_row : Nat) (at_ : Int) (c : Nat) :
    insert_char e at_row at_ c = { e with row := (insert_char e at_row at_ c).row } := by
  unfold insert_char
  cases e.row[at_row]? with
  | none => rfl
  | some row => simp only; rw [render_row_fields]

theorem handle_printable_empty (e : Editor) (c : Int)
    (hrows : e.row_count = 0) (hx : e.cursor_x = 0) (hy : e.cursor_y = 0) :
    (handle_printable e c).row_count = 1
    ∧ (handle_printable e c).row.map Row.raw_rendered = [([c.toNat], render_text [c.toNat])]
    ∧ (handle_printable e c).cursor_x = 1
    ∧ (handle_printable e c).cursor_y = 0
    ∧ (handle_printable e c).dirty = 1 := by
  obtain ⟨a1, a2, a3⟩ := insert_row_raw_rendered e [] e.row_count (by omega) (by omega) (by omega)
  have hrr : raw_rendered_texts e = [] := by
    unfold raw_rendered_texts; rw [hrows]; rfl
  rw [hrr, hrows] at a3
  rw [hrows] at a1 a2
  have hE : handle_printable e c
      = { append_row e [] with
          row := (insert_char (append_row e []) 0 0 c.toNat).row,
          dirty := 1, cursor_x := 1, cursor_y := 0 } := by
    unfold handle_printable
    have hc : (e.cursor_y == (e.row_count : Int)) = true := by
      rw [hy, hrows]; rfl
    simp only [hc, if_true]
    rw [insert_char_fields]
    unfold append_row
    simp only [insert_row_cursor_x, insert_row_cursor_y, hx, hy]
    rfl
  unfold append_row at hE
  rw [hrows] at hE
  generalize insert_row e [] ((0 : Nat) : Int) = e1 at a1 a2 a3 hE
  cases hr : e1.row[0]? with
  | none =>
    have := List.getElem?_eq_none_iff.mp hr
    omega
  | some row0 =>
    have hd : row0.data = [] := by
      have hg := congrArg (fun l => l[0]?) a3
      simp only [List.getElem?_map, hr, Option.map_some'] at hg
      simp only [Int.toNat_ofNat, List.take_zero, List.drop_zero, List.nil_append,
        List.getElem?_cons_zero, Option.some.injEq, Row.raw_rendered, Prod.mk.injEq] at hg
      exact hg.1
    have hi := insert_char_row e1 0 row0 0 c.toNat hr
    rw [hd] at hi
    simp only [Row.size, hd, List.length_nil, Int.toNat_zero, List.take_nil, List.drop_nil,
      List.nil_append, ite_self] at hi
    rw [a3] at hi
    rw [hE]
    refine ⟨a1, ?_, rfl, rfl, rfl⟩
    simp only
    rw [hi]
    rfl

/-- C15. For every printable key `c`, `handle_key` on an editor with zero
rows and the cursor at (0, 0) does not leave the program and yields a
document of one row whose raw text is the single byte `c` (rendered from
it), with the cursor at column 1 of row 0 and the dirty flag set. -/
theorem typing_into_empty_document (find_editor save_editor : Editor → Editor) (e : Editor)
    (c : Int) (hc : isprint c = true)
    (hrows : e.row_count = 0) (hx : e.cursor_x = 0) (hy : e.cursor_y = 0) :
    ∃ e', handle_key find_editor save_editor e c = some e'
      ∧ e'.row_count = 1
      ∧ raw_texts e' = [[c.toNat]]
      ∧ raw_rendered_texts e' = [([c.toNat], tab_expand [c.toNat])]
      ∧ e'.cursor_x = 1 ∧ e'.cursor_y = 0
      ∧ e'.dirty = 1 := by
  have hr : 32 ≤ c ∧ c ≤ 126 := by
    unfold isprint at hc
    simpa using hc
  have key : ∀ e0 : Editor, e0.row_count = 0 → e0.cursor_x = 0 → e0.cursor_y = 0 →
      (clamp_cursor_x (handle_printable e0 c)).row_count = 1
      ∧ (clamp_cursor_x (handle_printable e0 c)).row.map Row.raw_rendered
          = [([c.toNat], render_text [c.toNat])]
      ∧ (clamp_cursor_x (handle_printable e0 c)).cursor_x = 1
      ∧ (clamp_cursor_x (handle_printable e0 c)).cursor_y = 0
      ∧ (clamp_cursor_x (handle_printable e0 c)).dirty = 1 := by
    intro e0 h0 hx0 hy0
    obtain ⟨p1, p2, p3, p4, p5⟩ := handle_printable_empty e0 c h0 hx0 hy0
    have hclamp : clamp_cursor_x (handle_printable e0 c) = handle_printable e0 c := by
      unfold clamp_cursor_x
      rw [if_neg]
      unfold cursor_row_size
      rw [p4, p1, p3, if_pos (by decide)]
      cases hrow : (handle_printable e0 c).row with
      | nil => rw [hrow] at p2; cases p2
      | cons row rows =>
        rw [hrow] at p2
        simp only [List.map_cons, List.cons.injEq, Row.raw_rendered, Prod.mk.injEq] at p2
        simp only [Int.toNat_zero, List.getD_cons_zero, Row.size, p2.1.1, List.length_singleton]
        decide
    rw [hclamp]
    exact ⟨p1, p2, p3, p4, p5⟩
  obtain ⟨k1, k2, k3, k4, k5⟩ := key { e with quit_times := 0 } hrows hx hy
  refine ⟨_, handle_key_printable find_editor save_editor e c hr.1 hr.2, k1, ?_, ?_, k3, k4, k5⟩
  · rw [raw_texts_eq_map_fst]
    unfold raw_rendered_texts
    rw [k1, List.map_take, k2]
    rfl
  · unfold raw_rendered_texts
    rw [k1, List.map_take, k2, render_text_eq]
    rfl

/-- C15 at the empty editor and the key `a`. -/
theorem typing_into_empty_document_witness :
    (isprint 97 = true ∧ empty_editor.row_count = 0 ∧ empty_editor.cursor_x = 0
      ∧ empty_editor.cursor_y = 0)
    ∧ ∃ e', handle_key id id empty_editor 97 = some e'
      ∧ e'.row_count = 1
      ∧ raw_texts e' = [[(97 : Int).toNat]]
      ∧ raw_rendered_texts e' = [([(97 : Int).toNat], tab_expand [(97 : Int).toNat])]
      ∧ e'.cursor_x = 1 ∧ e'.cursor_y = 0
      ∧ e'.dirty = 1 :=
  ⟨by decide, typing_into_empty_document id id empty_editor 97 (by decide) (by decide)
    (by decide) (by decide)⟩

/-! ## Scrolling and drawing -/

theorem refresh_screen_scroll_bounds (e : Editor) (hrows : 0 < e.rows) (hcolumns : 0 < e.columns) :
    (refresh_screen_scroll e).row_offset ≤ e.cursor_y
    ∧ e.cursor_y ≤ (refresh_screen_scroll e).row_offset + e.rows
    ∧ (refresh_screen_scroll e).column_offset ≤ (refresh_screen_scroll e).rendered_x
    ∧ (refresh_screen_scroll e).rendered_x ≤ (refresh_screen_scroll e).column_offset + e.columns := by
  unfold refresh_screen_scroll
  simp only
  generalize (if e.cursor_y < (e.row_count : Int) then
      ((rendered_column (e.row.getD e.cursor_y.toNat default).data e.cursor_x.toNat : Nat) : Int)
    else 0) = rendered_x
  refine ⟨?_, ?_, ?_, ?_⟩
  · split <;> split <;> omega
  · split <;> split <;> omega
  · split <;> split <;> omega
  · split <;> split <;> omega

/-- C18 (code defect). On a screen of three text rows, three presses of the
down arrow from the top of a six-row document leave the cursor on row 3 while
`refresh_screen` keeps `row_offset` at 0: the rows shown are 0 to 2 and the
cursor is not among them.  On a screen four columns wide, four presses of the
right arrow leave `rendered_x` at 4 with `column_offset` 0.  The tests at lines
960 and 966 use `>` where the offsets they assign call for `>=`. -/
theorem scroll_leaves_cursor_outside_window :
    (refresh_screen_scroll ((List.replicate 3 ARROW_DOWN).foldl press tall_editor)).rows = 3
    ∧ (refresh_screen_scroll ((List.replicate 3 ARROW_DOWN).foldl press tall_editor)).cursor_y = 3
    ∧ (refresh_screen_scroll ((List.replicate 3 ARROW_DOWN).foldl press tall_editor)).row_offset = 0
    ∧ ¬ ((refresh_screen_scroll ((List.replicate 3 ARROW_DOWN).foldl press tall_editor)).cursor_y
          < (refresh_screen_scroll ((List.replicate 3 ARROW_DOWN).foldl press tall_editor)).row_offset
            + (refresh_screen_scroll ((List.replicate 3 ARROW_DOWN).foldl press tall_editor)).rows)
    ∧ (refresh_screen_scroll ((List.replicate 4 ARROW_RIGHT).foldl press narrow_editor)).columns = 4
    ∧ (refresh_screen_scroll ((List.replicate 4 ARROW_RIGHT).foldl press narrow_editor)).rendered_x = 4
    ∧ (refresh_screen_scroll ((List.replicate 4 ARROW_RIGHT).foldl press narrow_editor)).column_offset
        = 0 := by
  decide

set_option maxRecDepth 4000 in
/-- C19 (code defect). On a screen four columns wide, six presses of the
right arrow on the row `abcdefgh` scroll to `column_offset` 2; the row is
then drawn as `cd`, the rendered bytes at positions 2 and 3, and not as
`cdef`, the bytes at positions 2 to 5: the loop at line 987 runs `i` from
`column_offset` while `i < size`, where `size` is the number of bytes to show
and not the position after the last of them. -/
theorem draw_row_clips_short :
    (refresh_screen_scroll ((List.replicate 6 ARROW_RIGHT).foldl press narrow_editor)).column_offset
      = 2
    ∧ (refresh_screen_scroll ((List.replicate 6 ARROW_RIGHT).foldl press narrow_editor)).columns = 4
    ∧ (refresh_screen_scroll ((List.replicate 6 ARROW_RIGHT).foldl press narrow_editor)).row.map
        Row.rendered = [cstr "abcdefgh"]
    ∧ text_bytes
        (draw_row (refresh_screen_scroll ((List.replicate 6 ARROW_RIGHT).foldl press narrow_editor))
          ((refresh_screen_scroll
            ((List.replicate 6 ARROW_RIGHT).foldl press narrow_editor)).row.getD 0 default))
        = cstr "cd"
    ∧ ((cstr "abcdefgh").drop 2).take (min (8 - 2) 4) = cstr "cdef" := by
  decide

/-- C20 (code defect). The row `ab` without syntax has two Normal bytes, one
run of one highlight class; it is drawn with the colour sequence `ESC[39m`
before each of the two bytes (and once more after the row): the branch for
Normal bytes at lines 999-1002 emits the sequence without the test on
`current_color` that the branch for the other classes makes. -/
theorem normal_bytes_repeat_color :
    plain_editor.row.map Row.highlights = [[HIGHLIGHT_NORMAL, HIGHLIGHT_NORMAL]]
    ∧ draw_row plain_editor (plain_editor.row.getD 0 default)
        = [cstr "\x1b[39m", cstr "a", cstr "\x1b[39m", cstr "b", cstr "\x1b[39m"]
    ∧ (color_messages (draw_row plain_editor (plain_editor.row.getD 0 default))).length = 3 := by
  constructor
  · decide
  constructor
  · decide
  · decide

/-! ## Saving and restoring the highlights of a match -/

theorem getElem?_write_at {α : Type} (xs : List α) : ∀ (cells : List α) (dst i : Nat),
    (write_at cells dst xs)[i]?
      = if dst ≤ i ∧ i < dst + xs.length ∧ i < cells.length then xs[i - dst]? else cells[i]? := by
  induction xs with
  | nil =>
    intro cells dst i
    simp only [write_at, List.length_nil, Nat.add_zero]
    rw [if_neg (by omega)]
  | cons x xs ih =>
    intro cells dst i
    rw [write_at, ih]
    simp only [List.length_set, List.length_cons]
    by_cases h1 : dst + 1 ≤ i ∧ i < dst + 1 + xs.length ∧ i < cells.length
    · rw [if_pos h1, if_pos (by omega)]
      have : i - dst = (i - (dst + 1)) + 1 := by omega
      rw [this, List.getElem?_cons_succ]
    · rw [if_neg h1]
      by_cases h2 : i = dst
      · subst h2
        by_cases h3 : i < cells.length
        · rw [List.getElem?_set_self h3, if_pos (by omega), Nat.sub_self]
          simp
        · rw [if_neg (by omega), List.getElem?_eq_none (by simpa using h3),
            List.getElem?_eq_none (by simpa using h3)]
      · rw [List.getElem?_set_ne (by omega), if_neg (by omega)]

theorem getElem?_memset (n : Nat) : ∀ (buffer : List Nat) (start value i : Nat),
    (memset buffer start value n)[i]?
      = if start ≤ i ∧ i < start + n ∧ i < buffer.length then some value else buffer[i]? := by
  induction n with
  | zero =>
    intro buffer start value i
    simp only [memset, Nat.add_zero]
    rw [if_neg (by omega)]
  | succ n ih =>
    intro buffer start value i
    rw [memset, ih]
    simp only [List.length_set]
    by_cases h1 : start + 1 ≤ i ∧ i < start + 1 + n ∧ i < buffer.length
    · rw [if_pos h1, if_pos (by omega)]
    · rw [if_neg h1]
      by_cases h2 : i = start
      · subst h2
        by_cases h3 : i < buffer.length
        · rw [List.getElem?_set_self h3, if_pos (by omega)]
        · rw [if_neg (by omega), List.getElem?_eq_none (by simpa using h3),
            List.getElem?_eq_none (by simpa using h3)]
      · rw [List.getElem?_set_ne (by omega), if_neg (by omega)]

theorem length_read_bytes (source : List Nat) (n : Nat) : (read_bytes source n).length = n := by
  simp [read_bytes]

theorem read_bytes_read_bytes (source : List Nat) (n : Nat) :
    read_bytes (read_bytes source n) n = read_bytes source n := by
  apply List.ext_getElem?
  intro i
  unfold read_bytes
  simp only [List.getElem?_map]
  by_cases hi : i < n
  · rw [List.getElem?_range hi]
    simp only [Option.map_some', List.getD_eq_getElem?_getD, List.getElem?_map,
      List.getElem?_range hi, Option.getD_some]
  · rw [List.getElem?_eq_none (by simpa using hi)]
    rfl

theorem write_at_read_bytes (highlights : List Nat) (size offset value n : Nat)
    (h : offset + n ≤ size) :
    write_at (memset highlights offset value n) 0 (read_bytes (read_bytes highlights size) size)
      = highlights := by
  rw [read_bytes_read_bytes]
  apply List.ext_getElem?
  intro i
  rw [getElem?_write_at, length_read_bytes, length_memset]
  by_cases hi : 0 ≤ i ∧ i < 0 + size ∧ i < highlights.length
  · rw [if_pos hi]
    unfold read_bytes
    simp only [Nat.sub_zero, List.getElem?_map]
    rw [List.getElem?_range (by omega)]
    simp only [Option.map_some', List.getD_eq_getElem?_getD]
    rw [List.getElem?_eq_getElem hi.2.2]
    rfl
  · rw [if_neg hi, getElem?_memset]
    by_cases hl : i < highlights.length
    · rw [if_neg (by omega)]
    · rw [if_neg (by omega)]
/-! ## `strstr` -/

theorem strstr_from_some (needle : List Nat) : ∀ (haystack : List Nat) (offset o : Nat),
    strstr_from needle haystack offset = some o →
    ∃ k, o = offset + k ∧ k + needle.length ≤ haystack.length
      ∧ needle <+: haystack.drop k ∧ ∀ i < k, ¬ needle <+: haystack.drop i := by
  intro haystack
  induction haystack with
  | nil =>
    intro offset o h
    unfold strstr_from at h
    split at h
    · rename_i hp
      rw [List.isPrefixOf_iff_prefix] at hp
      have hn : needle = [] := List.prefix_nil.mp hp
      refine ⟨0, by simpa using h.symm, by simp [hn], by simpa using hp, fun i hi => by omega⟩
    · cases h
  | cons c haystack ih =>
    intro offset o h
    unfold strstr_from at h
    split at h
    · rename_i hp
      rw [List.isPrefixOf_iff_prefix] at hp
      refine ⟨0, by simpa using h.symm, ?_, by simpa using hp, fun i hi => by omega⟩
      have := hp.length_le
      omega
    · rename_i hp
      rw [List.isPrefixOf_iff_prefix] at hp
      obtain ⟨k, hk1, hk2, hk3, hk4⟩ := ih _ _ h
      refine ⟨k + 1, by omega, by simp only [List.length_cons]; omega, by simpa using hk3, ?_⟩
      intro i hi
      cases i with
      | zero => simpa using hp
      | succ i => simpa using hk4 i (by omega)

theorem strstr_from_none (needle : List Nat) : ∀ (haystack : List Nat) (offset : Nat),
    strstr_from needle haystack offset = none → ∀ i, ¬ needle <+: haystack.drop i := by
  intro haystack
  induction haystack with
  | nil =>
    intro offset h i
    unfold strstr_from at h
    split at h
    · cases h
    · rename_i hp
      rw [List.isPrefixOf_iff_prefix] at hp
      simpa using hp
  | cons c haystack ih =>
    intro offset h i
    unfold strstr_from at h
    split at h
    · cases h
    · rename_i hp
      rw [List.isPrefixOf_iff_prefix] at hp
      cases i with
      | zero => simpa using hp
      | succ i => simpa using ih _ h i

theorem c_string_length_le (buffer : List Nat) : (c_string buffer).length ≤ buffer.length :=
  (List.takeWhile_prefix _).length_le

theorem c_string_of_not_mem (buffer : List Nat) (h : 0 ∉ buffer) : c_string buffer = buffer := by
  unfold c_string
  rw [List.takeWhile_eq_self_iff]
  intro c hc
  simp only [bne_iff_ne, ne_eq]
  intro h0
  exact h (h0 ▸ hc)

theorem strstr_bound (haystack needle : List Nat) (offset : Nat)
    (h : strstr haystack needle = some offset) : offset + strlen needle ≤ haystack.length := by
  unfold strstr at h
  obtain ⟨k, hk1, hk2, _, _⟩ := strstr_from_some _ _ _ _ h
  have := c_string_length_le haystack
  unfold strlen
  omega
/-! ## A cancelled search -/

theorem restore_highlight_saved (e : Editor) : (restore_highlight e).saved_highlight = none := by
  unfold restore_highlight
  cases h : e.saved_highlight with
  | none => simp only [h]
  | some saved => rfl

theorem restore_highlight_row_count (e : Editor) :
    (restore_highlight e).row_count = e.row_count := by
  unfold restore_highlight
  cases e.saved_highlight <;> rfl

theorem restore_highlight_of_none (e : Editor) (h : e.saved_highlight = none) :
    restore_highlight e = e := by
  unfold restore_highlight
  rw [h]

theorem restore_highlight_row_congr (e e' : Editor) (hrow : e'.row = e.row)
    (hsaved : e'.saved_highlight = e.saved_highlight)
    (hline : e'.saved_highlight_line = e.saved_highlight_line) :
    (restore_highlight e').row = (restore_highlight e).row := by
  unfold restore_highlight
  rw [hsaved]
  cases e.saved_highlight with
  | none => exact hrow
  | some saved => simp only [hrow, hline]

theorem row_at_set_row_at (cells : List Row) (i : Int) (row : Row) :
    row_at (set_row_at cells i row) i = if i < 0 ∨ cells.length ≤ i.toNat then default else row := by
  unfold row_at set_row_at
  by_cases h0 : i < 0
  · simp only [h0, if_true, true_or]
  · simp only [h0, if_false, false_or]
    rw [List.getD_eq_getElem?_getD]
    by_cases hl : cells.length ≤ i.toNat
    · rw [if_pos hl, List.getElem?_eq_none (by simpa using hl)]
      rfl
    · rw [if_neg hl, List.getElem?_set_self (by omega)]
      rfl

theorem set_row_at_set_row_at (cells : List Row) (i : Int) (row row' : Row) :
    set_row_at (set_row_at cells i row) i row' = set_row_at cells i row' := by
  unfold set_row_at
  split
  · rfl
  · rw [List.set_set]

theorem set_row_at_row_at (cells : List Row) (i : Int) :
    set_row_at cells i (row_at cells i) = cells := by
  unfold set_row_at row_at
  split
  · rfl
  · apply List.ext_getElem?
    intro j
    by_cases hj : j = i.toNat
    · subst hj
      by_cases hl : i.toNat < cells.length
      · rw [List.getElem?_set_self hl, List.getD_eq_getElem?_getD,
          List.getElem?_eq_getElem hl]
        rfl
      · rw [List.getElem?_eq_none (by simpa using hl), List.getElem?_eq_none (by simpa using hl)]
    · rw [List.getElem?_set_ne (by omega)]

theorem set_row_at_default (cells : List Row) (i : Int) (row : Row)
    (h : i < 0 ∨ cells.length ≤ i.toNat) : set_row_at cells i row = cells := by
  unfold set_row_at
  split
  · rfl
  · rename_i h0
    apply List.set_eq_of_length_le
    omega

theorem restore_find_editor_match (e : Editor) (query : List Nat) (current : Int)
    (offset : Nat) (h : strstr (row_at e.row current).rendered query = some offset) :
    (restore_highlight (find_editor_match e query current offset)).row = e.row := by
  have hb := strstr_bound _ _ _ h
  unfold restore_highlight find_editor_match
  simp only
  rw [row_at_set_row_at, set_row_at_set_row_at]
  by_cases hout : current < 0 ∨ e.row.length ≤ current.toNat
  · rw [set_row_at_default _ _ _ hout]
  · rw [if_neg hout]
    simp only [Row.rendered_size]
    rw [write_at_read_bytes _ _ _ _ _ hb]
    exact set_row_at_row_at e.row current
theorem find_editor_match_fields (e : Editor) (query : List Nat) (current : Int)
    (offset : Nat) :
    (find_editor_match e query current offset).row_count = e.row_count := rfl

theorem restore_find_editor_scan (query : List Nat) (count : Nat) :
    ∀ (e : Editor) (current : Int), e.saved_highlight = none →
      (restore_highlight (find_editor_scan e query count current)).row = e.row
      ∧ (find_editor_scan e query count current).row_count = e.row_count := by
  induction count with
  | zero =>
    intro e current hs
    unfold find_editor_scan
    rw [restore_highlight_of_none e hs]
    exact ⟨rfl, rfl⟩
  | succ count ih =>
    intro e current hs
    unfold find_editor_scan
    cases h : strstr (row_at e.row (next_row e current)).rendered query with
    | none => exact ih e _ hs
    | some offset => exact ⟨restore_find_editor_match e query _ offset h, rfl⟩

theorem find_editor_direction_fields (e : Editor) (key : Int) :
    (find_editor_direction e key).row = e.row
    ∧ (find_editor_direction e key).row_count = e.row_count
    ∧ (find_editor_direction e key).saved_highlight = e.saved_highlight := by
  unfold find_editor_direction
  simp only
  repeat' split
  all_goals exact ⟨rfl, rfl, rfl⟩

theorem restore_find_editor_callback (e : Editor) (query : List Nat) (key : Int) :
    (restore_highlight (find_editor_callback e query key)).row = (restore_highlight e).row
    ∧ (find_editor_callback e query key).row_count = e.row_count := by
  unfold find_editor_callback
  simp only
  split
  · rw [restore_highlight_of_none _ (restore_highlight_saved e)]
    exact ⟨rfl, restore_highlight_row_count e⟩
  · obtain ⟨d1, d2, d3⟩ := find_editor_direction_fields (restore_highlight e) key
    obtain ⟨s1, s2⟩ := restore_find_editor_scan query
      (find_editor_direction (restore_highlight e) key).row_count
      (find_editor_direction (restore_highlight e) key)
      (find_editor_direction (restore_highlight e) key).last_match
      (by rw [d3]; exact restore_highlight_saved e)
    exact ⟨by rw [s1, d1], by rw [s2, d2]; exact restore_highlight_row_count e⟩

theorem find_editor_callback_end (e : Editor) (query : List Nat) (key : Int)
    (h : key = 0x1B ∨ key = 13) :
    find_editor_callback e query key = restore_highlight e := by
  unfold find_editor_callback
  have : (key == 13 || key == 0x1B) = true := by
    rcases h with h | h <;> subst h <;> decide
  simp only [this, if_true]

theorem restore_refresh_screen_scroll (e : Editor) :
    (restore_highlight (refresh_screen_scroll e)).row = (restore_highlight e).row
    ∧ (refresh_screen_scroll e).row_count = e.row_count :=
  ⟨restore_highlight_row_congr e (refresh_screen_scroll e) rfl rfl rfl, rfl⟩

theorem ask_cancelled (keys : List Int) (hkeys : ∀ k ∈ keys, k ≠ 0x1B ∧ k ≠ 13) :
    ∀ (e : Editor) (buffer : List Nat),
    ∃ e', ask (some find_editor_callback) e buffer (keys ++ [0x1B]) = some (e', none, [])
      ∧ e'.row = (restore_highlight e).row ∧ e'.row_count = e.row_count
      ∧ e'.saved_highlight = none := by
  induction keys with
  | nil =>
    intro e buffer
    refine ⟨restore_highlight (refresh_screen_scroll e), ?_, (restore_refresh_screen_scroll e).1,
      ?_, restore_highlight_saved _⟩
    · simp only [List.nil_append, ask]
      have h1 : ((0x1B : Int) == DELETE_KEY || (0x1B : Int) == CTRL_KEY 104
          || (0x1B : Int) == BACKSPACE) = false := by decide
      have h2 : ((0x1B : Int) == 0x1B) = true := by decide
      simp only [h1, h2, Bool.false_eq_true, if_false, if_true]
      rw [find_editor_callback_end _ _ _ (Or.inl rfl)]
    · rw [restore_highlight_row_count]
      rfl
  | cons c keys ih =>
    intro e buffer
    have hc := hkeys c (by simp)
    have ih' := ih (fun k hk => hkeys k (by simp [hk]))
    have h2 : (c == 0x1B) = false := by simpa using hc.1
    have h3 : (c == 13) = false := by simpa using hc.2
    have step : ∀ text : List Nat,
        ∃ e', ask (some find_editor_callback)
            (find_editor_callback (refresh_screen_scroll e) text c) text (keys ++ [0x1B])
          = some (e', none, [])
          ∧ e'.row = (restore_highlight e).row ∧ e'.row_count = e.row_count
          ∧ e'.saved_highlight = none := by
      intro text
      obtain ⟨e', a1, a2, a3, a4⟩ :=
        ih' (find_editor_callback (refresh_screen_scroll e) text c) text
      obtain ⟨c1, c2⟩ := restore_find_editor_callback (refresh_screen_scroll e) text c
      obtain ⟨r1, r2⟩ := restore_refresh_screen_scroll e
      exact ⟨e', a1, by rw [a2, c1, r1], by rw [a3, c2, r2], a4⟩
    simp only [List.cons_append, ask, h2, h3, Bool.false_eq_true, if_false]
    split
    · exact step _
    · split
      · exact step _
      · exact step _

theorem ask_saved_highlight (keys : List Int) :
    ∀ (e : Editor) (buffer : List Nat) (e' : Editor) (text : Option (List Nat))
      (rest : List Int),
    ask (some find_editor_callback) e buffer keys = some (e', text, rest) →
    e'.saved_highlight = none := by
  induction keys with
  | nil => intro e buffer e' text rest h; cases h
  | cons c keys ih =>
    intro e buffer e' text rest h
    simp only [ask] at h
    split at h
    · exact ih _ _ _ _ _ h
    · split at h
      · rename_i hc
        simp only [Option.some.injEq, Prod.mk.injEq] at h
        rw [← h.1, find_editor_callback_end _ _ _ (Or.inl (by simpa using hc))]
        exact restore_highlight_saved _
      · split at h
        · rename_i hc
          simp only [Option.some.injEq, Prod.mk.injEq] at h
          rw [← h.1, find_editor_callback_end _ _ _ (Or.inr (by simpa using hc))]
          exact restore_highlight_saved _
        · split at h
          · exact ih _ _ _ _ _ h
          · exact ih _ _ _ _ _ h

theorem find_editor_saved_highlight (e : Editor) (keys : List Int) (e' : Editor)
    (rest : List Int) (h : find_editor e keys = some (e', rest)) :
    e'.saved_highlight = none := by
  unfold find_editor at h
  split at h
  · cases h
  · rename_i e1 rest1 ha
    simp only [Option.some.injEq, Prod.mk.injEq] at h
    rw [← h.1]
    exact ask_saved_highlight _ _ _ e1 _ _ ha
  · rename_i e1 text rest1 ha
    simp only [Option.some.injEq, Prod.mk.injEq] at h
    rw [← h.1]
    exact ask_saved_highlight _ _ _ _ _ _ ha
/-- C17. A search cancelled with Escape leaves no trace: for every editor
that holds no saved highlights when the search begins (as after every search)
and every sequence of keys without Escape and Enter, followed by Escape,
`find_editor` returns, having read all the keys, with the cursor, the two
scroll offsets and every row of the document (its highlights included) as
they were before the search. -/
theorem cancelled_search_leaves_no_trace (e : Editor) (keys : List Int)
    (hsaved : e.saved_highlight = none) (hkeys : ∀ k ∈ keys, k ≠ 0x1B ∧ k ≠ 13) :
    ∃ e', find_editor e (keys ++ [0x1B]) = some (e', [])
      ∧ e'.cursor_x = e.cursor_x ∧ e'.cursor_y = e.cursor_y
      ∧ e'.row_offset = e.row_offset ∧ e'.column_offset = e.column_offset
      ∧ e'.row = e.row ∧ e'.row_count = e.row_count
      ∧ highlight_rows e' = highlight_rows e
      ∧ e'.saved_highlight = none := by
  obtain ⟨e1, a1, a2, a3, a4⟩ :=
    ask_cancelled keys hkeys { e with last_match := -1, direction := 1 } []
  rw [restore_highlight_of_none { e with last_match := -1, direction := 1 } hsaved] at a2
  simp only at a2 a3
  refine ⟨{ e1 with cursor_x := e.cursor_x, cursor_y := e.cursor_y,
                    column_offset := e.column_offset, row_offset := e.row_offset },
    ?_, rfl, rfl, rfl, rfl, a2, a3, ?_, a4⟩
  · unfold find_editor
    rw [a1]
  · unfold highlight_rows
    simp only
    rw [a2, a3]

set_option maxRecDepth 8000 in
/-- C17 at `search_editor`: typing `needle` moves the cursor from row 0 to
row 2, at raw column 5 where the word starts (Enter keeps it there); Escape
instead returns it to row 0 and leaves the document as it was. -/
theorem cancelled_search_leaves_no_trace_witness :
    (search_editor.saved_highlight = none ∧ ∀ k ∈ typed "needle", k ≠ 0x1B ∧ k ≠ 13)
    ∧ (search_editor.cursor_x = 0 ∧ search_editor.cursor_y = 0
      ∧ (find_editor search_editor (typed "needle" ++ [13])).map
          (fun result => (result.1.cursor_x, result.1.cursor_y)) = some (5, 2))
    ∧ ∃ e', find_editor search_editor (typed "needle" ++ [0x1B]) = some (e', [])
      ∧ e'.cursor_x = search_editor.cursor_x ∧ e'.cursor_y = search_editor.cursor_y
      ∧ e'.row_offset = search_editor.row_offset
      ∧ e'.column_offset = search_editor.column_offset
      ∧ e'.row = search_editor.row ∧ e'.row_count = search_editor.row_count
      ∧ highlight_rows e' = highlight_rows search_editor
      ∧ e'.saved_highlight = none :=
  ⟨by decide, by decide,
    cancelled_search_leaves_no_trace search_editor (typed "needle") (by decide) (by decide)⟩

/-! ## The order in which a search examines the rows -/

theorem map_set_row_at {β : Type} (f : Row → β) (cells : List Row) (i : Int) (row : Row)
    (h : f row = f (row_at cells i)) : (set_row_at cells i row).map f = cells.map f := by
  unfold set_row_at
  split
  · rfl
  · rename_i h0
    rw [List.map_set, h]
    unfold row_at
    rw [if_neg h0]
    apply List.ext_getElem?
    intro j
    by_cases hj : j = i.toNat
    · subst hj
      by_cases hl : i.toNat < cells.length
      · rw [List.getElem?_set_self (by simpa using hl), List.getElem?_map,
          List.getD_eq_getElem?_getD, List.getElem?_eq_getElem hl]
        rfl
      · rw [List.getElem?_eq_none (by simpa using hl), List.getElem?_eq_none (by simpa using hl)]
    · rw [List.getElem?_set_ne (by omega)]

theorem restore_highlight_raw_rendered (e : Editor) :
    (restore_highlight e).row.map Row.raw_rendered = e.row.map Row.raw_rendered := by
  unfold restore_highlight
  cases e.saved_highlight with
  | none => rfl
  | some saved => exact map_set_row_at Row.raw_rendered _ _ _ rfl

theorem row_at_raw_rendered (cells cells' : List Row) (i : Int)
    (h : cells'.map Row.raw_rendered = cells.map Row.raw_rendered) :
    (row_at cells' i).data = (row_at cells i).data
    ∧ (row_at cells' i).rendered = (row_at cells i).rendered := by
  unfold row_at
  split
  · exact ⟨rfl, rfl⟩
  · have hg := congrArg (fun l => l[i.toNat]?) h
    simp only [List.getElem?_map] at hg
    rw [List.getD_eq_getElem?_getD, List.getD_eq_getElem?_getD]
    cases h1 : cells[i.toNat]? with
    | none =>
      rw [h1] at hg
      cases h2 : cells'[i.toNat]? with
      | none => exact ⟨rfl, rfl⟩
      | some b => rw [h2] at hg; cases hg
    | some a =>
      rw [h1] at hg
      cases h2 : cells'[i.toNat]? with
      | none => rw [h2] at hg; cases hg
      | some b =>
        rw [h2] at hg
        simp only [Option.map_some', Option.some.injEq, Row.raw_rendered, Prod.mk.injEq] at hg
        exact ⟨hg.1, hg.2⟩

theorem find_editor_direction_start (e : Editor) (key : Int) :
    (find_editor_direction e key).last_match = (search_start e.last_match key).1
    ∧ (find_editor_direction e key).direction = (search_start e.last_match key).2
    ∧ (find_editor_direction e key).cursor_x = e.cursor_x
    ∧ (find_editor_direction e key).cursor_y = e.cursor_y := by
  unfold find_editor_direction search_start
  by_cases h1 : key = ARROW_RIGHT ∨ key = ARROW_DOWN
  · have h1' : (key == ARROW_RIGHT || key == ARROW_DOWN) = true := by simpa using h1
    simp only [h1', if_true, if_pos h1]
    split <;> exact ⟨rfl, rfl, rfl, rfl⟩
  · have h1' : (key == ARROW_RIGHT || key == ARROW_DOWN) = false := by simpa using h1
    by_cases h2 : key = ARROW_LEFT ∨ key = ARROW_UP
    · have h2' : (key == ARROW_LEFT || key == ARROW_UP) = true := by simpa using h2
      simp only [h1', h2', Bool.false_eq_true, if_false, if_true, if_neg h1, if_pos h2]
      by_cases h3 : e.last_match = -1
      · have h3' : (e.last_match == -1) = true := by simpa using h3
        simp only [h3', if_true, if_pos h3]
        exact ⟨trivial, trivial, trivial, trivial⟩
      · have h3' : (e.last_match == -1) = false := by simpa using h3
        simp only [h3', Bool.false_eq_true, if_false, if_neg h3]
        exact ⟨trivial, trivial, trivial, trivial⟩
    · have h2' : (key == ARROW_LEFT || key == ARROW_UP) = false := by simpa using h2
      simp only [h1', h2', Bool.false_eq_true, if_false, if_neg h1, if_neg h2]
      exact ⟨rfl, rfl, rfl, rfl⟩

theorem next_row_eq (e : Editor) (current : Int) (hn : 0 < e.row_count)
    (hd : e.direction = 1 ∨ (e.direction = -1 ∧ 0 ≤ current))
    (hc : -1 ≤ current ∧ current < e.row_count) :
    next_row e current = (current + e.direction) % (e.row_count : Int) := by
  have hn' : (0 : Int) < (e.row_count : Int) := by omega
  unfold next_row
  simp only
  by_cases h1 : current + e.direction = -1
  · have h1' : (current + e.direction == -1) = true := by simpa using h1
    rw [if_pos h1', h1]
    have : (-1 : Int) % (e.row_count : Int) = (-1 + (e.row_count : Int)) % (e.row_count : Int) := by
      rw [Int.add_emod_self]
    rw [this, Int.emod_eq_of_lt (by omega) (by omega)]
    omega
  · have h1' : (current + e.direction == -1) = false := by simpa using h1
    rw [if_neg (by simp [h1'])]
    by_cases h2 : current + e.direction = (e.row_count : Int)
    · have h2' : (current + e.direction == (e.row_count : Int)) = true := by simpa using h2
      rw [if_pos h2', h2, Int.emod_self]
    · have h2' : (current + e.direction == (e.row_count : Int)) = false := by simpa using h2
      rw [if_neg (by simp [h2']), Int.emod_eq_of_lt (by omega) (by omega)]

theorem search_position_bounds (n : Nat) (last_match d : Int) (j : Nat) (hn : 0 < n) :
    ((search_position n last_match d j : Nat) : Int)
      = (last_match + d * ((j : Int) + 1)) % (n : Int)
    ∧ search_position n last_match d j < n := by
  have hn' : (0 : Int) < (n : Int) := by omega
  have h0 := Int.emod_nonneg (last_match + d * ((j : Int) + 1)) (Int.ne_of_gt hn')
  have h1 := Int.emod_lt_of_pos (last_match + d * ((j : Int) + 1)) hn'
  unfold search_position
  constructor
  · omega
  · omega

theorem next_row_search_position (e : Editor) (j : Nat) (hn : 0 < e.row_count)
    (hd : e.direction = 1 ∨ e.direction = -1) :
    next_row e (search_position e.row_count e.last_match e.direction j)
      = search_position e.row_count e.last_match e.direction (j + 1) := by
  obtain ⟨b1, b2⟩ := search_position_bounds e.row_count e.last_match e.direction j hn
  obtain ⟨b3, _⟩ := search_position_bounds e.row_count e.last_match e.direction (j + 1) hn
  rw [next_row_eq e _ hn (by rcases hd with h | h; exact Or.inl h; exact Or.inr ⟨h, by omega⟩)
    (by omega), b1, b3, Int.emod_add_emod]
  congr 1
  push_cast
  ring

theorem next_row_last_match (e : Editor) (hn : 0 < e.row_count)
    (hd : e.direction = 1 ∨ (e.direction = -1 ∧ 0 ≤ e.last_match))
    (hc : -1 ≤ e.last_match ∧ e.last_match < e.row_count) :
    next_row e e.last_match = search_position e.row_count e.last_match e.direction 0 := by
  obtain ⟨b1, _⟩ := search_position_bounds e.row_count e.last_match e.direction 0 hn
  rw [next_row_eq e _ hn hd hc, b1]
  congr 1
  push_cast
  ring

theorem find_editor_scan_none (e : Editor) (query : List Nat) (count : Nat) :
    ∀ (k : Nat) (current : Int), 0 < e.row_count → (e.direction = 1 ∨ e.direction = -1) →
      next_row e current = search_position e.row_count e.last_match e.direction k →
      (∀ j, k ≤ j → j < k + count →
        strstr (row_at e.row (search_position e.row_count e.last_match e.direction j)).rendered
          query = none) →
      find_editor_scan e query count current = e := by
  induction count with
  | zero => intro k current _ _ _ _; rfl
  | succ count ih =>
    intro k current hn hd hcur hnone
    unfold find_editor_scan
    rw [hcur, hnone k (by omega) (by omega)]
    simp only
    exact ih (k + 1) _ hn hd (next_row_search_position e k hn hd)
      (fun j hj1 hj2 => hnone j (by omega) (by omega))

theorem find_editor_scan_some (e : Editor) (query : List Nat) (count : Nat) :
    ∀ (k : Nat) (current : Int) (j offset : Nat), 0 < e.row_count →
      (e.direction = 1 ∨ e.direction = -1) →
      next_row e current = search_position e.row_count e.last_match e.direction k →
      k ≤ j → j < k + count →
      (∀ i, k ≤ i → i < j →
        strstr (row_at e.row (search_position e.row_count e.last_match e.direction i)).rendered
          query = none) →
      strstr (row_at e.row (search_position e.row_count e.last_match e.direction j)).rendered
        query = some offset →
      find_editor_scan e query count current
        = find_editor_match e query (search_position e.row_count e.last_match e.direction j)
            offset := by
  induction count with
  | zero => intro k current j offset _ _ _ h1 h2; omega
  | succ count ih =>
    intro k current j offset hn hd hcur hkj hj hnone hsome
    unfold find_editor_scan
    rw [hcur]
    by_cases hjk : j = k
    · subst hjk
      rw [hsome]
    · rw [hnone k (by omega) (by omega)]
      simp only
      exact ih (k + 1) _ j offset hn hd (next_row_search_position e k hn hd) (by omega)
        (by omega) (fun i hi1 hi2 => hnone i (by omega) hi2) hsome

theorem strstr_some_first (haystack query : List Nat) (offset : Nat) (hq : 0 ∉ query)
    (h : strstr haystack query = some offset) :
    first_occurrence (c_string haystack) query offset := by
  unfold strstr at h
  rw [c_string_of_not_mem query hq] at h
  obtain ⟨k, hk1, hk2, hk3, hk4⟩ := strstr_from_some _ _ _ _ h
  have hk : offset = k := by omega
  subst hk
  exact ⟨⟨hk2, hk3⟩, fun i hi hocc => hk4 i hi hocc.2⟩

theorem strstr_none_contains (haystack query : List Nat) (hq : 0 ∉ query)
    (h : strstr haystack query = none) : ¬ contains (c_string haystack) query := by
  unfold strstr at h
  rw [c_string_of_not_mem query hq] at h
  rintro ⟨i, _, hi⟩
  exact strstr_from_none _ _ _ h i hi

theorem rendered_column_succ (data : List Nat) (c : Nat) :
    rendered_column data (c + 1)
      = (if data.getD c 0 == 9 then
          rendered_column data c + ((TAB_STOP - 1) - rendered_column data c % TAB_STOP)
         else rendered_column data c) + 1 := by
  unfold rendered_column
  rw [List.range_succ, List.foldl_append]
  rfl

theorem rendered_column_lt (data : List Nat) (c : Nat) :
    rendered_column data c < rendered_column data (c + 1) := by
  rw [rendered_column_succ]
  split <;> omega

theorem rendered_column_strict_mono (data : List Nat) (c : Nat) :
    ∀ c', c < c' → rendered_column data c < rendered_column data c' := by
  intro c' h
  induction c' with
  | zero => omega
  | succ c' ih =>
    have h1 := rendered_column_lt data c'
    by_cases hc : c = c'
    · subst hc; exact h1
    · have := ih (by omega)
      omega

theorem to_unrendered_index_loop_spec (target : Int) (data : List Nat) (m : Nat) :
    ∀ i, data.length - i = m → i ≤ data.length →
      i ≤ to_unrendered_index_loop target (data.drop i) i (rendered_column data i)
      ∧ to_unrendered_index_loop target (data.drop i) i (rendered_column data i) ≤ data.length
      ∧ (∀ c, i ≤ c →
          c < to_unrendered_index_loop target (data.drop i) i (rendered_column data i) →
          (rendered_column data c : Int) < target)
      ∧ (to_unrendered_index_loop target (data.drop i) i (rendered_column data i) < data.length →
          target ≤ (rendered_column data
            (to_unrendered_index_loop target (data.drop i) i (rendered_column data i)) : Int)) := by
  induction m with
  | zero =>
    intro i hm hi
    have : i = data.length := by omega
    subst this
    rw [List.drop_length]
    simp only [to_unrendered_index_loop]
    exact ⟨Nat.le_refl _, Nat.le_refl _, fun c h1 h2 => by omega, fun h => by omega⟩
  | succ m ih =>
    intro i hm hi
    have hlt : i < data.length := by omega
    rw [List.drop_eq_getElem_cons hlt]
    simp only [to_unrendered_index_loop]
    split
    · rename_i htarget
      have hstep := rendered_column_succ data i
      rw [List.getD_eq_getElem?_getD, List.getElem?_eq_getElem hlt] at hstep
      simp only [Option.getD_some] at hstep
      rw [← hstep]
      obtain ⟨h1, h2, h3, h4⟩ := ih (i + 1) (by omega) (by omega)
      refine ⟨by omega, h2, ?_, h4⟩
      intro c hc1 hc2
      by_cases hci : c = i
      · subst hci; exact htarget
      · exact h3 c (by omega) hc2
    · rename_i htarget
      exact ⟨Nat.le_refl _, by omega, fun c h1 h2 => by omega, fun _ => by omega⟩

theorem to_unrendered_index_spec (row : Row) (target : Int) :
    to_unrendered_index row target ≤ row.size
    ∧ (∀ c, c < to_unrendered_index row target → (rendered_column row.data c : Int) < target)
    ∧ (to_unrendered_index row target < row.size →
        target ≤ (rendered_column row.data (to_unrendered_index row target) : Int))
    ∧ (∀ c, c ≤ row.size → (rendered_column row.data c : Int) = target →
        to_unrendered_index row target = c) := by
  have h := to_unrendered_index_loop_spec target row.data row.data.length 0 rfl (Nat.zero_le _)
  have h0 : rendered_column row.data 0 = 0 := rfl
  rw [List.drop_zero, h0] at h
  obtain ⟨_, h2, h3, h4⟩ := h
  unfold to_unrendered_index Row.size
  refine ⟨h2, fun c hc => h3 c (Nat.zero_le _) hc, h4, ?_⟩
  intro c hc hrc
  rcases Nat.lt_trichotomy (to_unrendered_index_loop target row.data 0 0) c with hlt | heq | hgt
  · have h5 := h4 (by omega)
    have h6 := rendered_column_strict_mono row.data _ c hlt
    omega
  · exact heq
  · have := h3 c (Nat.zero_le _) hgt
    omega

theorem restore_highlight_fields (e : Editor) :
    (restore_highlight e).last_match = e.last_match
    ∧ (restore_highlight e).cursor_x = e.cursor_x
    ∧ (restore_highlight e).cursor_y = e.cursor_y := by
  unfold restore_highlight
  cases e.saved_highlight <;> exact ⟨rfl, rfl, rfl⟩

theorem search_start_bounds (last_match key : Int) (n : Nat)
    (h : -1 ≤ last_match ∧ last_match < n) (hn : 0 < n) :
    (-1 ≤ (search_start last_match key).1 ∧ (search_start last_match key).1 < n)
    ∧ ((search_start last_match key).2 = 1
        ∨ ((search_start last_match key).2 = -1 ∧ 0 ≤ (search_start last_match key).1)) := by
  unfold search_start
  split
  · exact ⟨h, Or.inl rfl⟩
  · split
    · refine ⟨h, ?_⟩
      simp only
      split
      · exact Or.inl rfl
      · exact Or.inr ⟨rfl, by omega⟩
    · exact ⟨⟨by omega, by omega⟩, Or.inl rfl⟩

theorem row_at_natCast (cells : List Row) (p : Nat) :
    row_at cells (p : Int) = cells.getD p default := by
  unfold row_at
  rw [if_neg (by omega), Int.toNat_ofNat]

theorem find_editor_callback_scan (e : Editor) (query : List Nat) (key : Int)
    (hn : 0 < e.row_count) (hkey : key ≠ 13 ∧ key ≠ 0x1B)
    (hlast : -1 ≤ e.last_match ∧ e.last_match < e.row_count) (hq : 0 ∉ query) :
    (∀ j, j < e.row_count →
      (∀ i, i < j → ¬ contains
        (c_string (e.row.getD (search_position e.row_count (search_start e.last_match key).1
          (search_start e.last_match key).2 i) default).rendered) query) →
      contains
        (c_string (e.row.getD (search_position e.row_count (search_start e.last_match key).1
          (search_start e.last_match key).2 j) default).rendered) query →
      ∃ offset,
        first_occurrence
          (c_string (e.row.getD (search_position e.row_count (search_start e.last_match key).1
            (search_start e.last_match key).2 j) default).rendered) query offset
        ∧ (find_editor_callback e query key).cursor_y
            = search_position e.row_count (search_start e.last_match key).1
                (search_start e.last_match key).2 j
        ∧ (find_editor_callback e query key).last_match
            = search_position e.row_count (search_start e.last_match key).1
                (search_start e.last_match key).2 j
        ∧ (find_editor_callback e query key).cursor_x
            = to_unrendered_index
                (e.row.getD (search_position e.row_count (search_start e.last_match key).1
                  (search_start e.last_match key).2 j) default) offset)
    ∧ ((∀ j, j < e.row_count → ¬ contains
          (c_string (e.row.getD (search_position e.row_count (search_start e.last_match key).1
            (search_start e.last_match key).2 j) default).rendered) query) →
        (find_editor_callback e query key).cursor_x = e.cursor_x
        ∧ (find_editor_callback e query key).cursor_y = e.cursor_y) := by
  obtain ⟨f1, f2, f3⟩ := restore_highlight_fields e
  obtain ⟨d1, d2, d3, d4⟩ := find_editor_direction_start (restore_highlight e) key
  obtain ⟨g1, g2, _⟩ := find_editor_direction_fields (restore_highlight e) key
  rw [f1] at d1 d2
  rw [f2] at d3
  rw [f3] at d4
  rw [restore_highlight_row_count] at g2
  obtain ⟨b1, b2⟩ := search_start_bounds e.last_match key e.row_count hlast hn
  have hcb : find_editor_callback e query key
      = find_editor_scan (find_editor_direction (restore_highlight e) key) query
          e.row_count (search_start e.last_match key).1 := by
    unfold find_editor_callback
    have : (key == 13 || key == 0x1B) = false := by simpa using hkey
    simp only [this, Bool.false_eq_true, if_false, g2, d1]
  have hrr : ∀ p : Nat,
      (row_at (find_editor_direction (restore_highlight e) key).row (p : Int)).rendered
        = (e.row.getD p default).rendered
      ∧ (row_at (find_editor_direction (restore_highlight e) key).row (p : Int)).data
        = (e.row.getD p default).data := by
    intro p
    obtain ⟨r1, r2⟩ := row_at_raw_rendered e.row (restore_highlight e).row (p : Int)
      (restore_highlight_raw_rendered e)
    rw [g1, r1, r2, row_at_natCast]
    exact ⟨rfl, rfl⟩
  generalize find_editor_direction (restore_highlight e) key = e1 at d1 d2 d3 d4 g1 g2 hcb hrr
  generalize (search_start e.last_match key).1 = L at d1 b1 b2 hcb ⊢
  generalize (search_start e.last_match key).2 = d at d2 b2 ⊢
  have hd : e1.direction = 1 ∨ e1.direction = -1 := by
    rw [d2]; rcases b2 with h | h; exact Or.inl h; exact Or.inr h.1
  have hfirst : next_row e1 L = search_position e1.row_count e1.last_match e1.direction 0 := by
    rw [← d1]
    exact next_row_last_match e1 (by omega) (by rw [d1, d2]; exact b2) (by rw [d1, g2]; exact b1)
  have hstr : ∀ p : Nat,
      strstr (row_at e1.row ((search_position e1.row_count e1.last_match e1.direction p : Nat)
        : Int)).rendered query
        = strstr (e.row.getD (search_position e.row_count L d p) default).rendered query := by
    intro p
    rw [(hrr _).1, g2, d1, d2]
  constructor
  · intro j hj hbefore hcontains
    cases hs : strstr (e.row.getD (search_position e.row_count L d j) default).rendered query with
    | none => exact absurd hcontains (strstr_none_contains _ _ hq hs)
    | some offset =>
      have hm := find_editor_scan_some e1 query e.row_count 0 L j offset (by omega) hd hfirst
        (Nat.zero_le _) (by omega)
        (fun i _ hi => by
          rw [hstr]
          cases hi' : strstr (e.row.getD (search_position e.row_count L d i) default).rendered
            query with
          | none => rfl
          | some o =>
            exact absurd ⟨o, (strstr_some_first _ _ _ hq hi').1⟩ (hbefore i hi))
        (by rw [hstr]; exact hs)
      rw [hcb, hm]
      refine ⟨offset, strstr_some_first _ _ _ hq hs, ?_, ?_, ?_⟩
      · simp only [find_editor_match, g2, d1, d2]
      · simp only [find_editor_match, g2, d1, d2]
      · simp only [find_editor_match, to_unrendered_index]
        rw [(hrr _).2, g2, d1, d2]
  · intro hnone
    have hm := find_editor_scan_none e1 query e.row_count 0 L (by omega) hd hfirst
      (fun j _ hj => by
        rw [hstr]
        cases hj' : strstr (e.row.getD (search_position e.row_count L d j) default).rendered
          query with
        | none => rfl
        | some o =>
          exact absurd ⟨o, (strstr_some_first _ _ _ hq hj').1⟩ (hnone j (by omega)))
    rw [hcb, hm]
    exact ⟨d3, d4⟩

theorem search_position_forward_wrap (n : Nat) :
    search_position n ((n : Int) - 1) 1 0 = 0 := by
  unfold search_position
  have : (n : Int) - 1 + 1 * (((0 : Nat) : Int) + 1) = (n : Int) := by push_cast; ring
  rw [this, Int.emod_self]
  rfl

theorem search_position_backward (n j : Nat) (hj : j < n) :
    search_position n 0 (-1) j = n - 1 - j := by
  unfold search_position
  have h1 : (0 : Int) + -1 * ((j : Int) + 1) = -((j : Int) + 1) := by ring
  have h2 : (-((j : Int) + 1)) % (n : Int) = (-((j : Int) + 1) + (n : Int)) % (n : Int) := by
    rw [Int.add_emod_self]
  rw [h1, h2, Int.emod_eq_of_lt (by omega) (by omega)]
  omega

/-- C16 (as stated, refuted). In the document with rows `\0b` and `b`, a
search for `b` without a last match examines row 0 first, and the rendered
text of row 0 contains `b` (at offset 1), yet the cursor moves to row 1:
`strstr` reads the rendered text of row 0 as a C string, which ends at the
NUL byte. -/
theorem search_misses_text_after_nul :
    search_position nul_editor.row_count (search_start nul_editor.last_match 98).1
        (search_start nul_editor.last_match 98).2 0 = 0
    ∧ (nul_editor.row.getD 0 default).rendered = [0, 98]
    ∧ occurs_at (nul_editor.row.getD 0 default).rendered (cstr "b") 1
    ∧ (find_editor_callback nul_editor (cstr "b") 98).cursor_y = 1 := by
  refine ⟨by decide, by decide, ⟨by decide, ⟨[], by decide⟩⟩, by decide⟩

/-- C16 (amended). For a document of `n >= 1` rows, a query (a C string) and
a key other than Enter and Escape, with `last_match` a row or `-1`,
`find_editor_callback` examines at most `n` rows, at step `j` the row
`last_match + (j + 1) d` modulo `n`, where an arrow key keeps the last match
and gives `d = +1` (right, down) or `d = -1` (left, up), and any other key,
like the absence of a last match, gives `d = +1` from row 0.  The cursor moves
to the first of these rows whose rendered text, read as a C string (the bytes
before its first NUL byte), contains the query; `cursor_x` is then the first
raw column whose rendered column is at or after the offset of the first
occurrence of the query in that row, which is the raw column rendered at that
offset when there is one.  If none of the rows contains the query the cursor
is unmoved.  In particular, searching forward from last match `n - 1` lands
on row 0 when row 0 matches, and searching backward from last match 0 lands
on row 0 again when row 0 is the only row that matches. -/
theorem search_scan_order (e : Editor) (query : List Nat) (key : Int)
    (hn : 0 < e.row_count) (hkey : key ≠ 13 ∧ key ≠ 0x1B)
    (hlast : -1 ≤ e.last_match ∧ e.last_match < e.row_count) (hq : 0 ∉ query) :
    (∀ j, j < e.row_count →
      (∀ i, i < j → ¬ contains
        (c_string (e.row.getD (search_position e.row_count (search_start e.last_match key).1
          (search_start e.last_match key).2 i) default).rendered) query) →
      contains
        (c_string (e.row.getD (search_position e.row_count (search_start e.last_match key).1
          (search_start e.last_match key).2 j) default).rendered) query →
      ∃ offset c : Nat,
        first_occurrence
          (c_string (e.row.getD (search_position e.row_count (search_start e.last_match key).1
            (search_start e.last_match key).2 j) default).rendered) query offset
        ∧ (find_editor_callback e query key).cursor_y
            = search_position e.row_count (search_start e.last_match key).1
                (search_start e.last_match key).2 j
        ∧ (find_editor_callback e query key).cursor_x = c
        ∧ c ≤ (e.row.getD (search_position e.row_count (search_start e.last_match key).1
            (search_start e.last_match key).2 j) default).size
        ∧ (∀ c', c' < c →
            rendered_column
              (e.row.getD (search_position e.row_count (search_start e.last_match key).1
                (search_start e.last_match key).2 j) default).data c' < offset)
        ∧ (c < (e.row.getD (search_position e.row_count (search_start e.last_match key).1
              (search_start e.last_match key).2 j) default).size →
            offset ≤ rendered_column
              (e.row.getD (search_position e.row_count (search_start e.last_match key).1
                (search_start e.last_match key).2 j) default).data c)
        ∧ (∀ c0, c0 ≤ (e.row.getD (search_position e.row_count (search_start e.last_match key).1
              (search_start e.last_match key).2 j) default).size →
            rendered_column
              (e.row.getD (search_position e.row_count (search_start e.last_match key).1
                (search_start e.last_match key).2 j) default).data c0 = offset →
            c = c0))
    ∧ ((∀ j, j < e.row_count → ¬ contains
          (c_string (e.row.getD (search_position e.row_count (search_start e.last_match key).1
            (search_start e.last_match key).2 j) default).rendered) query) →
        (find_editor_callback e query key).cursor_x = e.cursor_x
        ∧ (find_editor_callback e query key).cursor_y = e.cursor_y)
    ∧ ((key = ARROW_RIGHT ∨ key = ARROW_DOWN) → e.last_match = (e.row_count : Int) - 1 →
        contains (c_string (e.row.getD 0 default).rendered) query →
        (find_editor_callback e query key).cursor_y = 0)
    ∧ ((key = ARROW_LEFT ∨ key = ARROW_UP) → e.last_match = 0 →
        (∀ p, p < e.row_count →
          (contains (c_string (e.row.getD p default).rendered) query ↔ p = 0)) →
        (find_editor_callback e query key).cursor_y = 0) := by
  obtain ⟨hfound, hnone⟩ := find_editor_callback_scan e query key hn hkey hlast hq
  refine ⟨?_, hnone, ?_, ?_⟩
  · intro j hj hbefore hcontains
    obtain ⟨offset, h1, h2, _, h4⟩ := hfound j hj hbefore hcontains
    obtain ⟨s1, s2, s3, s4⟩ := to_unrendered_index_spec
      (e.row.getD (search_position e.row_count (search_start e.last_match key).1
        (search_start e.last_match key).2 j) default) offset
    refine ⟨offset, _, h1, h2, h4, s1, ?_, ?_, ?_⟩
    · intro c' hc'
      exact_mod_cast s2 c' hc'
    · intro hc
      exact_mod_cast s3 hc
    · intro c0 hc0 hrc
      exact s4 c0 hc0 (by exact_mod_cast hrc)
  · intro hk hl hcontains
    have hs : search_start e.last_match key = (e.last_match, 1) := by
      unfold search_start
      rw [if_pos hk]
    have hp : search_position e.row_count (search_start e.last_match key).1
        (search_start e.last_match key).2 0 = 0 := by
      rw [hs, hl]
      exact search_position_forward_wrap e.row_count
    obtain ⟨offset, _, h2, _⟩ := hfound 0 hn (fun i hi => by omega) (by rw [hp]; exact hcontains)
    rw [h2, hp]
    rfl
  · intro hk hl honly
    have hk' : ¬ (key = ARROW_RIGHT ∨ key = ARROW_DOWN) := by
      rcases hk with h | h <;> subst h <;> decide
    have hs : search_start e.last_match key = (0, -1) := by
      unfold search_start
      rw [if_neg hk', if_pos hk, hl]
      rfl
    have hp : ∀ j, j < e.row_count →
        search_position e.row_count (search_start e.last_match key).1
          (search_start e.last_match key).2 j = e.row_count - 1 - j := by
      intro j hj
      rw [hs]
      exact search_position_backward e.row_count j hj
    obtain ⟨offset, _, h2, _⟩ := hfound (e.row_count - 1) (by omega)
      (fun i hi => by
        rw [hp i (by omega), honly _ (by omega)]
        omega)
      (by
        rw [hp _ (by omega), honly _ (by omega)]
        omega)
    rw [h2, hp _ (by omega)]
    have : e.row_count - 1 - (e.row_count - 1) = 0 := by omega
    rw [this]
    rfl

set_option maxRecDepth 8000 in
/-- C16 (amended) at `search_editor`: with the query `needle` and the key
`e`, the cursor moves to row 2, raw column 5. -/
theorem search_scan_order_witness :
    (0 < search_editor.row_count ∧ ((101 : Int) ≠ 13 ∧ (101 : Int) ≠ 0x1B)
      ∧ (-1 ≤ search_editor.last_match ∧ search_editor.last_match < search_editor.row_count)
      ∧ 0 ∉ cstr "needle")
    ∧ ((find_editor_callback search_editor (cstr "needle") 101).cursor_y = 2
      ∧ (find_editor_callback search_editor (cstr "needle") 101).cursor_x = 5)
    ∧ (
    (∀ j, j < search_editor.row_count →
      (∀ i, i < j → ¬ contains
        (c_string (search_editor.row.getD (search_position search_editor.row_count (search_start search_editor.last_match (101 : Int)).1
          (search_start search_editor.last_match (101 : Int)).2 i) default).rendered) (cstr "needle")) →
      contains
        (c_string (search_editor.row.getD (search_position search_editor.row_count (search_start search_editor.last_match (101 : Int)).1
          (search_start search_editor.last_match (101 : Int)).2 j) default).rendered) (cstr "needle") →
      ∃ offset c : Nat,
        first_occurrence
          (c_string (search_editor.row.getD (search_position search_editor.row_count (search_start search_editor.last_match (101 : Int)).1
            (search_start search_editor.last_match (101 : Int)).2 j) default).rendered) (cstr "needle") offset
        ∧ (find_editor_callback search_editor (cstr "needle") 101).cursor_y
            = search_position search_editor.row_count (search_start search_editor.last_match (101 : Int)).1
                (search_start search_editor.last_match (101 : Int)).2 j
        ∧ (find_editor_callback search_editor (cstr "needle") 101).cursor_x = c
        ∧ c ≤ (search_editor.row.getD (search_position search_editor.row_count (search_start search_editor.last_match (101 : Int)).1
            (search_start search_editor.last_match (101 : Int)).2 j) default).size
        ∧ (∀ c', c' < c →
            rendered_column
              (search_editor.row.getD (search_position search_editor.row_count (search_start search_editor.last_match (101 : Int)).1
                (search_start search_editor.last_match (101 : Int)).2 j) default).data c' < offset)
        ∧ (c < (search_editor.row.getD (search_position search_editor.row_count (search_start search_editor.last_match (101 : Int)).1
              (search_start search_editor.last_match (101 : Int)).2 j) default).size →
            offset ≤ rendered_column
              (search_editor.row.getD (search_position search_editor.row_count (search_start search_editor.last_match (101 : Int)).1
                (search_start search_editor.last_match (101 : Int)).2 j) default).data c)
        ∧ (∀ c0, c0 ≤ (search_editor.row.getD (search_position search_editor.row_count (search_start search_editor.last_match (101 : Int)).1
              (search_start search_editor.last_match (101 : Int)).2 j) default).size →
            rendered_column
              (search_editor.row.getD (search_position search_editor.row_count (search_start search_editor.last_match (101 : Int)).1
                (search_start search_editor.last_match (101 : Int)).2 j) default).data c0 = offset →
            c = c0))
    ∧ ((∀ j, j < search_editor.row_count → ¬ contains
          (c_string (search_editor.row.getD (search_position search_editor.row_count (search_start search_editor.last_match (101 : Int)).1
            (search_start search_editor.last_match (101 : Int)).2 j) default).rendered) (cstr "needle")) →
        (find_editor_callback search_editor (cstr "needle") 101).cursor_x = search_editor.cursor_x
        ∧ (find_editor_callback search_editor (cstr "needle") 101).cursor_y = search_editor.cursor_y)
    ∧ (((101 : Int) = ARROW_RIGHT ∨ (101 : Int) = ARROW_DOWN) → search_editor.last_match = (search_editor.row_count : Int) - 1 →
        contains (c_string (search_editor.row.getD 0 default).rendered) (cstr "needle") →
        (find_editor_callback search_editor (cstr "needle") 101).cursor_y = 0)
    ∧ (((101 : Int) = ARROW_LEFT ∨ (101 : Int) = ARROW_UP) → search_editor.last_match = 0 →
        (∀ p, p < search_editor.row_count →
          (contains (c_string (search_editor.row.getD p default).rendered) (cstr "needle") ↔ p = 0)) →
        (find_editor_callback search_editor (cstr "needle") 101).cursor_y = 0)) :=
  ⟨by decide, by decide,
    search_scan_order search_editor (cstr "needle") 101 (by decide) (by decide) (by decide)
      (by decide)⟩

theorem search_inside_tab_expansion :
    (search_editor.row.getD 2 default).data = cstr "\tint needle"
    ∧ strstr (search_editor.row.getD 2 default).rendered (cstr " i") = some 7
    ∧ rendered_column (search_editor.row.getD 2 default).data 0 = 0
    ∧ rendered_column (search_editor.row.getD 2 default).data 1 = 8
    ∧ (find_editor_callback search_editor (cstr " i") 105).cursor_y = 2
    ∧ (find_editor_callback search_editor (cstr " i") 105).cursor_x = 1 := by
  decide

/-! ## The bytes a row is drawn with -/

theorem text_bytes_append (messages messages' : List (List Nat)) :
    text_bytes (messages ++ messages') = text_bytes messages ++ text_bytes messages' := by
  unfold text_bytes
  rw [List.filter_append, List.flatten_append]

theorem text_bytes_escape (message : List Nat) (h : message.head? = some 27) :
    text_bytes [message] = [] := by
  unfold text_bytes
  rw [List.filter_cons_of_neg (by simp [h])]
  rfl

theorem text_bytes_byte (c : Nat) (h : c ≠ 27) : text_bytes [[c]] = [c] := by
  unfold text_bytes
  rw [List.filter_cons_of_pos (by simpa using h)]
  rfl

theorem text_bytes_draw_byte (row : Row) (state : List (List Nat) × Int) (i : Int) :
    text_bytes (draw_byte row state i).1
      = text_bytes state.1 ++ [shown_byte (byte_at row.rendered i)] := by
  have hcolor : ∀ color : Int, text_bytes [color_command color] = [] :=
    fun color => text_bytes_escape _ rfl
  unfold draw_byte shown_byte
  simp only
  by_cases hc : iscntrl (byte_at row.rendered i) = true
  · rw [if_pos hc, if_pos hc]
    have hs : (if byte_at row.rendered i ≤ 26 then 64 + byte_at row.rendered i else 63) ≠ 27 := by
      split <;> omega
    have hglyph : ∀ symbol : Nat, symbol ≠ 27 →
        text_bytes [cstr "\x1b[7m", [symbol], cstr "\x1b[m"] = [symbol] := by
      intro symbol hsym
      have : [cstr "\x1b[7m", [symbol], cstr "\x1b[m"]
          = [cstr "\x1b[7m"] ++ ([[symbol]] ++ [cstr "\x1b[m"]) := rfl
      rw [this, text_bytes_append, text_bytes_append,
        text_bytes_escape (cstr "\x1b[7m") (by decide),
        text_bytes_escape (cstr "\x1b[m") (by decide), text_bytes_byte _ hsym]
      rfl
    split
    · rw [text_bytes_append, text_bytes_append, hglyph _ hs, hcolor, List.append_nil]
    · rw [text_bytes_append, hglyph _ hs]
  · rw [if_neg hc, if_neg hc]
    have hb : byte_at row.rendered i ≠ 27 := by
      intro h27
      rw [h27] at hc
      exact hc (by decide)
    have hpair : ∀ message : List Nat, message.head? = some 27 →
        text_bytes [message, [byte_at row.rendered i]] = [byte_at row.rendered i] := by
      intro message hm
      have : [message, [byte_at row.rendered i]] = [message] ++ [[byte_at row.rendered i]] := rfl
      rw [this, text_bytes_append, text_bytes_byte _ hb, text_bytes_escape _ hm]
      rfl
    split
    · rw [text_bytes_append, hpair _ (by decide)]
    · split
      · rw [text_bytes_append, hpair (color_command _) rfl]
      · rw [text_bytes_append, text_bytes_byte _ hb]

theorem text_bytes_foldl_draw_byte (row : Row) (indices : List Int) :
    ∀ state : List (List Nat) × Int,
      text_bytes (indices.foldl (draw_byte row) state).1
        = text_bytes state.1 ++ indices.map fun i => shown_byte (byte_at row.rendered i) := by
  induction indices with
  | nil => intro state; simp
  | cons i indices ih =>
    intro state
    rw [List.foldl_cons, ih, text_bytes_draw_byte]
    simp

theorem text_bytes_draw_row (e : Editor) (row : Row) :
    text_bytes (draw_row e row)
      = (List.range (visible_size e row - e.column_offset).toNat).map
          fun k => shown_byte (byte_at row.rendered (e.column_offset + (k : Int))) := by
  unfold draw_row
  simp only
  rw [text_bytes_append, text_bytes_foldl_draw_byte, List.map_map,
    text_bytes_escape _ (by decide)]
  simp [text_bytes]

/-! ## Raw and rendered columns -/

theorem rendered_column_eq_tab_expand (data : List Nat) (c : Nat) (h : c ≤ data.length) :
    rendered_column data c = (tab_expand (data.take c)).length := by
  induction c with
  | zero => rfl
  | succ c ih =>
    have hlt : c < data.length := by omega
    have hg : data.getD c 0 = data[c] := by
      rw [List.getD_eq_getElem?_getD, List.getElem?_eq_getElem hlt]; rfl
    rw [rendered_column_succ, ih (by omega), List.take_succ, List.getElem?_eq_getElem hlt, hg]
    simp only [Option.toList_some]
    unfold tab_expand
    rw [tab_expand_from_append]
    simp only [tab_expand_from, TAB_STOP]
    by_cases h9 : data[c] = 9
    · have : (data[c] == 9) = true := by simpa using h9
      rw [if_pos this, if_pos h9]
      simp only [List.length_append, List.length_replicate]
      omega
    · have : (data[c] == 9) = false := by simpa using h9
      rw [if_neg (by simp [this]), if_neg h9]
      simp

/-- C24. For every row and every raw column `c` with `0 <= c <= row.size`,
`to_unrendered_index` applied to the rendered column of `c`, as the walk of
`refresh_screen` computes it, gives `c` back.  The walk starts from 0 and adds,
for each raw byte before the column, the distance to the next tab stop when
the byte is a tab and one otherwise; its result is the length of the tab
expansion of the first `c` raw bytes. -/
theorem column_round_trip (row : Row) (c : Nat) (hc : c ≤ row.size) :
    to_unrendered_index row (rendered_column row.data c) = c
    ∧ rendered_column row.data 0 = 0
    ∧ (∀ k, k < c → rendered_column row.data (k + 1)
        = if row.data.getD k 0 = 9 then
            rendered_column row.data k + (TAB_STOP - rendered_column row.data k % TAB_STOP)
          else rendered_column row.data k + 1)
    ∧ rendered_column row.data c = (tab_expand (row.data.take c)).length := by
  refine ⟨(to_unrendered_index_spec row _).2.2.2 c hc rfl, rfl, ?_,
    rendered_column_eq_tab_expand row.data c hc⟩
  intro k _
  rw [rendered_column_succ]
  simp only [TAB_STOP]
  by_cases h9 : row.data.getD k 0 = 9
  · have : (row.data.getD k 0 == 9) = true := by simpa using h9
    rw [if_pos this, if_pos h9]
    omega
  · have : (row.data.getD k 0 == 9) = false := by
      rw [beq_eq_false_iff_ne]; exact h9
    rw [this, if_neg h9]
    rfl

/-- C24 at row 2 of `search_editor`, a tab followed by `int needle`, and raw
column 5: the rendered column is 12. -/
theorem column_round_trip_witness :
    5 ≤ (search_editor.row.getD 2 default).size
    ∧ rendered_column (search_editor.row.getD 2 default).data 5 = 12
    ∧ (to_unrendered_index (search_editor.row.getD 2 default)
          (rendered_column (search_editor.row.getD 2 default).data 5) = 5
      ∧ rendered_column (search_editor.row.getD 2 default).data 0 = 0
      ∧ (∀ k, k < 5 → rendered_column (search_editor.row.getD 2 default).data (k + 1)
          = if (search_editor.row.getD 2 default).data.getD k 0 = 9 then
              rendered_column (search_editor.row.getD 2 default).data k
                + (TAB_STOP - rendered_column (search_editor.row.getD 2 default).data k % TAB_STOP)
            else rendered_column (search_editor.row.getD 2 default).data k + 1)
      ∧ rendered_column (search_editor.row.getD 2 default).data 5
          = (tab_expand ((search_editor.row.getD 2 default).data.take 5)).length) :=
  ⟨by decide, by decide, column_round_trip (search_editor.row.getD 2 default) 5 (by decide)⟩

/-! ## The dirty flag and the cursor under `handle_key` -/

/-- C25 (code defect). In the clean two-row document `int x;`, `// c` with
the cursor at column 3 of row 0, Enter changes the serialised text to three
rows and leaves `dirty` at 0, so that Ctrl-Q then leaves the program at once:
the Enter block of `handle_key` (lines 905-920) does not set `dirty`, as the
blocks for Backspace and for printable keys do. -/
theorem enter_leaves_document_clean :
    sample_editor.dirty = 0
    ∧ (rows_to_string sample_editor).1 = cstr "int x;\n// c\n"
    ∧ (handle_key id id sample_editor 13).map
        (fun e => ((rows_to_string e).1, e.row_count, e.dirty, handle_key id id e (CTRL_KEY 113)))
      = some (cstr "int\n x;\n// c\n", 3, 0, none) := by
  decide

/-- C26 (code defect). In the editor started without a file, with no rows and
the cursor at (0, 0), the down arrow moves the cursor to row 1, below the
one-past-the-end position 0, and so does the right arrow: line 848 compares
`cursor_y` with the screen size `rows` and line 855 increments it without a
test.  A printable key pressed then finds `cursor_y` different from
`row_count`, appends no row and leaves the document empty. -/
theorem arrow_moves_cursor_below_document :
    fresh_editor.row_count = 0 ∧ fresh_editor.cursor_x = 0 ∧ fresh_editor.cursor_y = 0
    ∧ (handle_key id id fresh_editor ARROW_DOWN).map (fun e => (e.row_count, e.cursor_y))
        = some (0, 1)
    ∧ (handle_key id id fresh_editor ARROW_RIGHT).map (fun e => (e.row_count, e.cursor_y))
        = some (0, 1)
    ∧ ((handle_key id id fresh_editor ARROW_DOWN).bind fun e => handle_key id id e 97).map
        (fun e => (e.row_count, e.cursor_y)) = some (0, 1) := by
  decide

/-! ## Strings -/

/-- C22 (code defect). With the C profile, in the row `"a\"b" x` the string
closes at the quote after the backslash, `b` is Normal and a second string
opens at the last quote and takes in ` x`; in the row `'a' x` the closing
quote is taken with the following blank as a two-byte unit and the string
never closes, so that `x` is String: the test for an escape at line 437
compares the byte with the quote `'` where a backslash is meant. -/
theorem quote_taken_for_backslash :
    raw_rendered_texts (load_lines (some c_profile) [cstr "\"a\\\"b\" x", cstr "'a' x"])
      = [([34, 97, 92, 34, 98, 34, 32, 120], [34, 97, 92, 34, 98, 34, 32, 120]),
         ([39, 97, 39, 32, 120], [39, 97, 39, 32, 120])]
    ∧ highlight_rows (load_lines (some c_profile) [cstr "\"a\\\"b\" x", cstr "'a' x"])
      = [[HIGHLIGHT_STRING, HIGHLIGHT_STRING, HIGHLIGHT_STRING, HIGHLIGHT_STRING,
          HIGHLIGHT_NORMAL, HIGHLIGHT_STRING, HIGHLIGHT_STRING, HIGHLIGHT_STRING],
         [HIGHLIGHT_STRING, HIGHLIGHT_STRING, HIGHLIGHT_STRING, HIGHLIGHT_STRING,
          HIGHLIGHT_STRING]] := by
  decide

/-! ## Filler lines and the welcome banner -/

theorem draw_filler_banner (e : Editor) (y : Int) (h : y = e.rows.tdiv 3) :
    (draw_filler e y).flatten = banner e.columns := by
  have hw : welcome.length = 20 := by decide
  have hy : (y == e.rows.tdiv 3) = true := by simpa using h
  unfold draw_filler banner
  simp only [hy, if_true, hw]
  by_cases hc : ((20 : Nat) : Int) > e.columns
  · rw [if_pos hc]
    have hmin : min 20 e.columns.toNat = e.columns.toNat := by omega
    simp only [Int.sub_self, Int.zero_tdiv, hmin, Nat.sub_self, Nat.zero_div, if_true,
      Int.lt_irrefl, if_false, Int.toNat_zero, List.replicate_zero, List.nil_append,
      List.append_nil, List.flatten_cons, List.flatten_nil]
  · rw [if_neg hc]
    have hmin : min 20 e.columns.toNat = 20 := by omega
    have hdiv : (e.columns - ((20 : Nat) : Int)).tdiv 2 = (((e.columns.toNat - 20) / 2 : Nat) : Int) := by
      rw [Int.tdiv_eq_ediv (by omega) (by omega)]
      omega
    rw [hdiv, hmin]
    simp only [Int.toNat_ofNat]
    by_cases hp : (e.columns.toNat - 20) / 2 = 0
    · rw [hp]
      simp
    · have hpos : (((e.columns.toNat - 20) / 2 : Nat) : Int) > 0 := by omega
      rw [if_pos hpos, if_pos hpos, if_neg hp]
      have : ((((e.columns.toNat - 20) / 2 : Nat) : Int) - 1).toNat
          = (e.columns.toNat - 20) / 2 - 1 := by omega
      rw [this]
      simp [List.flatten_replicate_singleton]

/-- C21 (as stated, refuted). The document `plain_editor` has one row, and
on its screen of ten lines the line `y = 3 = rows / 3`, past the end of the
document, is drawn with the welcome banner. -/
theorem banner_drawn_for_document_with_rows :
    plain_editor.row_count = 1 ∧ plain_editor.rows.tdiv 3 = 3
    ∧ ((draw_lines plain_editor).getD 3 []).flatten
        = 126 :: List.replicate 29 32 ++ cstr "Editor1 -- Version 0" ++ cstr "\x1b[K\r\n" := by
  decide

/-- C21 (amended). For every editor state and every screen line `y`: a line
within the document is drawn from its row; a line past the end of the
document is a filler line, which holds the welcome banner when
`y == rows / 3`, whatever the number of rows of the document, and a tilde
otherwise.  The banner is the welcome text cut to the screen width, centred
behind a tilde and blanks when the screen is wider. -/
theorem banner_on_filler_line (e : Editor) (y : Nat) :
    ((y : Int) + e.row_offset < e.row_count →
      draw_line e y
        = draw_row e (row_at e.row ((y : Int) + e.row_offset)) ++ [cstr "\x1b[K", cstr "\r\n"])
    ∧ ((e.row_count : Int) ≤ (y : Int) + e.row_offset →
        ((y : Int) ≠ e.rows.tdiv 3 → draw_line e y = [[126], cstr "\x1b[K", cstr "\r\n"])
        ∧ ((y : Int) = e.rows.tdiv 3 →
            (draw_line e y).flatten = banner e.columns ++ cstr "\x1b[K\r\n"))
    ∧ (20 ≤ e.columns →
        banner e.columns
          = (if (e.columns.toNat - 20) / 2 = 0 then []
             else 126 :: List.replicate ((e.columns.toNat - 20) / 2 - 1) 32) ++ welcome) := by
  refine ⟨?_, ?_, ?_⟩
  · intro h
    unfold draw_line
    rw [if_pos h]
  · intro h
    have hn : ¬ ((y : Int) + e.row_offset < e.row_count) := by omega
    constructor
    · intro hy
      have hy' : ((y : Int) == e.rows.tdiv 3) = false := by simpa using hy
      unfold draw_line draw_filler
      rw [if_neg hn]
      simp only [hy', Bool.false_eq_true, if_false]
      rfl
    · intro hy
      unfold draw_line
      rw [if_neg hn, List.flatten_append, draw_filler_banner e y hy]
      rfl
  · intro h
    have hmin : min 20 e.columns.toNat = 20 := by omega
    unfold banner
    rw [hmin]
    have : welcome.take 20 = welcome := by decide
    rw [this]

/-- C21 (amended) on the screen of `plain_editor`, whose document has one
row: line 3 is past the end and is line `rows / 3`, it holds the banner; line 4
is past the end and holds a tilde; the banner on 80 columns is a tilde, 29
blanks and the welcome text. -/
theorem banner_on_filler_line_witness :
    (plain_editor.row_count : Int) ≤ ((3 : Nat) : Int) + plain_editor.row_offset
    ∧ ((3 : Nat) : Int) = plain_editor.rows.tdiv 3
    ∧ (draw_line plain_editor (3 : Nat)).flatten
        = banner plain_editor.columns ++ cstr "\x1b[K\r\n"
    ∧ (plain_editor.row_count : Int) ≤ ((4 : Nat) : Int) + plain_editor.row_offset
    ∧ ((4 : Nat) : Int) ≠ plain_editor.rows.tdiv 3
    ∧ draw_line plain_editor (4 : Nat) = [[126], cstr "\x1b[K", cstr "\r\n"]
    ∧ 20 ≤ plain_editor.columns
    ∧ banner plain_editor.columns
        = (if (plain_editor.columns.toNat - 20) / 2 = 0 then []
           else 126 :: List.replicate ((plain_editor.columns.toNat - 20) / 2 - 1) 32)
          ++ welcome :=
  ⟨by decide, by decide,
    ((banner_on_filler_line plain_editor 3).2.1 (by decide)).2 (by decide),
    by decide, by decide,
    ((banner_on_filler_line plain_editor 4).2.1 (by decide)).1 (by decide),
    by decide, (banner_on_filler_line plain_editor 3).2.2 (by decide)⟩

/-! ## Keywords -/

theorem prefix_of_strncmp_eq (n : Nat) : ∀ (s t : List Nat), n ≤ t.length →
    (∀ x ∈ t.take n, x ≠ 0) → strncmp_eq s t n = true → t.take n <+: s := by
  induction n with
  | zero => intro s t _ _ _; simp
  | succ n ih =>
    intro s t hlen hnul h
    cases t with
    | nil => simp at hlen
    | cons x t =>
      have hx : x ≠ 0 := hnul x (by simp)
      unfold strncmp_eq at h
      cases s with
      | nil =>
        simp only [List.headD_nil, List.headD_cons] at h
        have : (0 != x) = true := by simp; exact fun h0 => hx h0.symm
        rw [this] at h
        simp at h
      | cons y s =>
        simp only [List.headD_cons, List.tail_cons] at h
        by_cases hy : y = x
        · subst hy
          have h1 : (y != y) = false := by simp
          have h2 : (y == 0) = false := by simp [hx]
          rw [h1, h2] at h
          simp only [Bool.false_eq_true, if_false] at h
          have := ih s t (by simpa using hlen)
            (fun z hz => hnul z (by simp [List.take_succ_cons, hz])) h
          rw [List.take_succ_cons]
          exact (List.prefix_cons_inj y).2 this
        · have h1 : (y != x) = true := by simp [hy]
          rw [h1] at h
          simp at h

theorem keyword_search_some (rendered : List Nat) (index : Nat) (highlight k : Nat) :
    ∀ keywords : List (List Nat),
      keyword_search rendered index keywords = some (highlight, k) →
      (highlight = HIGHLIGHT_KEYWORD1 ∨ highlight = HIGHLIGHT_KEYWORD2)
        ∧ is_seperator (rendered.getD (index + k) 0) = true
        ∧ ∃ keyword ∈ keywords, k ≤ keyword.length
            ∧ strncmp_eq (rendered.drop index) keyword k = true := by
  intro keywords
  induction keywords with
  | nil => intro h; simp [keyword_search] at h
  | cons keyword keywords ih =>
    intro h
    unfold keyword_search at h
    simp only at h
    generalize hsize : (if (keyword.getLast? == some 124) = true then keyword.length - 1
      else keyword.length) = size at h
    generalize hclass : (if (keyword.getLast? == some 124) = true then HIGHLIGHT_KEYWORD2
      else HIGHLIGHT_KEYWORD1) = cls at h
    by_cases hc : (strncmp_eq (rendered.drop index) keyword size
        && is_seperator (rendered.getD (index + size) 0)) = true
    · rw [if_pos hc] at h
      simp only [Bool.and_eq_true] at hc
      simp only [Option.some.injEq, Prod.mk.injEq] at h
      obtain ⟨h1, h2⟩ := h
      subst h2
      refine ⟨?_, hc.2, keyword, by simp, ?_, hc.1⟩
      · rw [← h1, ← hclass]; split <;> simp
      · rw [← hsize]; split <;> omega
    · rw [if_neg hc] at h
      obtain ⟨a, b, kw, hkw, c, d⟩ := ih h
      exact ⟨a, b, kw, by simp [hkw], c, d⟩

theorem keyword_rule_step (syn : Syntax) (rendered : List Nat) (s : Scan) (highlight k : Nat)
    (h : keyword_rule syn rendered s = some (highlight, k)) :
    highlight_step syn rendered s
      = ({ s with
            highlights := memset s.highlights s.index highlight k
            index := s.index + k
            previous_seperator := false }, false) := by
  unfold keyword_rule at h
  unfold highlight_step
  simp only at h ⊢
  split at h
  · cases h
  · rename_i c1
    rw [if_neg c1]
    split at h
    · cases h
    · rename_i c2
      rw [if_neg c2]
      split at h
      · cases h
      · rename_i c3
        rw [if_neg c3]
        split at h
        · cases h
        · rename_i c4
          rw [if_neg c4]
          split at h
          · cases h
          · rename_i c5
            rw [if_neg c5]
            split at h
            · cases h
            · rename_i c6
              rw [if_neg c6]
              split at h
              · rename_i c7
                rw [if_pos c7, h]
              · cases h
theorem getElem?_memset_keyword (buffer : List Nat) (start value n p : Nat)
    (h3 : value ≠ HIGHLIGHT_KEYWORD1) (h4 : value ≠ HIGHLIGHT_KEYWORD2)
    (hp : (memset buffer start value n)[p]? = some HIGHLIGHT_KEYWORD1
      ∨ (memset buffer start value n)[p]? = some HIGHLIGHT_KEYWORD2) :
    buffer[p]? = (memset buffer start value n)[p]? := by
  rw [getElem?_memset] at hp ⊢
  split
  · rename_i hc
    rw [if_pos hc] at hp
    simp only [Option.some.injEq] at hp
    rcases hp with hp | hp
    · exact absurd hp h3
    · exact absurd hp h4
  · rfl

theorem getElem?_set_keyword (buffer : List Nat) (start value p : Nat)
    (h3 : value ≠ HIGHLIGHT_KEYWORD1) (h4 : value ≠ HIGHLIGHT_KEYWORD2)
    (hp : (buffer.set start value)[p]? = some HIGHLIGHT_KEYWORD1
      ∨ (buffer.set start value)[p]? = some HIGHLIGHT_KEYWORD2) :
    buffer[p]? = (buffer.set start value)[p]? := by
  rw [List.getElem?_set] at hp ⊢
  split
  · rename_i hc
    rw [if_pos hc] at hp
    split
    · rename_i hlt
      rw [if_pos hlt] at hp
      simp only [Option.some.injEq] at hp
      rcases hp with hp | hp
      · exact absurd hp h3
      · exact absurd hp h4
    · rename_i hlt
      subst hc
      simp only [List.getElem?_eq_none_iff]
      omega
  · rfl

/-- Outside the keyword rule an iteration of the scanning loop writes no
keyword class: a position that holds one after the iteration held it before. -/
theorem keyword_rule_none_step (syn : Syntax) (rendered : List Nat) (s : Scan)
    (h : keyword_rule syn rendered s = none) (p : Nat)
    (hp : (highlight_step syn rendered s).1.highlights[p]? = some HIGHLIGHT_KEYWORD1
      ∨ (highlight_step syn rendered s).1.highlights[p]? = some HIGHLIGHT_KEYWORD2) :
    s.highlights[p]? = (highlight_step syn rendered s).1.highlights[p]? := by
  unfold keyword_rule at h
  unfold highlight_step at hp ⊢
  simp only at h hp ⊢
  by_cases c1 : (decide (syn.single_line_comment_start.length > 0) && s.in_string == 0
      && !s.in_comment && strncmp_eq (rendered.drop s.index) syn.single_line_comment_start
        syn.single_line_comment_start.length) = true
  · rw [if_pos c1] at hp ⊢
    exact getElem?_memset_keyword _ _ _ _ _ (by decide) (by decide) hp
  rw [if_neg c1] at h hp ⊢
  by_cases c2 : (decide (syn.multi_line_comment_start.length > 0)
      && decide (syn.multi_line_comment_end.length > 0) && s.in_string == 0
      && s.in_comment) = true
  · rw [if_pos c2] at hp ⊢
    split
    · rename_i c
      rw [if_pos c] at hp
      exact getElem?_memset_keyword _ _ _ _ _ (by decide) (by decide) hp
    · rfl
  rw [if_neg c2] at h hp ⊢
  by_cases c3 : (decide (syn.multi_line_comment_start.length > 0)
      && decide (syn.multi_line_comment_end.length > 0) && s.in_string == 0
      && strncmp_eq (rendered.drop s.index) syn.multi_line_comment_start
        syn.multi_line_comment_start.length) = true
  · rw [if_pos c3] at hp ⊢
    exact getElem?_memset_keyword _ _ _ _ _ (by decide) (by decide) hp
  rw [if_neg c3] at h hp ⊢
  by_cases c4 : (syn.flags &&& HIGHLIGHT_STRINGS != 0 && s.in_string != 0) = true
  · rw [if_pos c4] at hp ⊢
    split
    · rename_i c
      rw [if_pos c] at hp
      simp only at hp ⊢
      rw [← getElem?_set_keyword _ _ _ _ (by decide) (by decide) hp]
      have hp' := getElem?_set_keyword _ _ _ _ (by decide) (by decide) hp
      rw [← hp'] at hp
      exact getElem?_set_keyword _ _ _ _ (by decide) (by decide) hp
    · rename_i c
      rw [if_neg c] at hp
      exact getElem?_set_keyword _ _ _ _ (by decide) (by decide) hp
  rw [if_neg c4] at h hp ⊢
  by_cases c5 : (syn.flags &&& HIGHLIGHT_STRINGS != 0
      && (rendered.getD s.index 0 == 34 || rendered.getD s.index 0 == 39)) = true
  · rw [if_pos c5] at hp ⊢
    exact getElem?_set_keyword _ _ _ _ (by decide) (by decide) hp
  rw [if_neg c5] at h hp ⊢
  by_cases c6 : (syn.flags &&& HIGHLIGHT_NUMBERS != 0
      && (isdigit (rendered.getD s.index 0)
            && (s.previous_seperator
              || previous_highlight s.highlights s.index == HIGHLIGHT_NUMBER)
          || (rendered.getD s.index 0 == 46
            && previous_highlight s.highlights s.index == HIGHLIGHT_NUMBER))) = true
  · rw [if_pos c6] at hp ⊢
    exact getElem?_set_keyword _ _ _ _ (by decide) (by decide) hp
  rw [if_neg c6] at h hp ⊢
  by_cases c7 : s.previous_seperator = true
  · rw [if_pos c7] at h ⊢
    rw [h]
  · rw [if_neg c7]

theorem keyword_rule_state (syn : Syntax) (rendered : List Nat) (s : Scan) (p : Nat × Nat)
    (hflag : (syn.flags &&& HIGHLIGHT_STRINGS != 0) = true)
    (hstart : 0 < syn.multi_line_comment_start.length)
    (hend : 0 < syn.multi_line_comment_end.length)
    (h : keyword_rule syn rendered s = some p) :
    s.in_string = 0 ∧ s.in_comment = false ∧ s.previous_seperator = true
      ∧ keyword_search rendered s.index syn.keywords = some p := by
  unfold keyword_rule at h
  simp only at h
  split at h
  · cases h
  · split at h
    · cases h
    · rename_i c2
      split at h
      · cases h
      · split at h
        · cases h
        · rename_i c4
          split at h
          · cases h
          · split at h
            · cases h
            · split at h
              · rename_i c7
                rw [hflag] at c4
                simp only [Bool.true_and, bne_iff_ne, ne_eq, Decidable.not_not] at c4
                have hs : (s.in_string == 0) = true := by simp [c4]
                rw [hs] at c2
                simp only [gt_iff_lt, hstart, hend, decide_True, Bool.and_self, Bool.true_and,
                  Bool.not_eq_true] at c2
                exact ⟨c4, c2, c7, h⟩
              · cases h
theorem scan_invariant_step (syn : Syntax) (rendered : List Nat) (s s' : Scan)
    (hnul : ∀ x ∈ syn.multi_line_comment_end, x ≠ 0)
    (hc : highlight_step syn rendered s = (s', false)) :
    scan_invariant syn rendered s' := by
  unfold highlight_step at hc
  simp only at hc
  unfold scan_invariant
  split at hc
  · cases hc
  · split at hc
    · rename_i h
      simp only [Bool.and_eq_true, decide_eq_true_eq] at h
      split at hc
      · rename_i hm
        cases hc
        intro _
        refine Or.inr (Or.inr (Or.inr (Or.inr ⟨by simp, ?_⟩)))
        have hp := prefix_of_strncmp_eq syn.multi_line_comment_end.length
          (rendered.drop s.index) syn.multi_line_comment_end (le_refl _)
          (fun x hx => hnul x (List.mem_of_mem_take hx)) hm
        simpa using hp
      · cases hc
        intro _
        exact Or.inl h.2
    · split at hc
      · cases hc
        intro _
        exact Or.inl rfl
      · split at hc
        · rename_i h
          simp only [Bool.and_eq_true, bne_iff_ne, ne_eq] at h
          split at hc
          · cases hc
            intro _
            exact Or.inr (Or.inl h.2)
          · cases hc
            intro hf
            cases hf
        · split at hc
          · rename_i h
            cases hc
            intro _
            refine Or.inr (Or.inl ?_)
            simp only [Bool.and_eq_true, Bool.or_eq_true, beq_iff_eq] at h
            simp only
            rcases h.2 with h2 | h2 <;> omega
          · split at hc
            · cases hc
              intro hf
              cases hf
            · split at hc
              · cases hc
                intro hf
                cases hf
              · cases hc
                intro hsep
                refine Or.inr (Or.inr (Or.inr (Or.inl ?_)))
                simpa using hsep

theorem scan_trace_invariant (syn : Syntax) (rendered : List Nat)
    (hnul : ∀ x ∈ syn.multi_line_comment_end, x ≠ 0) (fuel : Nat) :
    ∀ s : Scan, scan_invariant syn rendered s →
      ∀ s' ∈ scan_trace syn rendered fuel s, scan_invariant syn rendered s' := by
  induction fuel with
  | zero =>
    intro s hs s' hmem
    simp only [scan_trace, List.mem_singleton] at hmem
    rw [hmem]; exact hs
  | succ fuel ih =>
    intro s hs s' hmem
    unfold scan_trace at hmem
    rcases List.mem_cons.1 hmem with hmem | hmem
    · rw [hmem]; exact hs
    · split at hmem
      · cases hstep : highlight_step syn rendered s with
        | mk s1 b =>
          rw [hstep] at hmem
          cases b with
          | true => simp at hmem
          | false =>
            exact ih s1 (scan_invariant_step syn rendered s s1 hnul hstep) s' hmem
      · simp at hmem

/-- The states of `scan_trace` are states of the scanning loop: the loop run
from the first state is the loop run from any later state of the trace. -/
theorem highlight_loop_scan_trace (syn : Syntax) (rendered : List Nat) (fuel : Nat) :
    ∀ (s s' : Scan) (j : Nat), (scan_trace syn rendered fuel s)[j]? = some s' →
      highlight_loop syn rendered fuel s = highlight_loop syn rendered (fuel - j) s' := by
  induction fuel with
  | zero =>
    intro s s' j h
    cases j with
    | zero => simp only [scan_trace, List.getElem?_cons_zero, Option.some.injEq] at h; rw [h]
    | succ j => simp [scan_trace] at h
  | succ fuel ih =>
    intro s s' j h
    cases j with
    | zero =>
      simp only [scan_trace, List.getElem?_cons_zero, Option.some.injEq] at h; rw [h]; rfl
    | succ j =>
      unfold scan_trace at h
      simp only [List.getElem?_cons_succ] at h
      split at h
      · rename_i hi
        cases hstep : highlight_step syn rendered s with
        | mk s1 b =>
          rw [hstep] at h
          cases b with
          | true => simp at h
          | false =>
            simp only at h
            rw [highlight_loop, if_pos hi, hstep]
            simp only
            rw [ih s1 s' j h, Nat.add_sub_add_right]
      · simp at h

theorem keyword_boundary_c_profile (rendered : List Nat) (index : Nat)
    (h : keyword_boundary c_profile rendered index) :
    index = 0 ∨ is_seperator (rendered.getD (index - 1) 0) = true := by
  rcases h with h | h | ⟨hlen, hpre⟩
  · exact Or.inl h
  · exact Or.inr h
  · refine Or.inr ?_
    have hl : c_profile.multi_line_comment_end = [42, 47] := by decide
    rw [hl] at hlen hpre
    simp only [List.length_cons, List.length_nil] at hlen hpre
    obtain ⟨t, ht⟩ := hpre
    have h1 : (rendered.drop (index - 2))[1]? = some 47 := by rw [← ht]; simp
    rw [List.getElem?_drop] at h1
    have h2 : index - 2 + 1 = index - 1 := by omega
    rw [h2] at h1
    rw [List.getD_eq_getElem?_getD, h1]
    decide

theorem syntaxes_facts (syn : Syntax) (hsyn : syn ∈ syntaxes) :
    (syn.flags &&& HIGHLIGHT_STRINGS != 0) = true
      ∧ 0 < syn.multi_line_comment_start.length
      ∧ 0 < syn.multi_line_comment_end.length
      ∧ (∀ x ∈ syn.multi_line_comment_end, x ≠ 0)
      ∧ (∀ keyword ∈ syn.keywords, ∀ x ∈ keyword, x ≠ 0) := by
  simp only [syntaxes, List.mem_cons, List.mem_singleton, List.not_mem_nil, or_false] at hsyn
  rcases hsyn with h | h <;> subst h <;> decide
/-- C23, counterexample.  With the Haskell profile, on the row
`{- c -}if x`, the scanning loop reaches index 7 with the keyword rule
applying: `if` is classified Keyword2 at bytes 7 and 8, although index 7 is not
the start of the row and byte 6, the brace that ends the comment, is not a
separator. -/
theorem keyword_after_comment_end :
    haskell_keyword_state
        ∈ scan_trace haskell_profile haskell_row 24 (scan_start (List.replicate 11 0) false)
      ∧ haskell_keyword_state.index = 7
      ∧ keyword_rule haskell_profile haskell_row haskell_keyword_state
          = some (HIGHLIGHT_KEYWORD2, 2)
      ∧ haskell_row.getD 6 0 = 125 ∧ is_seperator 125 = false
      ∧ highlight_rows (load_lines (some haskell_profile) [haskell_row])
          = [[2, 2, 0, 0, 0, 2, 2, 4, 4, 0, 0]] := by
  decide

/-- C23, amended.  For every profile of the table, whenever the keyword rule
classifies `k` bytes at index `i` in a state the scanning loop visits, the
class is Keyword1 or Keyword2, the iteration writes it to the `k` bytes and
clears `previous_seperator`, and `i` is the start of the row, or follows a
separator byte, or follows the block comment end token; the span lies within
the row and the byte at `i + k` (the terminating NUL at the end of the row) is
a separator.  With the C profile `i` is the start of the row or follows a
separator byte.  An iteration to which the keyword rule does not apply writes
no keyword class, and with the C profile the rows `print` and `integer` get no
keyword class. -/
theorem keyword_at_boundary (syn : Syntax) (hsyn : syn ∈ syntaxes)
    (rendered highlights : List Nat) (in_comment : Bool) (fuel : Nat) (s : Scan)
    (highlight k : Nat)
    (hs : s ∈ scan_trace syn rendered fuel (scan_start highlights in_comment))
    (hi : s.index < rendered.length)
    (hk : keyword_rule syn rendered s = some (highlight, k)) :
    (highlight = HIGHLIGHT_KEYWORD1 ∨ highlight = HIGHLIGHT_KEYWORD2)
      ∧ highlight_step syn rendered s
          = ({ s with
                highlights := memset s.highlights s.index highlight k
                index := s.index + k
                previous_seperator := false }, false)
      ∧ keyword_boundary syn rendered s.index
      ∧ (syn = c_profile →
          s.index = 0 ∨ is_seperator (rendered.getD (s.index - 1) 0) = true)
      ∧ s.index + k ≤ rendered.length
      ∧ is_seperator (rendered.getD (s.index + k) 0) = true
      ∧ (∀ (t : Scan) (p : Nat), keyword_rule syn rendered t = none →
          ((highlight_step syn rendered t).1.highlights[p]? = some HIGHLIGHT_KEYWORD1
            ∨ (highlight_step syn rendered t).1.highlights[p]? = some HIGHLIGHT_KEYWORD2) →
          t.highlights[p]? = (highlight_step syn rendered t).1.highlights[p]?)
      ∧ highlight_rows (load_lines (some c_profile) [cstr "print", cstr "integer"])
          = [[0, 0, 0, 0, 0], [0, 0, 0, 0, 0, 0, 0]] := by
  obtain ⟨hflag, hstart, hend, hnul, hkw⟩ := syntaxes_facts syn hsyn
  obtain ⟨hstr, hcom, hsep, hsearch⟩ :=
    keyword_rule_state syn rendered s (highlight, k) hflag hstart hend hk
  obtain ⟨hclass, hafter, keyword, hmem, hle, hcmp⟩ :=
    keyword_search_some rendered s.index highlight k syn.keywords hsearch
  have hinv := scan_trace_invariant syn rendered hnul fuel (scan_start highlights in_comment)
    (fun _ => Or.inr (Or.inr (Or.inl rfl))) s hs
  have hb : keyword_boundary syn rendered s.index := by
    rcases hinv hsep with h | h | h
    · rw [hcom] at h; cases h
    · exact absurd hstr h
    · exact h
  have hpre := prefix_of_strncmp_eq k (rendered.drop s.index) keyword hle
    (fun x hx => hkw keyword hmem x (List.mem_of_mem_take hx)) hcmp
  have hlen := hpre.length_le
  simp only [List.length_take, List.length_drop] at hlen
  refine ⟨hclass, keyword_rule_step syn rendered s highlight k hk, hb, ?_, by omega, hafter,
    fun t p ht hp => keyword_rule_none_step syn rendered t ht p hp, by decide⟩
  intro hc
  rw [hc] at hb
  exact keyword_boundary_c_profile rendered s.index hb

/-- C23 (amended) at two visited states: with the Haskell profile index 7 of
`{- c -}if x` follows the comment end token, and with the C profile index 5 of
`a/**/if x` follows the separator `/` that ends the token. -/
theorem keyword_at_boundary_witness :
    (haskell_keyword_state
        ∈ scan_trace haskell_profile haskell_row 24 (scan_start (List.replicate 11 0) false)
      ∧ haskell_keyword_state.index < haskell_row.length
      ∧ keyword_rule haskell_profile haskell_row haskell_keyword_state
          = some (HIGHLIGHT_KEYWORD2, 2)
      ∧ keyword_boundary haskell_profile haskell_row haskell_keyword_state.index
      ∧ is_seperator (haskell_row.getD (haskell_keyword_state.index + 2) 0) = true)
    ∧ (c_keyword_state
        ∈ scan_trace c_profile (cstr "a/**/if x") 24 (scan_start (List.replicate 9 0) false)
      ∧ c_keyword_state.index < (cstr "a/**/if x").length
      ∧ keyword_rule c_profile (cstr "a/**/if x") c_keyword_state
          = some (HIGHLIGHT_KEYWORD1, 2)
      ∧ (c_keyword_state.index = 0
          ∨ is_seperator ((cstr "a/**/if x").getD (c_keyword_state.index - 1) 0) = true)) :=
  ⟨⟨by decide, by decide, by decide,
      (keyword_at_boundary haskell_profile (by decide) haskell_row (List.replicate 11 0) false
        24 haskell_keyword_state HIGHLIGHT_KEYWORD2 2 (by decide) (by decide) (by decide)).2.2.1,
      (keyword_at_boundary haskell_profile (by decide) haskell_row (List.replicate 11 0) false
        24 haskell_keyword_state HIGHLIGHT_KEYWORD2 2 (by decide) (by decide)
        (by decide)).2.2.2.2.2.1⟩,
    by decide, by decide, by decide,
    (keyword_at_boundary c_profile (by decide) (cstr "a/**/if x") (List.replicate 9 0) false
      24 c_keyword_state HIGHLIGHT_KEYWORD1 2 (by decide) (by decide) (by decide)).2.2.2.1 rfl⟩

end Editor1
